import Mathlib

/-!
Verification development for the generic-instantiation core of the llgo
front end: the type-substitution engine
(src/third_party/gotools/go/types/generic.go) and the statement-rewriting
framework (the ast walk/transform source file).

The Go type graph is potentially cyclic and keyed by pointer identity, so
types are embedded as an arena of nodes addressed by integer handles
(TypeRef); the memoization map (seen) and the alias table are association
lists over handles, exactly mirroring the identity-keyed Go maps.  Go's
unbounded recursion is embedded with an explicit fuel parameter; running
out of fuel is a distinguished error, and a theorem shows a concrete fuel
bound is always sufficient (the termination argument of the Go code).
Runtime panics of the Go code (failed type assertions) are a second
distinguished error.
-/

namespace GoTypes

/-- Handle of a type node in the arena: stands for a Go pointer to a
heap-allocated type; handle equality is Go pointer equality. -/
abbrev TypeRef := Nat

/-- Identity of a TypeName object (the declaring symbol of a Named type);
used as the key of the alias table, as the Go code keys TypeAliases by
the *TypeName pointer old.obj. -/
abbrev SymId := Nat

/-- The embedded fields of a Go types.object value.  Modelled from the
spec: the object struct declaration itself is outside the extracted
sources; its fields (owning scope, source position, owning package, name,
declared type, declaration-order index) are those read and rebuilt by
substituteTypesObject in generic.go. -/
structure ObjectV where
  parent : Option Nat
  pos : Nat
  pkg : Option Nat
  name : String
  typ : Option TypeRef
  order : Nat
deriving DecidableEq, Repr

/-- The zero value of the object struct (Go: var argObject object). -/
def zeroObject : ObjectV := ⟨none, 0, none, "", none, 0⟩

/-- A *Var value: object plus the flags copied by substituteTypesVar. -/
structure VarV where
  obj : ObjectV
  anonymous : Bool
  visited : Bool
  isField : Bool
  used : Bool
deriving DecidableEq, Repr

/-- A *Func value: just the embedded object, as used by generic.go. -/
structure FuncV where
  obj : ObjectV
deriving DecidableEq, Repr

/-- A *TypeName value: just the embedded object, as used by generic.go.
Its arena-independent identity (the map key of TypeAliases) is the SymId
stored in the Named node that declares it. -/
structure TypeNameV where
  obj : ObjectV
deriving DecidableEq, Repr

/-- One Go type node.  Pointer-valued fields are Option TypeRef (none is
a nil pointer); slices of pointers are lists of Option values.  The
Named variant is modelled from the spec (Named its declaring symbol,
underlying type and instantiation context) since the types package's
struct declarations are outside the extracted sources; generic.go reads
exactly obj, underlying and context from it. -/
inductive TypeNode where
  | array (len : Int) (elem : Option TypeRef)
  | slice (elem : Option TypeRef)
  | struct_ (fields : List (Option VarV)) (tags : List String)
      (offsets : List Int) (typeParams : List (Option TypeNameV))
  | pointer (base : Option TypeRef)
  | tuple (vars : List (Option VarV))
  | signature (scope : Option Nat) (recv : Option VarV)
      (params : Option TypeRef) (results : Option TypeRef)
      (variadic : Bool) (typeParams : List (Option TypeNameV))
  | interface_ (methods : List (Option FuncV)) (embeddeds : List (Option TypeRef))
      (allMethods : List (Option FuncV)) (variance : Int)
  | map_ (key : Option TypeRef) (elem : Option TypeRef)
  | chan_ (dir : Nat) (elem : Option TypeRef)
  | named (obj : Option SymId) (underlying : Option TypeRef) (context : Option TypeRef)
  | basic (kind : Nat)
deriving DecidableEq, Repr

/-- The mutable state threaded through one substitution pass: the arena
of type nodes (Go heap), the alias table pointer (none is a nil
*TypeAliases) and the seen memoization map.  Both maps are association
lists read through mapRead, so writing a key again shadows the old
entry, exactly like a Go map assignment, and a stored nil value reads
the same as an absent key (Go map reads return nil either way). -/
structure State where
  arena : List TypeNode
  aliases : Option (List (SymId × Option TypeRef))
  seen : List (TypeRef × Option TypeRef)
deriving DecidableEq, Repr

/-- Read a Go map of pointers: absent key and stored nil both read nil. -/
def mapRead (l : List (Nat × Option TypeRef)) (k : Nat) : Option TypeRef :=
  match l.find? (fun p => p.1 == k) with
  | some p => p.2
  | none => none

def seenRead (st : State) (t : TypeRef) : Option TypeRef := mapRead st.seen t

def seenSet (st : State) (t : TypeRef) (v : Option TypeRef) : State :=
  { st with seen := (t, v) :: st.seen }

def aliasRead (st : State) (s : SymId) : Option TypeRef :=
  match st.aliases with
  | some m => mapRead m s
  | none => none

def aliasSet (st : State) (s : SymId) (v : Option TypeRef) : State :=
  { st with aliases := st.aliases.map (fun m => (s, v) :: m) }

/-- Dereference a type handle (nil-safe lookups go through argNode). -/
def typeAt (st : State) (r : TypeRef) : Option TypeNode := st.arena[r]?

/-- Dereference a possibly-nil type value. -/
def argNode (st : State) (arg : Option TypeRef) : Option TypeNode :=
  match arg with
  | some a => typeAt st a
  | none => none

/-- Allocate a fresh node (Go: taking the address of a composite literal). -/
def alloc (st : State) (n : TypeNode) : TypeRef × State :=
  (st.arena.length, { st with arena := st.arena ++ [n] })

/-- Errors of the embedded computation: fuelOut is the embedding artifact
marking exhausted fuel, crashed is a Go runtime panic (failed type
assertion in substituteTypesNameds). -/
inductive SubErr where
  | fuelOut
  | crashed
deriving DecidableEq, Repr

/-- The assignability oracle.  Modelled from the spec: AssignableTo is
defined outside the extracted sources; the spec says substitution binds a
parameter when the argument is assignable to the parameter's declared
constraint/underlying type and treats an absent argument as not
assignable.  The development quantifies over this predicate (arena,
argument type, target Named handle). -/
abbrev AssignPred := List TypeNode → Option TypeRef → TypeRef → Bool

/-- generic.go substituteTypesNamed: the leaf case of substitution for a
Named type.  Takes the alias branch exactly when the alias table is
non-nil, the declaring symbol is non-nil and the instantiation context
is pointer-equal to the substitution context; a recorded binding is
returned verbatim, otherwise the argument is bound and returned when
assignable, otherwise the original is returned unresolved. -/
def substituteTypesNamed (asgn : AssignPred) (ctx : Option TypeRef)
    (old : Option TypeRef) (argTyp : Option TypeRef) (st : State) :
    Option TypeRef × State :=
  match old with
  | none => (none, st)
  | some o =>
    match typeAt st o with
    | some (.named obj _underlying octx) =>
      match st.aliases, obj with
      | some amap, some sym =>
        if octx = ctx then
          match mapRead amap sym with
          | some b => (some b, st)
          | none =>
            if asgn st.arena argTyp o then
              (argTyp, aliasSet st sym argTyp)
            else
              (some o, st)
        else
          (some o, st)
      | _, _ => (some o, st)
    | _ => (some o, st)

/-- generic.go substituteTypesNameds: element-wise substitution of a
[]*Named slice; the Go code asserts each result back to *Named, which
panics when the substituted value is nil or not a Named type. -/
def substituteTypesNameds (asgn : AssignPred) (ctx : Option TypeRef)
    (old : List (Option TypeRef)) (argNameds : List (Option TypeRef))
    (st : State) : Except SubErr (List (Option TypeRef) × State) :=
  match old with
  | [] => .ok ([], st)
  | v :: rest =>
    let argNamed : Option TypeRef := (argNameds[0]?).bind id
    match substituteTypesNamed asgn ctx v argNamed st with
    | (res, st1) =>
      match res with
      | none => .error .crashed
      | some r =>
        match typeAt st1 r with
        | some (.named _ _ _) =>
          match substituteTypesNameds asgn ctx rest (argNameds.drop 1) st1 with
          | .error e => .error e
          | .ok (rs, st2) => .ok (some r :: rs, st2)
        | _ => .error .crashed

mutual

/-- generic.go substituteTypes: the recursive engine.  A nil type maps to
nil; a type already in seen returns the memoized (possibly placeholder)
value; otherwise seen gets the placeholder entry, the matching variant of
the argument is destructured (absent when the kinds differ), children are
substituted, a fresh node is allocated and finally recorded in seen.  A
handle that does not dereference (impossible for a Go heap) is treated
like the default case, substituting to itself. -/
def substituteTypes (asgn : AssignPred) (fuel : Nat) (ctx : Option TypeRef)
    (typ argTyp : Option TypeRef) (st : State) :
    Except SubErr (Option TypeRef × State) :=
  match fuel with
  | 0 => .error .fuelOut
  | fuel + 1 =>
    match typ with
    | none => .ok (none, st)
    | some t =>
      match seenRead st t with
      | some r => .ok (some r, st)
      | none =>
        let st1 := seenSet st t (some t)
        match typeAt st1 t with
        | none => .ok (some t, seenSet st1 t (some t))
        | some tn =>
          match tn with
          | .array len elem =>
            let argElem : Option TypeRef :=
              match argNode st1 argTyp with
              | some (.array _ ae) => ae
              | _ => none
            match substituteTypes asgn fuel ctx elem argElem st1 with
            | .error e => .error e
            | .ok (elem2, st2) =>
              let (r, st3) := alloc st2 (.array len elem2)
              .ok (some r, seenSet st3 t (some r))
          | .slice elem =>
            let argElem : Option TypeRef :=
              match argNode st1 argTyp with
              | some (.slice ae) => ae
              | _ => none
            match substituteTypes asgn fuel ctx elem argElem st1 with
            | .error e => .error e
            | .ok (elem2, st2) =>
              let (r, st3) := alloc st2 (.slice elem2)
              .ok (some r, seenSet st3 t (some r))
          | .struct_ fields tags offsets typeParams =>
            let argFields : List (Option VarV) :=
              match argNode st1 argTyp with
              | some (.struct_ fs _ _ _) => fs
              | _ => []
            let argTypeParams : List (Option TypeNameV) :=
              match argNode st1 argTyp with
              | some (.struct_ _ _ _ tps) => tps
              | _ => []
            match substituteTypesVars asgn fuel ctx fields argFields st1 with
            | .error e => .error e
            | .ok (fields2, st2) =>
              match substituteTypesTypeNames asgn fuel ctx typeParams argTypeParams st2 with
              | .error e => .error e
              | .ok (tps2, st3) =>
                let (r, st4) := alloc st3 (.struct_ fields2 tags offsets tps2)
                .ok (some r, seenSet st4 t (some r))
          | .pointer base =>
            let argBase : Option TypeRef :=
              match argNode st1 argTyp with
              | some (.pointer ab) => ab
              | _ => none
            match substituteTypes asgn fuel ctx base argBase st1 with
            | .error e => .error e
            | .ok (base2, st2) =>
              let (r, st3) := alloc st2 (.pointer base2)
              .ok (some r, seenSet st3 t (some r))
          | .tuple vars =>
            let argVars : List (Option VarV) :=
              match argNode st1 argTyp with
              | some (.tuple avs) => avs
              | _ => []
            match substituteTypesVars asgn fuel ctx vars argVars st1 with
            | .error e => .error e
            | .ok (vars2, st2) =>
              let (r, st3) := alloc st2 (.tuple vars2)
              .ok (some r, seenSet st3 t (some r))
          | .signature scope recv params results variadic typeParams =>
            let argParams : Option TypeRef :=
              match argNode st1 argTyp with
              | some (.signature _ _ p _ _ _) => p
              | _ => none
            let argResults : Option TypeRef :=
              match argNode st1 argTyp with
              | some (.signature _ _ _ q _ _) => q
              | _ => none
            let argTypeParams : List (Option TypeNameV) :=
              match argNode st1 argTyp with
              | some (.signature _ _ _ _ _ tps) => tps
              | _ => []
            match substituteTypesTuple asgn fuel ctx params argParams st1 with
            | .error e => .error e
            | .ok (params2, st2) =>
              match substituteTypesTuple asgn fuel ctx results argResults st2 with
              | .error e => .error e
              | .ok (results2, st3) =>
                match substituteTypesTypeNames asgn fuel ctx typeParams argTypeParams st3 with
                | .error e => .error e
                | .ok (tps2, st4) =>
                  let (r, st5) := alloc st4 (.signature scope recv params2 results2 variadic tps2)
                  .ok (some r, seenSet st5 t (some r))
          | .interface_ methods embeddeds allMethods variance =>
            let argMethods : List (Option FuncV) :=
              match argNode st1 argTyp with
              | some (.interface_ ms _ _ _) => ms
              | _ => []
            let argEmbeds : List (Option TypeRef) :=
              match argNode st1 argTyp with
              | some (.interface_ _ es _ _) => es
              | _ => []
            let argAllMethods : List (Option FuncV) :=
              match argNode st1 argTyp with
              | some (.interface_ _ _ ams _) => ams
              | _ => []
            match substituteTypesFuncs asgn fuel ctx methods argMethods st1 with
            | .error e => .error e
            | .ok (ms2, st2) =>
              match substituteTypesNameds asgn ctx embeddeds argEmbeds st2 with
              | .error e => .error e
              | .ok (es2, st3) =>
                match substituteTypesFuncs asgn fuel ctx allMethods argAllMethods st3 with
                | .error e => .error e
                | .ok (ams2, st4) =>
                  let (r, st5) := alloc st4 (.interface_ ms2 es2 ams2 variance)
                  .ok (some r, seenSet st5 t (some r))
          | .map_ key elem =>
            let argKey : Option TypeRef :=
              match argNode st1 argTyp with
              | some (.map_ ak _) => ak
              | _ => none
            let argElem : Option TypeRef :=
              match argNode st1 argTyp with
              | some (.map_ _ ae) => ae
              | _ => none
            match substituteTypes asgn fuel ctx key argKey st1 with
            | .error e => .error e
            | .ok (key2, st2) =>
              match substituteTypes asgn fuel ctx elem argElem st2 with
              | .error e => .error e
              | .ok (elem2, st3) =>
                let (r, st4) := alloc st3 (.map_ key2 elem2)
                .ok (some r, seenSet st4 t (some r))
          | .chan_ dir elem =>
            let argElem : Option TypeRef :=
              match argNode st1 argTyp with
              | some (.chan_ _ ae) => ae
              | _ => none
            match substituteTypes asgn fuel ctx elem argElem st1 with
            | .error e => .error e
            | .ok (elem2, st2) =>
              let (r, st3) := alloc st2 (.chan_ dir elem2)
              .ok (some r, seenSet st3 t (some r))
          | .named _ _ _ =>
            match substituteTypesNamed asgn ctx (some t) argTyp st1 with
            | (sub, st2) => .ok (sub, seenSet st2 t sub)
          | .basic _k =>
            .ok (some t, seenSet st1 t (some t))
termination_by (fuel, 0)

/-- generic.go substituteTypesObject: rebuild an object value, keeping
parent, position, package, name and order and substituting the type. -/
def substituteTypesObject (asgn : AssignPred) (fuel : Nat) (ctx : Option TypeRef)
    (old argObject : ObjectV) (st : State) : Except SubErr (ObjectV × State) :=
  match substituteTypes asgn fuel ctx old.typ argObject.typ st with
  | .error e => .error e
  | .ok (typ2, st2) =>
    .ok (⟨old.parent, old.pos, old.pkg, old.name, typ2, old.order⟩, st2)
termination_by (fuel, 1)

/-- generic.go substituteTypesVar (nil in, nil out; an absent argument
Var contributes the zero object). -/
def substituteTypesVar (asgn : AssignPred) (fuel : Nat) (ctx : Option TypeRef)
    (old argVar : Option VarV) (st : State) : Except SubErr (Option VarV × State) :=
  match old with
  | none => .ok (none, st)
  | some ov =>
    let argObject : ObjectV :=
      match argVar with
      | some av => av.obj
      | none => zeroObject
    match substituteTypesObject asgn fuel ctx ov.obj argObject st with
    | .error e => .error e
    | .ok (obj2, st2) =>
      .ok (some ⟨obj2, ov.anonymous, ov.visited, ov.isField, ov.used⟩, st2)
termination_by (fuel, 2)

/-- generic.go substituteTypesFunc. -/
def substituteTypesFunc (asgn : AssignPred) (fuel : Nat) (ctx : Option TypeRef)
    (old argFunc : Option FuncV) (st : State) : Except SubErr (Option FuncV × State) :=
  match old with
  | none => .ok (none, st)
  | some of =>
    let argObject : ObjectV :=
      match argFunc with
      | some af => af.obj
      | none => zeroObject
    match substituteTypesObject asgn fuel ctx of.obj argObject st with
    | .error e => .error e
    | .ok (obj2, st2) => .ok (some ⟨obj2⟩, st2)
termination_by (fuel, 2)

/-- generic.go substituteTypesTypeName. -/
def substituteTypesTypeName (asgn : AssignPred) (fuel : Nat) (ctx : Option TypeRef)
    (old argTypeName : Option TypeNameV) (st : State) :
    Except SubErr (Option TypeNameV × State) :=
  match old with
  | none => .ok (none, st)
  | some ot =>
    let argObject : ObjectV :=
      match argTypeName with
      | some at_ => at_.obj
      | none => zeroObject
    match substituteTypesObject asgn fuel ctx ot.obj argObject st with
    | .error e => .error e
    | .ok (obj2, st2) => .ok (some ⟨obj2⟩, st2)
termination_by (fuel, 2)

/-- generic.go substituteTypesVars: element-wise over a []*Var, pairing
each element with the argument element at the same index when present
(the Go index loop is embedded as structural recursion that drops the
head of the argument list in step with the template list). -/
def substituteTypesVars (asgn : AssignPred) (fuel : Nat) (ctx : Option TypeRef)
    (old argVars : List (Option VarV)) (st : State) :
    Except SubErr (List (Option VarV) × State) :=
  match old with
  | [] => .ok ([], st)
  | v :: rest =>
    let argVar : Option VarV := (argVars[0]?).bind id
    match substituteTypesVar asgn fuel ctx v argVar st with
    | .error e => .error e
    | .ok (v2, st2) =>
      match substituteTypesVars asgn fuel ctx rest (argVars.drop 1) st2 with
      | .error e => .error e
      | .ok (vs2, st3) => .ok (v2 :: vs2, st3)
termination_by (fuel, 3 + old.length)

/-- generic.go substituteTypesFuncs. -/
def substituteTypesFuncs (asgn : AssignPred) (fuel : Nat) (ctx : Option TypeRef)
    (old argFuncs : List (Option FuncV)) (st : State) :
    Except SubErr (List (Option FuncV) × State) :=
  match old with
  | [] => .ok ([], st)
  | f :: rest =>
    let argFunc : Option FuncV := (argFuncs[0]?).bind id
    match substituteTypesFunc asgn fuel ctx f argFunc st with
    | .error e => .error e
    | .ok (f2, st2) =>
      match substituteTypesFuncs asgn fuel ctx rest (argFuncs.drop 1) st2 with
      | .error e => .error e
      | .ok (fs2, st3) => .ok (f2 :: fs2, st3)
termination_by (fuel, 3 + old.length)

/-- generic.go substituteTypesTypeNames. -/
def substituteTypesTypeNames (asgn : AssignPred) (fuel : Nat) (ctx : Option TypeRef)
    (old argTypeNames : List (Option TypeNameV)) (st : State) :
    Except SubErr (List (Option TypeNameV) × State) :=
  match old with
  | [] => .ok ([], st)
  | t :: rest =>
    let argTypeName : Option TypeNameV := (argTypeNames[0]?).bind id
    match substituteTypesTypeName asgn fuel ctx t argTypeName st with
    | .error e => .error e
    | .ok (t2, st2) =>
      match substituteTypesTypeNames asgn fuel ctx rest (argTypeNames.drop 1) st2 with
      | .error e => .error e
      | .ok (ts2, st3) => .ok (t2 :: ts2, st3)
termination_by (fuel, 3 + old.length)

/-- generic.go substituteTypesTuple: substitution of a *Tuple field of a
Signature; note the Go code recurses directly into the tuple's vars
without consulting seen.  A handle that is not a tuple node cannot arise
from the statically typed Go field and is treated as nil. -/
def substituteTypesTuple (asgn : AssignPred) (fuel : Nat) (ctx : Option TypeRef)
    (old argTuple : Option TypeRef) (st : State) :
    Except SubErr (Option TypeRef × State) :=
  match fuel with
  | 0 => .error .fuelOut
  | fuel + 1 =>
    match old with
    | none => .ok (none, st)
    | some o =>
      match typeAt st o with
      | some (.tuple vars) =>
        let argVars : List (Option VarV) :=
          match argNode st argTuple with
          | some (.tuple avs) => avs
          | _ => []
        match substituteTypesVars asgn fuel ctx vars argVars st with
        | .error e => .error e
        | .ok (vars2, st2) =>
          let (r, st3) := alloc st2 (.tuple vars2)
          .ok (some r, st3)
      | _ => .ok (none, st)
termination_by (fuel, 0)

end

/-- generic.go SubstituteTypes: the top-level entry point allocates a
fresh seen map for one substitution pass.  The fuel bound
2 * arena size + 2 is always sufficient for a closed arena (proved
below); Go needs no fuel. -/
def SubstituteTypes (asgn : AssignPred) (ctx : Option TypeRef)
    (typ argTyp : Option TypeRef) (st : State) :
    Except SubErr (Option TypeRef × State) :=
  substituteTypes asgn (2 * st.arena.length + 2) ctx typ argTyp { st with seen := [] }

/-- Short-circuit disjunction of the fueled Boolean checks (Go
left-to-right evaluation of a || b: a true decides, a false defers). -/
def rgOr (a b : Option Bool) : Option Bool :=
  match a with
  | some true => some true
  | some false => b
  | none => none

mutual

/-- generic.go RuntimeGeneric (the containsUnresolvedGeneric side
predicate): true iff the type or a structural child reachable through
its traversal is a Named type with a non-nil instantiation context.  The
Go function recurses without a memoization set, so it is fueled; the
element loops of the Go type switch are the runtimeGeneric* helpers
below.  A handle that does not dereference (impossible for a Go heap)
behaves like the default case, returning false. -/
def RuntimeGeneric (fuel : Nat) (st : State) (typ : Option TypeRef) : Option Bool :=
  match fuel with
  | 0 => none
  | fuel + 1 =>
    match typ with
    | none => some false
    | some t =>
      match typeAt st t with
      | none => some false
      | some tn =>
        match tn with
        | .array _ elem => RuntimeGeneric fuel st elem
        | .slice elem => RuntimeGeneric fuel st elem
        | .pointer base => RuntimeGeneric fuel st base
        | .map_ key elem => rgOr (RuntimeGeneric fuel st key) (RuntimeGeneric fuel st elem)
        | .chan_ _ elem => RuntimeGeneric fuel st elem
        | .named _ _ octx => some octx.isSome
        | .tuple vars => runtimeGenericVars fuel st vars
        | .signature _ _ params results _ typeParams =>
          rgOr (rgOr (RuntimeGeneric fuel st params) (RuntimeGeneric fuel st results))
            (runtimeGenericTypeNames fuel st typeParams)
        | .struct_ fields _ _ typeParams =>
          rgOr (runtimeGenericVars fuel st fields)
            (runtimeGenericTypeNames fuel st typeParams)
        | .interface_ methods embeddeds _allMethods _variance =>
          rgOr (runtimeGenericFuncs fuel st methods)
            (runtimeGenericEmbeds fuel st embeddeds)
        | .basic _ => some false
termination_by (fuel, 0)

/-- The Tuple and Struct field loops of RuntimeGeneric: a nil element is
skipped, a generic element type decides true. -/
def runtimeGenericVars (fuel : Nat) (st : State) (l : List (Option VarV)) : Option Bool :=
  match l with
  | [] => some false
  | v :: rest =>
    match v with
    | some vv => rgOr (RuntimeGeneric fuel st vv.obj.typ) (runtimeGenericVars fuel st rest)
    | none => runtimeGenericVars fuel st rest
termination_by (fuel, 1 + l.length)

/-- The typeParams loops of RuntimeGeneric. -/
def runtimeGenericTypeNames (fuel : Nat) (st : State) (l : List (Option TypeNameV)) :
    Option Bool :=
  match l with
  | [] => some false
  | t :: rest =>
    match t with
    | some tt => rgOr (RuntimeGeneric fuel st tt.obj.typ) (runtimeGenericTypeNames fuel st rest)
    | none => runtimeGenericTypeNames fuel st rest
termination_by (fuel, 1 + l.length)

/-- The Interface methods loop of RuntimeGeneric. -/
def runtimeGenericFuncs (fuel : Nat) (st : State) (l : List (Option FuncV)) : Option Bool :=
  match l with
  | [] => some false
  | f :: rest =>
    match f with
    | some ff => rgOr (RuntimeGeneric fuel st ff.obj.typ) (runtimeGenericFuncs fuel st rest)
    | none => runtimeGenericFuncs fuel st rest
termination_by (fuel, 1 + l.length)

/-- The Interface embeddeds loop of RuntimeGeneric: the Go code checks
RuntimeGeneric(embed.underlying), not the embed itself; a handle that is
not a Named node cannot arise from the []*Named field and is skipped. -/
def runtimeGenericEmbeds (fuel : Nat) (st : State) (l : List (Option TypeRef)) :
    Option Bool :=
  match l with
  | [] => some false
  | e :: rest =>
    match e with
    | some er =>
      match typeAt st er with
      | some (.named _ underlying _) =>
        rgOr (RuntimeGeneric fuel st underlying) (runtimeGenericEmbeds fuel st rest)
      | _ => runtimeGenericEmbeds fuel st rest
    | none => runtimeGenericEmbeds fuel st rest
termination_by (fuel, 1 + l.length)

end

/-- generic.go SimpleRuntimeGeneric: a direct generic reference is a
Named type with a non-nil instantiation context. -/
def SimpleRuntimeGeneric (st : State) (typ : Option TypeRef) : Bool :=
  match argNode st typ with
  | some (.named _ _ octx) => octx.isSome
  | _ => false

/-- generic.go ComplexRuntimeGeneric: generic but not itself a Named
type (the isNamed flag of the Go type assertion ignores the context). -/
def ComplexRuntimeGeneric (fuel : Nat) (st : State) (typ : Option TypeRef) : Option Bool :=
  let isNamed : Bool :=
    match argNode st typ with
    | some (.named _ _ _) => true
    | _ => false
  match RuntimeGeneric fuel st typ with
  | none => none
  | some b => some (b && !isNamed)

/-! Derived predicates used by the verification layer. -/

/-- A handle of a composite (non-Named) node. -/
def isCompB (st : State) (k : Nat) : Bool :=
  match typeAt st k with
  | some (.named _ _ _) => false
  | some _ => true
  | none => false

/-- How one substitution call may change the state: the arena only grows
at the end (allocation never mutates existing nodes), a composite type
once memoized stays memoized (a Named entry can be re-set to nil when the
recorded substitution is nil, so only composite entries are monotone),
and an alias binding that reads non-nil is never changed (first binding
wins). -/
def StEvol (st st2 : State) : Prop :=
  (∃ ext, st2.arena = st.arena ++ ext) ∧
  (∀ k, isCompB st k = true → (seenRead st k).isSome → (seenRead st2 k).isSome) ∧
  (∀ s b, aliasRead st s = some b → aliasRead st2 s = some b)

/-- A possibly-nil handle lies below the bound N. -/
def refBelow (N : Nat) : Option TypeRef → Bool
  | none => true
  | some t => t < N

/-- All handles this node makes the substitution engine recurse into (or
dereference as a tuple) lie below N.  Named nodes are leaves of the
recursion and Signature receivers and Interface embed elements are never
recursed into, so they are unconstrained. -/
def nodeClosedB (N : Nat) : TypeNode → Bool
  | .array _ elem => refBelow N elem
  | .slice elem => refBelow N elem
  | .struct_ fields _ _ typeParams =>
    fields.all (fun v =>
      match v with
      | some vv => refBelow N vv.obj.typ
      | none => true) &&
    typeParams.all (fun t =>
      match t with
      | some tt => refBelow N tt.obj.typ
      | none => true)
  | .pointer base => refBelow N base
  | .tuple vars =>
    vars.all (fun v =>
      match v with
      | some vv => refBelow N vv.obj.typ
      | none => true)
  | .signature _ _ params results _ typeParams =>
    refBelow N params && refBelow N results &&
    typeParams.all (fun t =>
      match t with
      | some tt => refBelow N tt.obj.typ
      | none => true)
  | .interface_ methods _ allMethods _ =>
    methods.all (fun f =>
      match f with
      | some ff => refBelow N ff.obj.typ
      | none => true) &&
    allMethods.all (fun f =>
      match f with
      | some ff => refBelow N ff.obj.typ
      | none => true)
  | .map_ key elem => refBelow N key && refBelow N elem
  | .chan_ _ elem => refBelow N elem
  | .named _ _ _ => true
  | .basic _ => true

/-- The first N arena nodes exist and are closed below N: this is the
well-formedness a Go heap always has (every pointer dereferences). -/
def ClosedN (N : Nat) (st : State) : Prop :=
  N ≤ st.arena.length ∧
  ∀ i, i < N → ∀ tn, typeAt st i = some tn → nodeClosedB N tn = true

/-- The number of unvisited composite handles below N: the decreasing
measure of one substitution pass. -/
def muC (st : State) (N : Nat) : Nat :=
  ((Finset.range N).filter
    (fun i => isCompB st i = true ∧ seenRead st i = none)).card

/-- One step of the substitution engine's recursion between type handles
(composite child, tuple member type, object type of a field, parameter
or method; Named nodes are leaves). -/
inductive SubStep (st : State) : TypeRef → TypeRef → Prop where
  | arrayElem {r l e} : typeAt st r = some (.array l (some e)) → SubStep st r e
  | sliceElem {r e} : typeAt st r = some (.slice (some e)) → SubStep st r e
  | pointerBase {r e} : typeAt st r = some (.pointer (some e)) → SubStep st r e
  | mapKey {r e q} : typeAt st r = some (.map_ (some e) q) → SubStep st r e
  | mapElem {r k e} : typeAt st r = some (.map_ k (some e)) → SubStep st r e
  | chanElem {r d e} : typeAt st r = some (.chan_ d (some e)) → SubStep st r e
  | tupleVar {r vs vv e} : typeAt st r = some (.tuple vs) → some vv ∈ vs →
      vv.obj.typ = some e → SubStep st r e
  | structField {r fs tg og tp vv e} : typeAt st r = some (.struct_ fs tg og tp) →
      some vv ∈ fs → vv.obj.typ = some e → SubStep st r e
  | structTypeParam {r fs tg og tp tt e} : typeAt st r = some (.struct_ fs tg og tp) →
      some tt ∈ tp → tt.obj.typ = some e → SubStep st r e
  | sigParams {r sc rc p q vd tp} :
      typeAt st r = some (.signature sc rc (some p) q vd tp) → SubStep st r p
  | sigResults {r sc rc p q vd tp} :
      typeAt st r = some (.signature sc rc p (some q) vd tp) → SubStep st r q
  | sigTypeParam {r sc rc p q vd tp tt e} :
      typeAt st r = some (.signature sc rc p q vd tp) → some tt ∈ tp →
      tt.obj.typ = some e → SubStep st r e
  | ifaceMethod {r ms es ams vr ff e} : typeAt st r = some (.interface_ ms es ams vr) →
      some ff ∈ ms → ff.obj.typ = some e → SubStep st r e
  | ifaceEmbed {r ms es ams vr e} : typeAt st r = some (.interface_ ms es ams vr) →
      some e ∈ es → SubStep st r e
  | ifaceAllMethod {r ms es ams vr ff e} : typeAt st r = some (.interface_ ms es ams vr) →
      some ff ∈ ams → ff.obj.typ = some e → SubStep st r e

/-- A type-parameter placeholder of the given context: a Named node with
a declaring symbol whose recorded instantiation context equals the
substitution context (the condition under which substituteTypesNamed
takes the alias branch). -/
def IsPlaceholderAt (st : State) (ctx : Option TypeRef) (r : TypeRef) : Prop :=
  ∃ sym u octx, typeAt st r = some (.named (some sym) u octx) ∧ octx = ctx

/-- No placeholder of the context is reachable from this handle through
the substitution traversal. -/
def NoPH (st : State) (ctx : Option TypeRef) (t : TypeRef) : Prop :=
  ∀ r', Relation.ReflTransGen (SubStep st) t r' → ¬ IsPlaceholderAt st ctx r'

def NoPHopt (st : State) (ctx : Option TypeRef) (typ : Option TypeRef) : Prop :=
  ∀ t, typ = some t → NoPH st ctx t

mutual

/-- Depth-n structural equality of two possibly-nil type handles in one
arena (equal handles are structurally equal at every depth; distinct
handles must carry matching nodes whose children are equal at depth
n-1).  Holding for every n, this is structural bisimilarity, the
structural equality of possibly cyclic Go types. -/
def StructEqN (n : Nat) (st : State) (a b : Option TypeRef) : Prop :=
  match n with
  | 0 => True
  | n + 1 =>
    match a, b with
    | none, none => True
    | some x, some y => x = y ∨ NodeEqN n st (typeAt st x) (typeAt st y)
    | _, _ => False
termination_by (n, 1)

/-- Depth-n structural equality of two dereferenced nodes: same variant,
equal non-type metadata, children equal at depth n. -/
def NodeEqN (n : Nat) (st : State) (a b : Option TypeNode) : Prop :=
  match a, b with
  | some (.array l1 e1), some (.array l2 e2) => l1 = l2 ∧ StructEqN n st e1 e2
  | some (.slice e1), some (.slice e2) => StructEqN n st e1 e2
  | some (.struct_ f1 t1 o1 tp1), some (.struct_ f2 t2 o2 tp2) =>
    t1 = t2 ∧ o1 = o2 ∧ VarsEqN n st f1 f2 ∧ TypeNamesEqN n st tp1 tp2
  | some (.pointer b1), some (.pointer b2) => StructEqN n st b1 b2
  | some (.tuple v1), some (.tuple v2) => VarsEqN n st v1 v2
  | some (.signature s1 r1 p1 q1 vd1 tp1), some (.signature s2 r2 p2 q2 vd2 tp2) =>
    s1 = s2 ∧ r1 = r2 ∧ vd1 = vd2 ∧ StructEqN n st p1 p2 ∧ StructEqN n st q1 q2 ∧
      TypeNamesEqN n st tp1 tp2
  | some (.interface_ m1 e1 a1 v1), some (.interface_ m2 e2 a2 v2) =>
    v1 = v2 ∧ FuncsEqN n st m1 m2 ∧ RefsEqN n st e1 e2 ∧ FuncsEqN n st a1 a2
  | some (.map_ k1 e1), some (.map_ k2 e2) => StructEqN n st k1 k2 ∧ StructEqN n st e1 e2
  | some (.chan_ d1 e1), some (.chan_ d2 e2) => d1 = d2 ∧ StructEqN n st e1 e2
  | some (.named o1 u1 c1), some (.named o2 u2 c2) => o1 = o2 ∧ u1 = u2 ∧ c1 = c2
  | some (.basic k1), some (.basic k2) => k1 = k2
  | _, _ => False
termination_by (n + 1, 0)

/-- Depth-n equality of object values: all metadata equal, declared
types structurally equal. -/
def ObjEqN (n : Nat) (st : State) (o1 o2 : ObjectV) : Prop :=
  o1.parent = o2.parent ∧ o1.pos = o2.pos ∧ o1.pkg = o2.pkg ∧ o1.name = o2.name ∧
    o1.order = o2.order ∧ StructEqN n st o1.typ o2.typ
termination_by (n, 2)

def VarsEqN (n : Nat) (st : State) (l1 l2 : List (Option VarV)) : Prop :=
  match l1, l2 with
  | [], [] => True
  | some v1 :: r1, some v2 :: r2 =>
    ObjEqN n st v1.obj v2.obj ∧ v1.anonymous = v2.anonymous ∧ v1.visited = v2.visited ∧
      v1.isField = v2.isField ∧ v1.used = v2.used ∧ VarsEqN n st r1 r2
  | none :: r1, none :: r2 => VarsEqN n st r1 r2
  | _, _ => False
termination_by (n, 3 + l1.length)

def FuncsEqN (n : Nat) (st : State) (l1 l2 : List (Option FuncV)) : Prop :=
  match l1, l2 with
  | [], [] => True
  | some f1 :: r1, some f2 :: r2 => ObjEqN n st f1.obj f2.obj ∧ FuncsEqN n st r1 r2
  | none :: r1, none :: r2 => FuncsEqN n st r1 r2
  | _, _ => False
termination_by (n, 3 + l1.length)

def TypeNamesEqN (n : Nat) (st : State) (l1 l2 : List (Option TypeNameV)) : Prop :=
  match l1, l2 with
  | [], [] => True
  | some t1 :: r1, some t2 :: r2 => ObjEqN n st t1.obj t2.obj ∧ TypeNamesEqN n st r1 r2
  | none :: r1, none :: r2 => TypeNamesEqN n st r1 r2
  | _, _ => False
termination_by (n, 3 + l1.length)

def RefsEqN (n : Nat) (st : State) (l1 l2 : List (Option TypeRef)) : Prop :=
  match l1, l2 with
  | [], [] => True
  | e1 :: r1, e2 :: r2 => StructEqN n st e1 e2 ∧ RefsEqN n st r1 r2
  | _, _ => False
termination_by (n, 3 + l1.length)

end

/-- Generic-reachability exactly as the RuntimeGeneric traversal walks
the graph: the handle itself is a Named node with non-nil context, or a
child the code actually visits is generic-reachable.  Note the Interface
case follows the code: methods are visited, embeds contribute only their
underlying type, and allMethods are not visited. -/
inductive GenReach (st : State) : TypeRef → Prop where
  | namedHere {r o u c} : typeAt st r = some (.named o u (some c)) → GenReach st r
  | arrayElem {r l e} : typeAt st r = some (.array l (some e)) → GenReach st e → GenReach st r
  | sliceElem {r e} : typeAt st r = some (.slice (some e)) → GenReach st e → GenReach st r
  | pointerBase {r e} : typeAt st r = some (.pointer (some e)) → GenReach st e → GenReach st r
  | mapKey {r e q} : typeAt st r = some (.map_ (some e) q) → GenReach st e → GenReach st r
  | mapElem {r k e} : typeAt st r = some (.map_ k (some e)) → GenReach st e → GenReach st r
  | chanElem {r d e} : typeAt st r = some (.chan_ d (some e)) → GenReach st e → GenReach st r
  | tupleVar {r vs vv e} : typeAt st r = some (.tuple vs) → some vv ∈ vs →
      vv.obj.typ = some e → GenReach st e → GenReach st r
  | sigParams {r sc rc p q vd tp} : typeAt st r = some (.signature sc rc (some p) q vd tp) →
      GenReach st p → GenReach st r
  | sigResults {r sc rc p q vd tp} : typeAt st r = some (.signature sc rc p (some q) vd tp) →
      GenReach st q → GenReach st r
  | sigTypeParam {r sc rc p q vd tp tt e} : typeAt st r = some (.signature sc rc p q vd tp) →
      some tt ∈ tp → tt.obj.typ = some e → GenReach st e → GenReach st r
  | structField {r fs tg og tp vv e} : typeAt st r = some (.struct_ fs tg og tp) →
      some vv ∈ fs → vv.obj.typ = some e → GenReach st e → GenReach st r
  | structTypeParam {r fs tg og tp tt e} : typeAt st r = some (.struct_ fs tg og tp) →
      some tt ∈ tp → tt.obj.typ = some e → GenReach st e → GenReach st r
  | ifaceMethod {r ms es ams vr ff e} : typeAt st r = some (.interface_ ms es ams vr) →
      some ff ∈ ms → ff.obj.typ = some e → GenReach st e → GenReach st r
  | ifaceEmbedUnderlying {r ms es ams vr e o u c} :
      typeAt st r = some (.interface_ ms es ams vr) → some e ∈ es →
      typeAt st e = some (.named o (some u) c) → GenReach st u → GenReach st r

/-- One structural-child step as enumerated by the claim about
containsUnresolvedGeneric (array/slice element, pointer base, map key
and value, channel element, tuple members, signature
parameter/result/type-parameter lists, struct field/type-parameter
lists, interface method, embed, and all-methods lists).  This is the
claim's wording, to be compared with the traversal the code performs. -/
inductive SpecStep (st : State) : TypeRef → TypeRef → Prop where
  | arrayElem {r l e} : typeAt st r = some (.array l (some e)) → SpecStep st r e
  | sliceElem {r e} : typeAt st r = some (.slice (some e)) → SpecStep st r e
  | pointerBase {r e} : typeAt st r = some (.pointer (some e)) → SpecStep st r e
  | mapKey {r e q} : typeAt st r = some (.map_ (some e) q) → SpecStep st r e
  | mapElem {r k e} : typeAt st r = some (.map_ k (some e)) → SpecStep st r e
  | chanElem {r d e} : typeAt st r = some (.chan_ d (some e)) → SpecStep st r e
  | tupleVar {r vs vv e} : typeAt st r = some (.tuple vs) → some vv ∈ vs →
      vv.obj.typ = some e → SpecStep st r e
  | sigParams {r sc rc p q vd tp} :
      typeAt st r = some (.signature sc rc (some p) q vd tp) → SpecStep st r p
  | sigResults {r sc rc p q vd tp} :
      typeAt st r = some (.signature sc rc p (some q) vd tp) → SpecStep st r q
  | sigTypeParam {r sc rc p q vd tp tt e} : typeAt st r = some (.signature sc rc p q vd tp) →
      some tt ∈ tp → tt.obj.typ = some e → SpecStep st r e
  | structField {r fs tg og tp vv e} : typeAt st r = some (.struct_ fs tg og tp) →
      some vv ∈ fs → vv.obj.typ = some e → SpecStep st r e
  | structTypeParam {r fs tg og tp tt e} : typeAt st r = some (.struct_ fs tg og tp) →
      some tt ∈ tp → tt.obj.typ = some e → SpecStep st r e
  | ifaceMethod {r ms es ams vr ff e} : typeAt st r = some (.interface_ ms es ams vr) →
      some ff ∈ ms → ff.obj.typ = some e → SpecStep st r e
  | ifaceEmbed {r ms es ams vr e} : typeAt st r = some (.interface_ ms es ams vr) →
      some e ∈ es → SpecStep st r e
  | ifaceAllMethod {r ms es ams vr ff e} : typeAt st r = some (.interface_ ms es ams vr) →
      some ff ∈ ams → ff.obj.typ = some e → SpecStep st r e

/-- The claim's notion for containsUnresolvedGeneric: the type itself or
some type reachable through the claim's structural children is a Named
type with a non-null instantiation context. -/
def SpecReachGeneric (st : State) (r : TypeRef) : Prop :=
  ∃ r' o u c, Relation.ReflTransGen (SpecStep st) r r' ∧
    typeAt st r' = some (.named o u (some c))

/-- Statement of the state-evolution property for substituteTypes at one
fuel value, together with the memoization postcondition: the final seen
map records the substitution of the root. -/
def TypesEvol (f : Nat) : Prop :=
  ∀ asgn ctx typ arg st r st2,
    substituteTypes asgn f ctx typ arg st = .ok (r, st2) →
    StEvol st st2 ∧ ∀ t, typ = some t → seenRead st2 t = r

def ObjectEvol (f : Nat) : Prop :=
  ∀ asgn ctx old argO st o2 st2,
    substituteTypesObject asgn f ctx old argO st = .ok (o2, st2) → StEvol st st2

def VarEvol (f : Nat) : Prop :=
  ∀ asgn ctx old argV st v2 st2,
    substituteTypesVar asgn f ctx old argV st = .ok (v2, st2) → StEvol st st2

def FuncEvol (f : Nat) : Prop :=
  ∀ asgn ctx old argF st f2 st2,
    substituteTypesFunc asgn f ctx old argF st = .ok (f2, st2) → StEvol st st2

def TypeNameEvol (f : Nat) : Prop :=
  ∀ asgn ctx old argT st t2 st2,
    substituteTypesTypeName asgn f ctx old argT st = .ok (t2, st2) → StEvol st st2

def VarsEvol (f : Nat) : Prop :=
  ∀ asgn ctx old argVs st vs2 st2,
    substituteTypesVars asgn f ctx old argVs st = .ok (vs2, st2) → StEvol st st2

def FuncsEvol (f : Nat) : Prop :=
  ∀ asgn ctx old argFs st fs2 st2,
    substituteTypesFuncs asgn f ctx old argFs st = .ok (fs2, st2) → StEvol st st2

def TypeNamesEvol (f : Nat) : Prop :=
  ∀ asgn ctx old argTs st ts2 st2,
    substituteTypesTypeNames asgn f ctx old argTs st = .ok (ts2, st2) → StEvol st st2

def TupleEvol (f : Nat) : Prop :=
  ∀ asgn ctx old argT st r st2,
    substituteTypesTuple asgn f ctx old argT st = .ok (r, st2) → StEvol st st2

/-- All Var elements have declared types below N. -/
def VarsBelow (N : Nat) (l : List (Option VarV)) : Bool :=
  l.all (fun v => match v with | some vv => refBelow N vv.obj.typ | none => true)

def FuncsBelow (N : Nat) (l : List (Option FuncV)) : Bool :=
  l.all (fun f => match f with | some ff => refBelow N ff.obj.typ | none => true)

def TypeNamesBelow (N : Nat) (l : List (Option TypeNameV)) : Bool :=
  l.all (fun t => match t with | some tt => refBelow N tt.obj.typ | none => true)

def TypesAdeq (f : Nat) : Prop :=
  ∀ (asgn : AssignPred) (ctx typ arg : Option TypeRef) (st : State) (N : Nat),
    ClosedN N st → refBelow N typ = true → 2 * muC st N + 2 ≤ f →
    substituteTypes asgn f ctx typ arg st ≠ .error .fuelOut

def ObjectAdeq (f : Nat) : Prop :=
  ∀ (asgn : AssignPred) (ctx : Option TypeRef) (old argO : ObjectV) (st : State) (N : Nat),
    ClosedN N st → refBelow N old.typ = true → 2 * muC st N + 2 ≤ f →
    substituteTypesObject asgn f ctx old argO st ≠ .error .fuelOut

def VarAdeq (f : Nat) : Prop :=
  ∀ (asgn : AssignPred) (ctx : Option TypeRef) (old argV : Option VarV) (st : State) (N : Nat),
    ClosedN N st →
    (match old with | some ov => refBelow N ov.obj.typ | none => true) = true →
    2 * muC st N + 2 ≤ f →
    substituteTypesVar asgn f ctx old argV st ≠ .error .fuelOut

def FuncAdeq (f : Nat) : Prop :=
  ∀ (asgn : AssignPred) (ctx : Option TypeRef) (old argF : Option FuncV) (st : State) (N : Nat),
    ClosedN N st →
    (match old with | some ov => refBelow N ov.obj.typ | none => true) = true →
    2 * muC st N + 2 ≤ f →
    substituteTypesFunc asgn f ctx old argF st ≠ .error .fuelOut

def TypeNameAdeq (f : Nat) : Prop :=
  ∀ (asgn : AssignPred) (ctx : Option TypeRef) (old argT : Option TypeNameV) (st : State)
    (N : Nat),
    ClosedN N st →
    (match old with | some ov => refBelow N ov.obj.typ | none => true) = true →
    2 * muC st N + 2 ≤ f →
    substituteTypesTypeName asgn f ctx old argT st ≠ .error .fuelOut

def VarsAdeq (f : Nat) : Prop :=
  ∀ (asgn : AssignPred) (ctx : Option TypeRef) (old argVs : List (Option VarV)) (st : State)
    (N : Nat),
    ClosedN N st → VarsBelow N old = true → 2 * muC st N + 2 ≤ f →
    substituteTypesVars asgn f ctx old argVs st ≠ .error .fuelOut

def FuncsAdeq (f : Nat) : Prop :=
  ∀ (asgn : AssignPred) (ctx : Option TypeRef) (old argFs : List (Option FuncV)) (st : State)
    (N : Nat),
    ClosedN N st → FuncsBelow N old = true → 2 * muC st N + 2 ≤ f →
    substituteTypesFuncs asgn f ctx old argFs st ≠ .error .fuelOut

def TypeNamesAdeq (f : Nat) : Prop :=
  ∀ (asgn : AssignPred) (ctx : Option TypeRef) (old argTs : List (Option TypeNameV))
    (st : State) (N : Nat),
    ClosedN N st → TypeNamesBelow N old = true → 2 * muC st N + 2 ≤ f →
    substituteTypesTypeNames asgn f ctx old argTs st ≠ .error .fuelOut

def TupleAdeq (f : Nat) : Prop :=
  ∀ (asgn : AssignPred) (ctx : Option TypeRef) (old argT : Option TypeRef) (st : State)
    (N : Nat),
    ClosedN N st → refBelow N old = true → 2 * muC st N + 3 ≤ f →
    substituteTypesTuple asgn f ctx old argT st ≠ .error .fuelOut

/-- The arena only grows: st2 extends st by appended nodes. -/
def ArenaLe (st st2 : State) : Prop := ∃ ext, st2.arena = st.arena ++ ext

/-- Structural equality at every depth, in every future arena extension
of the given state (allocation never mutates existing nodes, so the
equality survives the rest of the computation). -/
def EqFor (st : State) (a b : Option TypeRef) : Prop :=
  ∀ st2, ArenaLe st st2 → ∀ n, StructEqN n st2 a b

def ObjEqFor (st : State) (o1 o2 : ObjectV) : Prop :=
  ∀ st2, ArenaLe st st2 → ∀ n, ObjEqN n st2 o1 o2

def VarsEqFor (st : State) (l1 l2 : List (Option VarV)) : Prop :=
  ∀ st2, ArenaLe st st2 → ∀ n, VarsEqN n st2 l1 l2

def FuncsEqFor (st : State) (l1 l2 : List (Option FuncV)) : Prop :=
  ∀ st2, ArenaLe st st2 → ∀ n, FuncsEqN n st2 l1 l2

def TypeNamesEqFor (st : State) (l1 l2 : List (Option TypeNameV)) : Prop :=
  ∀ st2, ArenaLe st st2 → ∀ n, TypeNamesEqN n st2 l1 l2

/-- Invariant of the seen map during a placeholder-free substitution: a
recorded entry for a below-N handle with no reachable placeholder is
structurally equal to its key, now and in every arena extension. -/
def SeenInvP (N : Nat) (ctx : Option TypeRef) (st : State) : Prop :=
  ∀ t r, seenRead st t = some r → t < N → NoPH st ctx t → EqFor st (some r) (some t)

/-- Go static well-typedness of Signature nodes: the params and results
fields (*Tuple in Go) dereference to Tuple nodes. -/
def TupleWF (N : Nat) (st : State) : Prop :=
  ∀ i, i < N → ∀ sc rc p q vd tp, typeAt st i = some (.signature sc rc p q vd tp) →
    (∀ pp, p = some pp → ∃ vs, typeAt st pp = some (.tuple vs)) ∧
    (∀ qq, q = some qq → ∃ vs, typeAt st qq = some (.tuple vs))

/-- The interface embed lists of the first N nodes stay below N (embeds
are heap pointers like every other child). -/
def EmbedsBelow (N : Nat) (st : State) : Prop :=
  ∀ i, i < N → ∀ ms es ams vr, typeAt st i = some (.interface_ ms es ams vr) →
    ∀ e, some e ∈ es → e < N

/-- No reachable placeholder below any member of a Var list. -/
def NoPHvars (st : State) (ctx : Option TypeRef) (l : List (Option VarV)) : Prop :=
  ∀ vv e, some vv ∈ l → vv.obj.typ = some e → NoPH st ctx e

def NoPHfuncs (st : State) (ctx : Option TypeRef) (l : List (Option FuncV)) : Prop :=
  ∀ ff e, some ff ∈ l → ff.obj.typ = some e → NoPH st ctx e

def NoPHtypeNames (st : State) (ctx : Option TypeRef) (l : List (Option TypeNameV)) : Prop :=
  ∀ tt e, some tt ∈ l → tt.obj.typ = some e → NoPH st ctx e

/-- Statement of the identity property (claim C9) for substituteTypes at
one fuel value: on a closed, well-typed arena, a template with no
reachable placeholder of the context substitutes to a structurally equal
type, and the seen invariant is maintained. -/
def TypesId (f : Nat) : Prop :=
  ∀ (asgn : AssignPred) (ctx typ arg : Option TypeRef) (st : State) (N : Nat)
    (r : Option TypeRef) (st2 : State),
    ClosedN N st → EmbedsBelow N st → TupleWF N st → SeenInvP N ctx st →
    refBelow N typ = true → NoPHopt st ctx typ →
    substituteTypes asgn f ctx typ arg st = .ok (r, st2) →
    EqFor st2 r typ ∧ SeenInvP N ctx st2

def ObjectId (f : Nat) : Prop :=
  ∀ (asgn : AssignPred) (ctx : Option TypeRef) (old argO : ObjectV) (st : State) (N : Nat)
    (o2 : ObjectV) (st2 : State),
    ClosedN N st → EmbedsBelow N st → TupleWF N st → SeenInvP N ctx st →
    refBelow N old.typ = true → NoPHopt st ctx old.typ →
    substituteTypesObject asgn f ctx old argO st = .ok (o2, st2) →
    ObjEqFor st2 o2 old ∧ SeenInvP N ctx st2

def VarId (f : Nat) : Prop :=
  ∀ (asgn : AssignPred) (ctx : Option TypeRef) (old argV : Option VarV) (st : State) (N : Nat)
    (v2 : Option VarV) (st2 : State),
    ClosedN N st → EmbedsBelow N st → TupleWF N st → SeenInvP N ctx st →
    (∀ ov, old = some ov → refBelow N ov.obj.typ = true) →
    (∀ ov, old = some ov → NoPHopt st ctx ov.obj.typ) →
    substituteTypesVar asgn f ctx old argV st = .ok (v2, st2) →
    ((old = none ∧ v2 = none) ∨
      ∃ ov obj2, old = some ov ∧
        v2 = some ⟨obj2, ov.anonymous, ov.visited, ov.isField, ov.used⟩ ∧
        ObjEqFor st2 obj2 ov.obj) ∧ SeenInvP N ctx st2

def FuncId (f : Nat) : Prop :=
  ∀ (asgn : AssignPred) (ctx : Option TypeRef) (old argF : Option FuncV) (st : State) (N : Nat)
    (f2 : Option FuncV) (st2 : State),
    ClosedN N st → EmbedsBelow N st → TupleWF N st → SeenInvP N ctx st →
    (∀ ov, old = some ov → refBelow N ov.obj.typ = true) →
    (∀ ov, old = some ov → NoPHopt st ctx ov.obj.typ) →
    substituteTypesFunc asgn f ctx old argF st = .ok (f2, st2) →
    ((old = none ∧ f2 = none) ∨
      ∃ ov obj2, old = some ov ∧ f2 = some ⟨obj2⟩ ∧ ObjEqFor st2 obj2 ov.obj) ∧
    SeenInvP N ctx st2

def TypeNameId (f : Nat) : Prop :=
  ∀ (asgn : AssignPred) (ctx : Option TypeRef) (old argT : Option TypeNameV) (st : State)
    (N : Nat) (t2 : Option TypeNameV) (st2 : State),
    ClosedN N st → EmbedsBelow N st → TupleWF N st → SeenInvP N ctx st →
    (∀ ov, old = some ov → refBelow N ov.obj.typ = true) →
    (∀ ov, old = some ov → NoPHopt st ctx ov.obj.typ) →
    substituteTypesTypeName asgn f ctx old argT st = .ok (t2, st2) →
    ((old = none ∧ t2 = none) ∨
      ∃ ov obj2, old = some ov ∧ t2 = some ⟨obj2⟩ ∧ ObjEqFor st2 obj2 ov.obj) ∧
    SeenInvP N ctx st2

def VarsId (f : Nat) : Prop :=
  ∀ (asgn : AssignPred) (ctx : Option TypeRef) (old argVs : List (Option VarV)) (st : State)
    (N : Nat) (vs2 : List (Option VarV)) (st2 : State),
    ClosedN N st → EmbedsBelow N st → TupleWF N st → SeenInvP N ctx st →
    VarsBelow N old = true → NoPHvars st ctx old →
    substituteTypesVars asgn f ctx old argVs st = .ok (vs2, st2) →
    VarsEqFor st2 vs2 old ∧ SeenInvP N ctx st2

def FuncsId (f : Nat) : Prop :=
  ∀ (asgn : AssignPred) (ctx : Option TypeRef) (old argFs : List (Option FuncV)) (st : State)
    (N : Nat) (fs2 : List (Option FuncV)) (st2 : State),
    ClosedN N st → EmbedsBelow N st → TupleWF N st → SeenInvP N ctx st →
    FuncsBelow N old = true → NoPHfuncs st ctx old →
    substituteTypesFuncs asgn f ctx old argFs st = .ok (fs2, st2) →
    FuncsEqFor st2 fs2 old ∧ SeenInvP N ctx st2

def TypeNamesId (f : Nat) : Prop :=
  ∀ (asgn : AssignPred) (ctx : Option TypeRef) (old argTs : List (Option TypeNameV))
    (st : State) (N : Nat) (ts2 : List (Option TypeNameV)) (st2 : State),
    ClosedN N st → EmbedsBelow N st → TupleWF N st → SeenInvP N ctx st →
    TypeNamesBelow N old = true → NoPHtypeNames st ctx old →
    substituteTypesTypeNames asgn f ctx old argTs st = .ok (ts2, st2) →
    TypeNamesEqFor st2 ts2 old ∧ SeenInvP N ctx st2

def TupleId (f : Nat) : Prop :=
  ∀ (asgn : AssignPred) (ctx : Option TypeRef) (old argT : Option TypeRef) (st : State)
    (N : Nat) (r : Option TypeRef) (st2 : State),
    ClosedN N st → EmbedsBelow N st → TupleWF N st → SeenInvP N ctx st →
    refBelow N old = true →
    (∀ o, old = some o → ∃ vs, typeAt st o = some (.tuple vs)) →
    NoPHopt st ctx old →
    substituteTypesTuple asgn f ctx old argT st = .ok (r, st2) →
    EqFor st2 r old ∧ SeenInvP N ctx st2

/-! Concrete stores used by the witnesses and counterexamples. -/

/-- Example assignability oracle: any present argument is assignable. -/
def asgnEx : AssignPred := fun _ arg _ => arg.isSome

/-- Example Var with the given declared type. -/
def mkVar (t : Option TypeRef) : VarV := ⟨⟨none, 0, none, "v", t, 0⟩, false, false, false, false⟩

/-- Store with a template tuple (T, T) (two distinct Named occurrences,
handles 1 and 2, both declared by symbol 0, context handle 5) and an
argument tuple (int, string) at handle 6. -/
def stC1 : State :=
  ⟨[.tuple [some (mkVar (some 1)), some (mkVar (some 2))],
    .named (some 0) none (some 5),
    .named (some 0) none (some 5),
    .basic 1,
    .basic 2,
    .basic 0,
    .tuple [some (mkVar (some 3)), some (mkVar (some 4))]],
   some [], []⟩

/-- Store with a self-referential type: handle 0 is a struct whose field
points (through handle 1) back to handle 0. -/
def stC2 : State :=
  ⟨[.struct_ [some (mkVar (some 1))] [] [] [], .pointer (some 0)], some [], []⟩

/-- Store with template Array(5, T) at 0 (T at 1, context 4) and
argument Slice(int) at 2. -/
def stC3 : State :=
  ⟨[.array 5 (some 1), .named (some 0) none (some 4), .slice (some 3), .basic 1, .basic 0],
   some [], []⟩

/-- Store with an interface (handle 0) whose only generic reference sits
in the allMethods list: method symbol typed by handle 1, a Named type
with instantiation context 2. -/
def stC7 : State :=
  ⟨[.interface_ [] [] [some ⟨⟨none, 0, none, "m", some 1, 0⟩⟩] 0,
    .named (some 0) none (some 2),
    .basic 0], some [], []⟩

/-- Store with an interface (handle 0) embedding a Named type (handle 1)
that itself carries a non-nil instantiation context (handle 3) while its
underlying type (handle 2) is concrete. -/
def stC7b : State :=
  ⟨[.interface_ [] [some 1] [] 0,
    .named (some 0) (some 2) (some 3),
    .basic 1,
    .basic 0], some [], []⟩

end GoTypes

namespace GoAst

set_option maxHeartbeats 1600000

/-!
The ast package's walk/transform source file (the statement-rewriting
framework).  The node struct declarations (ast.go) are outside the
extracted sources; each constructor below carries exactly the fields the
walk/transform code reads and rebuilds, in the source's field order.
Token positions and token kinds are opaque Nat payloads; comment groups
are opaque Nat handles.  Go interface-typed fields that the code passes
or stores possibly-nil are Option-valued; statically pointer-typed
sub-node fields that the code always dereferences are plain values.
-/

mutual

inductive AExpr where
  | badExpr (fromPos toPos : Nat)
  | ident (namePos : Nat) (name : String)
  | basicLit (valuePos : Nat) (kind : Nat) (value : String)
  | ellipsisE (pos : Nat) (elt : Option AExpr)
  | funcLit (ftype : AExpr) (body : AStmt)
  | compositeLit (ltype : Option AExpr) (lbrace : Nat) (elts : List AExpr) (rbrace : Nat)
  | paren (lparen : Nat) (x : AExpr) (rparen : Nat)
  | selector (x : AExpr) (sel : AExpr)
  | indexE (x : AExpr) (lbrack : Nat) (idx : AExpr) (rbrack : Nat)
  | sliceE (x : AExpr) (lbrack : Nat) (low high maxi : Option AExpr) (rbrack : Nat)
  | typeAssert (x : AExpr) (atype : Option AExpr)
  | callE (fn : AExpr) (lbrack : Nat) (typeArgs : List AExpr) (rbrack : Nat)
      (lparen : Nat) (args : List AExpr) (ellipsisPos : Nat) (rparen : Nat)
  | star (starPos : Nat) (x : AExpr)
  | unary (opPos : Nat) (op : Nat) (x : AExpr)
  | binary (x : AExpr) (opPos : Nat) (op : Nat) (y : AExpr)
  | keyValue (key : AExpr) (colon : Nat) (value : AExpr)
  | arrayType (lbrack : Nat) (len : Option AExpr) (elt : AExpr)
  | structType (structPos : Nat) (typeParams : Option ATypeParameterList)
      (fields : AFieldList) (incomplete : Bool)
  | funcType (funcPos : Nat) (typeParams : Option ATypeParameterList)
      (params : Option AFieldList) (results : Option AFieldList)
  | interfaceType (interfacePos : Nat) (typeParams : Option ATypeParameterList)
      (methods : AFieldList) (incomplete : Bool)
  | mapType (mapPos : Nat) (key : AExpr) (value : AExpr)
  | chanType (begin : Nat) (dir : Nat) (value : AExpr)
  | genericType (gtype : AExpr) (typeParameters : List AExpr)

inductive AStmt where
  | badStmt (fromPos toPos : Nat)
  | declS (decl : ADecl)
  | emptyS (semicolon : Nat)
  | labeledS (label : AExpr) (colon : Nat) (stmt : Option AStmt)
  | exprS (x : AExpr)
  | sendS (chanE : AExpr) (arrow : Nat) (value : AExpr)
  | incDecS (x : AExpr) (tokPos : Nat) (tok : Nat)
  | assignS (lhs : List AExpr) (tokPos : Nat) (tok : Nat) (rhs : List AExpr)
  | goS (goPos : Nat) (callE : AExpr)
  | deferS (deferPos : Nat) (callE : AExpr)
  | returnS (returnPos : Nat) (results : List AExpr)
  | branchS (tokPos : Nat) (tok : Nat) (label : Option AExpr)
  | blockS (lbrace : Nat) (list : List AStmt) (rbrace : Nat)
  | ifS (ifPos : Nat) (init : Option AStmt) (cond : AExpr) (body : AStmt)
      (els : Option AStmt)
  | caseClause (casePos : Nat) (list : List AExpr) (colon : Nat) (body : List AStmt)
  | switchS (switchPos : Nat) (init : Option AStmt) (tag : Option AExpr) (body : AStmt)
  | typeSwitchS (switchPos : Nat) (init : Option AStmt) (assign : Option AStmt)
      (body : AStmt)
  | commClause (casePos : Nat) (comm : Option AStmt) (colon : Nat) (body : List AStmt)
  | selectS (selectPos : Nat) (body : AStmt)
  | forS (forPos : Nat) (init : Option AStmt) (cond : Option AExpr)
      (post : Option AStmt) (body : AStmt)
  | rangeS (forPos : Nat) (key value : Option AExpr) (tokPos : Nat) (tok : Nat)
      (x : AExpr) (body : AStmt)

inductive ADecl where
  | badDecl (fromPos toPos : Nat)
  | genDecl (doc : Option Nat) (tokPos : Nat) (tok : Nat) (lparen : Nat)
      (specs : List ASpec) (rparen : Nat)
  | funcDecl (doc : Option Nat) (recv : Option AFieldList) (name : AExpr)
      (ftype : AExpr) (body : Option AStmt)

inductive ASpec where
  | importSpec (doc : Option Nat) (name : Option AExpr) (path : AExpr) (comment : Option Nat)
  | valueSpec (doc : Option Nat) (names : List AExpr) (vtype : Option AExpr)
      (values : List AExpr) (comment : Option Nat)
  | typeSpec (doc : Option Nat) (name : AExpr) (ttype : AExpr) (comment : Option Nat)

inductive AField where
  | mk (doc : Option Nat) (names : List AExpr) (ftype : AExpr) (tag : Option AExpr)
      (comment : Option Nat)

inductive AFieldList where
  | mk (opening : Nat) (list : List AField) (closing : Nat)

inductive ATypeParameter where
  | mk (doc : Option Nat) (names : List AExpr) (typeBound : AExpr) (tag : Option AExpr)
      (comment : Option Nat)

inductive ATypeParameterList where
  | mk (opening : Nat) (list : List ATypeParameter) (closing : Nat)

end

/-- The Node interface: the categories the transform code dispatches on.
The File and Package variants are omitted: they are not reachable from
any statement-level rewrite and no claim concerns them. -/
inductive ANode where
  | exprN (e : AExpr)
  | stmtN (s : AStmt)
  | declN (d : ADecl)
  | specN (s : ASpec)
  | fieldN (f : AField)
  | fieldListN (fl : AFieldList)

/-- The category-specific Transformer interface of the rewrite framework.
TransformStmt receives possibly-nil statements (the dispatch passes a nil
node through the default case) and produces 0..N statements; the other
categories are 1:1. -/
structure Transformer where
  transformNode : ANode → ANode → ANode
  transformExpr : AExpr → AExpr → AExpr
  transformDecl : ADecl → ADecl → ADecl
  transformStmt : Option AStmt → Option AStmt → List AStmt
  transformSpec : ASpec → ASpec → ASpec

/-- Go type assertion .(*Ident); panics (none) on any other node. -/
def castIdent (e : AExpr) : Option AExpr :=
  match e with
  | .ident _ _ => some e
  | _ => none

/-- Go type assertion .(*CallExpr). -/
def castCall (e : AExpr) : Option AExpr :=
  match e with
  | .callE _ _ _ _ _ _ _ _ => some e
  | _ => none

/-- Go type assertion .(*FuncType). -/
def castFuncType (e : AExpr) : Option AExpr :=
  match e with
  | .funcType _ _ _ _ => some e
  | _ => none

/-- Go type assertion .(*BlockStmt). -/
def castBlock (s : AStmt) : Option AStmt :=
  match s with
  | .blockS _ _ _ => some s
  | _ => none

/-- Go expression list[0].(*BlockStmt): panics when the list is empty or
the first element is not a block. -/
def headBlock (l : List AStmt) : Option AStmt :=
  match l with
  | s :: _ => castBlock s
  | [] => none

/-- sizeOf positivity for the AST family, used by the termination proofs. -/
theorem sizeOfAExprPos (e : AExpr) : 0 < sizeOf e := by
  cases e <;> simp_arith

theorem sizeOfAStmtPos (s : AStmt) : 0 < sizeOf s := by
  cases s <;> simp_arith

theorem sizeOfListPos {α : Type} [SizeOf α] (l : List α) : 0 < sizeOf l := by
  cases l <;> simp_arith

mutual

/-- walk/transform source walkTransformIdentList: each element is
transformed as an expression and asserted back to *Ident. -/
def walkTransformIdentList (v : Transformer) (list : List AExpr) :
    Option (List AExpr) :=
  match list with
  | [] => some []
  | x :: xs =>
    match WalkTransformExpr v x with
    | none => none
    | some x2 =>
      match castIdent x2 with
      | none => none
      | some x3 =>
        match walkTransformIdentList v xs with
        | none => none
        | some ys => some (x3 :: ys)
termination_by sizeOf list

/-- walk/transform source walkTransformExprList. -/
def walkTransformExprList (v : Transformer) (list : List AExpr) :
    Option (List AExpr) :=
  match list with
  | [] => some []
  | x :: xs =>
    match WalkTransformExpr v x with
    | none => none
    | some x2 =>
      match walkTransformExprList v xs with
      | none => none
      | some ys => some (x2 :: ys)
termination_by sizeOf list

/-- walk/transform source walkTransformStmtList: statement rewrites of
list elements are spliced flat into the output list. -/
def walkTransformStmtList (v : Transformer) (list : List AStmt) :
    Option (List AStmt) :=
  match list with
  | [] => some []
  | x :: xs =>
    match WalkTransformStmt v (some x) with
    | none => none
    | some out =>
      match walkTransformStmtList v xs with
      | none => none
      | some ys => some (out ++ ys)
termination_by sizeOf list
decreasing_by
all_goals simp_wf
all_goals (try omega)
all_goals (have h1 := sizeOfListPos xs; omega)

/-- walk/transform source walkTransformDeclList. -/
def walkTransformDeclList (v : Transformer) (list : List ADecl) :
    Option (List ADecl) :=
  match list with
  | [] => some []
  | x :: xs =>
    match WalkTransformDecl v x with
    | none => none
    | some x2 =>
      match walkTransformDeclList v xs with
      | none => none
      | some ys => some (x2 :: ys)
termination_by sizeOf list

/-- walk/transform source walkTransformSpecList (the .(Spec) assertion on
an already Spec-typed value never fails). -/
def walkTransformSpecList (v : Transformer) (list : List ASpec) :
    Option (List ASpec) :=
  match list with
  | [] => some []
  | x :: xs =>
    match WalkTransformSpec v x with
    | none => none
    | some x2 =>
      match walkTransformSpecList v xs with
      | none => none
      | some ys => some (x2 :: ys)
termination_by sizeOf list

/-- walk/transform source WalkTransformExpr.  Each case rebuilds a fresh
node from transformed children and hands (original, rebuilt) to the
rewriter callback; node kinds without a case (including all type
expressions) go to the default case untransformed. -/
def WalkTransformExpr (v : Transformer) (node : AExpr) : Option AExpr :=
  match node with
  | .funcLit ftype body =>
    match WalkTransformStmt v (some body) with
    | none => none
    | some bodyOut =>
      match headBlock bodyOut with
      | none => none
      | some body2 =>
        some (v.transformExpr (.funcLit ftype body) (.funcLit ftype body2))
  | .compositeLit ltype lbrace elts rbrace =>
    match walkTransformExprList v elts with
    | none => none
    | some elts2 =>
      some (v.transformExpr (.compositeLit ltype lbrace elts rbrace)
        (.compositeLit ltype lbrace elts2 rbrace))
  | .paren lparen x rparen =>
    match WalkTransformExpr v x with
    | none => none
    | some x2 => some (v.transformExpr (.paren lparen x rparen) (.paren lparen x2 rparen))
  | .selector x sel =>
    match WalkTransformExpr v x with
    | none => none
    | some x2 =>
      match WalkTransformExpr v sel with
      | none => none
      | some sel2 =>
        match castIdent sel2 with
        | none => none
        | some sel3 => some (v.transformExpr (.selector x sel) (.selector x2 sel3))
  | .indexE x lbrack idx rbrack =>
    match WalkTransformExpr v x with
    | none => none
    | some x2 =>
      match WalkTransformExpr v idx with
      | none => none
      | some idx2 =>
        some (v.transformExpr (.indexE x lbrack idx rbrack) (.indexE x2 lbrack idx2 rbrack))
  | .callE fn lbrack typeArgs rbrack lparen args ellipsisPos rparen =>
    match WalkTransformExpr v fn with
    | none => none
    | some fn2 =>
      match walkTransformExprList v args with
      | none => none
      | some args2 =>
        some (v.transformExpr (.callE fn lbrack typeArgs rbrack lparen args ellipsisPos rparen)
          (.callE fn2 lbrack typeArgs rbrack lparen args2 ellipsisPos rparen))
  | .star starPos x =>
    match WalkTransformExpr v x with
    | none => none
    | some x2 => some (v.transformExpr (.star starPos x) (.star starPos x2))
  | .unary opPos op x =>
    match WalkTransformExpr v x with
    | none => none
    | some x2 => some (v.transformExpr (.unary opPos op x) (.unary opPos op x2))
  | .binary x opPos op y =>
    match WalkTransformExpr v x with
    | none => none
    | some x2 =>
      match WalkTransformExpr v y with
      | none => none
      | some y2 => some (v.transformExpr (.binary x opPos op y) (.binary x2 opPos op y2))
  | .keyValue key colon value =>
    match WalkTransformExpr v key with
    | none => none
    | some key2 =>
      match WalkTransformExpr v value with
      | none => none
      | some value2 =>
        some (v.transformExpr (.keyValue key colon value) (.keyValue key2 colon value2))
  | n => some (v.transformExpr n n)
termination_by sizeOf node
decreasing_by
all_goals simp_wf
all_goals (try omega)
all_goals (first
  | (have h1 := sizeOfAExprPos ftype; omega)
  | (have h1 := sizeOfAStmtPos body; omega))

/-- walk/transform source WalkTransformStmt.  A nil statement (the Go
nil interface) falls through to the default case, so the rewriter
callback is invoked with nil.  The init-splitting of the source helper
walkTransformInitStmt is inlined at each init-bearing construct so that
the recursion is on a strict sub-term; the standalone
walkTransformInitStmt defined below is the source helper itself. -/
def WalkTransformStmt (v : Transformer) (node : Option AStmt) : Option (List AStmt) :=
  match node with
  | some (.declS decl) =>
    match WalkTransformDecl v decl with
    | none => none
    | some decl2 => some (v.transformStmt (some (.declS decl)) (some (.declS decl2)))
  | some (.labeledS label colon stmt) =>
    match WalkTransformExpr v label with
    | none => none
    | some label2 =>
      match castIdent label2 with
      | none => none
      | some label3 =>
        match WalkTransformStmt v stmt with
        | none => none
        | some newStmts =>
          let newStmt : Option AStmt :=
            if newStmts.length = 1 then newStmts[0]?
            else if newStmts.length > 1 then newStmts.getLast?
            else none
          let output : List AStmt :=
            if newStmts.length > 1 then newStmts.take (newStmts.length - 1) else []
          some (output ++ v.transformStmt (some (.labeledS label colon stmt))
            (some (.labeledS label3 colon newStmt)))
  | some (.exprS x) =>
    match WalkTransformExpr v x with
    | none => none
    | some x2 => some (v.transformStmt (some (.exprS x)) (some (.exprS x2)))
  | some (.sendS chanE arrow value) =>
    match WalkTransformExpr v chanE with
    | none => none
    | some chan2 =>
      match WalkTransformExpr v value with
      | none => none
      | some value2 =>
        some (v.transformStmt (some (.sendS chanE arrow value))
          (some (.sendS chan2 arrow value2)))
  | some (.incDecS x tokPos tok) =>
    match WalkTransformExpr v x with
    | none => none
    | some x2 =>
      some (v.transformStmt (some (.incDecS x tokPos tok)) (some (.incDecS x2 tokPos tok)))
  | some (.assignS lhs tokPos tok rhs) =>
    match walkTransformExprList v lhs with
    | none => none
    | some lhs2 =>
      match walkTransformExprList v rhs with
      | none => none
      | some rhs2 =>
        some (v.transformStmt (some (.assignS lhs tokPos tok rhs))
          (some (.assignS lhs2 tokPos tok rhs2)))
  | some (.goS goPos callE) =>
    match WalkTransformExpr v callE with
    | none => none
    | some call2 =>
      match castCall call2 with
      | none => none
      | some call3 => some (v.transformStmt (some (.goS goPos callE)) (some (.goS goPos call3)))
  | some (.deferS deferPos callE) =>
    match WalkTransformExpr v callE with
    | none => none
    | some call2 =>
      match castCall call2 with
      | none => none
      | some call3 =>
        some (v.transformStmt (some (.deferS deferPos callE)) (some (.deferS deferPos call3)))
  | some (.returnS returnPos results) =>
    match walkTransformExprList v results with
    | none => none
    | some results2 =>
      some (v.transformStmt (some (.returnS returnPos results))
        (some (.returnS returnPos results2)))
  | some (.blockS lbrace list rbrace) =>
    match walkTransformStmtList v list with
    | none => none
    | some list2 =>
      some (v.transformStmt (some (.blockS lbrace list rbrace))
        (some (.blockS lbrace list2 rbrace)))
  | some (.ifS ifPos init cond body els) =>
    match WalkTransformStmt v init with
    | none => none
    | some newInitList =>
      let output : List AStmt :=
        if newInitList.length > 1 then newInitList.take (newInitList.length - 1) else []
      let newInit : Option AStmt :=
        if newInitList.length = 1 then newInitList[0]?
        else if newInitList.length > 1 then newInitList.getLast?
        else none
      match WalkTransformExpr v cond with
      | none => none
      | some cond2 =>
        match WalkTransformStmt v (some body) with
        | none => none
        | some bodyOut =>
          match headBlock bodyOut with
          | none => none
          | some body2 =>
            match WalkTransformStmt v els with
            | none => none
            | some newElseList =>
              let newElse : Option AStmt :=
                if newElseList.length = 1 then newElseList[0]?
                else if newElseList.length > 1 then some (.blockS 0 newElseList 0)
                else none
              some (output ++ v.transformStmt (some (.ifS ifPos init cond body els))
                (some (.ifS ifPos newInit cond2 body2 newElse)))
  | some (.caseClause casePos list colon body) =>
    match walkTransformExprList v list with
    | none => none
    | some list2 =>
      match walkTransformStmtList v body with
      | none => none
      | some body2 =>
        some (v.transformStmt (some (.caseClause casePos list colon body))
          (some (.caseClause casePos list2 colon body2)))
  | some (.switchS switchPos init tag body) =>
    match WalkTransformStmt v init with
    | none => none
    | some newInitList =>
      let output : List AStmt :=
        if newInitList.length > 1 then newInitList.take (newInitList.length - 1) else []
      let newInit : Option AStmt :=
        if newInitList.length = 1 then newInitList[0]?
        else if newInitList.length > 1 then newInitList.getLast?
        else none
      match WalkTransformStmt v (some body) with
      | none => none
      | some bodyOut =>
        match headBlock bodyOut with
        | none => none
        | some body2 =>
          some (output ++ v.transformStmt (some (.switchS switchPos init tag body))
            (some (.switchS switchPos newInit tag body2)))
  | some (.typeSwitchS switchPos init assign body) =>
    match WalkTransformStmt v init with
    | none => none
    | some newInitList =>
      let output : List AStmt :=
        if newInitList.length > 1 then newInitList.take (newInitList.length - 1) else []
      let newInit : Option AStmt :=
        if newInitList.length = 1 then newInitList[0]?
        else if newInitList.length > 1 then newInitList.getLast?
        else none
      match WalkTransformStmt v assign with
      | none => none
      | some assignOut =>
        match assignOut with
        | [] => none
        | newAssign :: _ =>
          match WalkTransformStmt v (some body) with
          | none => none
          | some bodyOut =>
            match headBlock bodyOut with
            | none => none
            | some body2 =>
              some (output ++ v.transformStmt (some (.typeSwitchS switchPos init assign body))
                (some (.typeSwitchS switchPos newInit (some newAssign) body2)))
  | some (.commClause casePos comm colon body) =>
    match comm with
    | some c =>
      match WalkTransformStmt v (some c) with
      | none => none
      | some commOut =>
        match commOut with
        | [] => none
        | newComm :: _ =>
          match walkTransformStmtList v body with
          | none => none
          | some body2 =>
            some (v.transformStmt (some (.commClause casePos (some c) colon body))
              (some (.commClause casePos (some newComm) colon body2)))
    | none =>
      match walkTransformStmtList v body with
      | none => none
      | some body2 =>
        some (v.transformStmt (some (.commClause casePos none colon body))
          (some (.commClause casePos none colon body2)))
  | some (.selectS selectPos body) =>
    match WalkTransformStmt v (some body) with
    | none => none
    | some bodyOut =>
      match headBlock bodyOut with
      | none => none
      | some body2 =>
        some (v.transformStmt (some (.selectS selectPos body)) (some (.selectS selectPos body2)))
  | some (.forS forPos init cond post body) =>
    match WalkTransformStmt v init with
    | none => none
    | some newInitList =>
      let output : List AStmt :=
        if newInitList.length > 1 then newInitList.take (newInitList.length - 1) else []
      let newInit : Option AStmt :=
        if newInitList.length = 1 then newInitList[0]?
        else if newInitList.length > 1 then newInitList.getLast?
        else none
      match
        match cond with
        | some c =>
          match WalkTransformExpr v c with
          | none => none
          | some c2 => some (some c2)
        | none => some none
      with
      | none => none
      | some newCond =>
        match WalkTransformStmt v (some body) with
        | none => none
        | some bodyOut =>
          match headBlock bodyOut with
          | none => none
          | some newBody =>
            match WalkTransformStmt v post with
            | none => none
            | some newPostList =>
              match newBody with
              | .blockS lb bl rb =>
                let newPost : Option AStmt :=
                  if newPostList.length = 1 then newPostList[0]?
                  else if newPostList.length > 1 then newPostList.getLast?
                  else none
                let newBody2 : AStmt :=
                  if newPostList.length > 1 then
                    .blockS lb (bl ++ newPostList.take (newPostList.length - 1)) rb
                  else .blockS lb bl rb
                some (output ++ v.transformStmt (some (.forS forPos init cond post body))
                  (some (.forS forPos newInit newCond newPost newBody2)))
              | _ => none
  | some (.rangeS forPos key value tokPos tok x body) =>
    match
      match key with
      | some k =>
        match WalkTransformExpr v k with
        | none => none
        | some k2 => some (some k2)
      | none => some none
    with
    | none => none
    | some newKey =>
      match
        match value with
        | some vl =>
          match WalkTransformExpr v vl with
          | none => none
          | some vl2 => some (some vl2)
        | none => some none
      with
      | none => none
      | some newValue =>
        match WalkTransformExpr v x with
        | none => none
        | some x2 =>
          match WalkTransformStmt v (some body) with
          | none => none
          | some bodyOut =>
            match headBlock bodyOut with
            | none => none
            | some body2 =>
              some (v.transformStmt (some (.rangeS forPos key value tokPos tok x body))
                (some (.rangeS forPos newKey newValue tokPos tok x2 body2)))
  | none => some (v.transformStmt none none)
  | some n => some (v.transformStmt (some n) (some n))
termination_by sizeOf node

/-- walk/transform source WalkTransformSpec. -/
def WalkTransformSpec (v : Transformer) (node : ASpec) : Option ASpec :=
  match node with
  | .valueSpec doc names vtype values comment =>
    match walkTransformIdentList v names with
    | none => none
    | some names2 =>
      match
        match vtype with
        | some ty =>
          match WalkTransformExpr v ty with
          | none => none
          | some ty2 => some (some ty2)
        | none => some none
      with
      | none => none
      | some newType =>
        match walkTransformExprList v values with
        | none => none
        | some values2 =>
          some (v.transformSpec (.valueSpec doc names vtype values comment)
            (.valueSpec doc names2 newType values2 comment))
  | .typeSpec doc name ttype comment =>
    match WalkTransformExpr v ttype with
    | none => none
    | some ttype2 =>
      some (v.transformSpec (.typeSpec doc name ttype comment)
        (.typeSpec doc name ttype2 comment))
  | n => some (v.transformSpec n n)
termination_by sizeOf node

/-- walk/transform source WalkTransformDecl. -/
def WalkTransformDecl (v : Transformer) (node : ADecl) : Option ADecl :=
  match node with
  | .genDecl doc tokPos tok lparen specs rparen =>
    match walkTransformSpecList v specs with
    | none => none
    | some specs2 =>
      some (v.transformDecl (.genDecl doc tokPos tok lparen specs rparen)
        (.genDecl doc tokPos tok lparen specs2 rparen))
  | .funcDecl doc recv name ftype body =>
    match
      match recv with
      | some r =>
        match WalkTransform v (.fieldListN r) with
        | some (.fieldListN r2) => some (some r2)
        | _ => none
      | none => some none
    with
    | none => none
    | some newRecv =>
      match WalkTransformExpr v ftype with
      | none => none
      | some ftype2 =>
        match castFuncType ftype2 with
        | none => none
        | some ftype3 =>
          match
            match body with
            | some b =>
              match WalkTransformStmt v (some b) with
              | none => none
              | some bodyOut =>
                match headBlock bodyOut with
                | none => none
                | some b2 => some (some b2)
            | none => some none
          with
          | none => none
          | some newBody =>
            some (v.transformDecl (.funcDecl doc recv name ftype body)
              (.funcDecl doc newRecv name ftype3 newBody))
  | n => some (v.transformDecl n n)
termination_by sizeOf node
decreasing_by
all_goals simp_wf
all_goals (try omega)
all_goals (have h1 := sizeOfAExprPos ftype; have h2 := sizeOfAExprPos name; omega)

/-- walk/transform source WalkTransform (File and Package cases omitted,
see ANode). -/
def WalkTransform (v : Transformer) (node : ANode) : Option ANode :=
  match node with
  | .exprN e =>
    match WalkTransformExpr v e with
    | none => none
    | some e2 => some (.exprN e2)
  | .stmtN s =>
    match WalkTransformStmt v (some s) with
    | none => none
    | some out =>
      match out with
      | s2 :: _ => some (.stmtN s2)
      | [] => none
  | .declN d =>
    match WalkTransformDecl v d with
    | none => none
    | some d2 => some (.declN d2)
  | .specN s =>
    match WalkTransformSpec v s with
    | none => none
    | some s2 => some (.specN s2)
  | .fieldN (.mk doc names ftype tag comment) =>
    match walkTransformIdentList v names with
    | none => none
    | some names2 =>
      match WalkTransformExpr v ftype with
      | none => none
      | some ftype2 =>
        some (v.transformNode (.fieldN (.mk doc names ftype tag comment))
          (.fieldN (.mk doc names2 ftype2 tag comment)))
  | .fieldListN (.mk opening list closing) =>
    match walkTransformFieldList v list with
    | none => none
    | some list2 =>
      some (v.transformNode (.fieldListN (.mk opening list closing))
        (.fieldListN (.mk opening list2 closing)))
termination_by sizeOf node + 1
decreasing_by
all_goals simp_wf
all_goals (try omega)
all_goals (have h1 := sizeOfListPos list; omega)

/-- The FieldList element loop of WalkTransform: each field goes through
WalkTransform and is asserted back to *Field. -/
def walkTransformFieldList (v : Transformer) (list : List AField) :
    Option (List AField) :=
  match list with
  | [] => some []
  | f :: fs =>
    match WalkTransform v (.fieldN f) with
    | some (.fieldN f2) =>
      match walkTransformFieldList v fs with
      | none => none
      | some fs2 => some (f2 :: fs2)
    | _ => none
termination_by sizeOf list + 1
decreasing_by
all_goals simp_wf
all_goals (try omega)
all_goals (have h1 := sizeOfListPos fs; omega)

end

/-- walk/transform source walkTransformInitStmt: rewrite an init
statement and split the result; a single output becomes the new init,
several outputs hoist all but the last and the last becomes the new
init, zero outputs leave both empty (the Go zero values: empty hoist
list and nil init). -/
def walkTransformInitStmt (v : Transformer) (init : Option AStmt) :
    Option (List AStmt × Option AStmt) :=
  match WalkTransformStmt v init with
  | none => none
  | some newInitList =>
    let length := newInitList.length
    if length = 1 then some ([], newInitList[0]?)
    else if length > 1 then
      some (newInitList.take (length - 1), newInitList.getLast?)
    else some ([], none)

/-! Concrete rewriters used by the witnesses and counterexamples.  Each
leaves every category unchanged except TransformStmt, which replaces the
marker statement (an empty statement at position 99) by a fixed list and
otherwise returns the rebuilt input unchanged (nil input contributes no
statement except where stated). -/

/-- Rewriter expanding the marker statement into three statements. -/
def vC4 : Transformer :=
  ⟨fun _ i => i, fun _ i => i, fun _ i => i,
   fun old input =>
     match old with
     | some (.emptyS 99) => [.emptyS 1, .emptyS 2, .emptyS 3]
     | _ => input.toList,
   fun _ i => i⟩

/-- Rewriter expanding the marker statement into two statements. -/
def vC5 : Transformer :=
  ⟨fun _ i => i, fun _ i => i, fun _ i => i,
   fun old input =>
     match old with
     | some (.emptyS 99) => [.emptyS 1, .emptyS 2]
     | _ => input.toList,
   fun _ i => i⟩

/-- Rewriter deleting the marker statement (zero outputs). -/
def vC6 : Transformer :=
  ⟨fun _ i => i, fun _ i => i, fun _ i => i,
   fun old input =>
     match old with
     | some (.emptyS 99) => []
     | _ => input.toList,
   fun _ i => i⟩

/-- Rewriter producing one statement from a nil input. -/
def vC10 : Transformer :=
  ⟨fun _ i => i, fun _ i => i, fun _ i => i,
   fun old input =>
     match old with
     | none => [.emptyS 7]
     | _ => input.toList,
   fun _ i => i⟩

end GoAst

namespace GoTypes

theorem mapRead_cons (k : Nat) (v : Option TypeRef) (m : List (Nat × Option TypeRef))
    (s : Nat) : mapRead ((k, v) :: m) s = if k = s then v else mapRead m s := by
  by_cases h : k = s <;> simp [mapRead, List.find?_cons, h]

theorem seenRead_seenSet (st : State) (t : TypeRef) (va : Option TypeRef) (k : TypeRef) :
    seenRead (seenSet st t va) k = if t = k then va else seenRead st k := by
  simp [seenRead, seenSet, mapRead_cons]

theorem seenSet_arena (st : State) (t : TypeRef) (va : Option TypeRef) :
    (seenSet st t va).arena = st.arena := rfl

theorem seenSet_aliases (st : State) (t : TypeRef) (va : Option TypeRef) :
    (seenSet st t va).aliases = st.aliases := rfl

theorem aliasRead_aliasSet (st : State) (m : List (SymId × Option TypeRef))
    (h : st.aliases = some m) (s : SymId) (va : Option TypeRef) (k : SymId) :
    aliasRead (aliasSet st s va) k = if s = k then va else aliasRead st k := by
  by_cases hk : s = k <;> simp [aliasRead, aliasSet, h, mapRead_cons, hk]

theorem aliasSet_of_none (st : State) (h : st.aliases = none) (s : SymId)
    (va : Option TypeRef) : aliasSet st s va = st := by
  cases st
  simp_all [aliasSet]

theorem typeAt_isCompB_arena (st st2 : State) (h : st2.arena = st.arena) (k : Nat) :
    isCompB st2 k = isCompB st k := by
  simp [isCompB, typeAt, h]

theorem typeAt_of_append (st st2 : State) (ext : List TypeNode)
    (h : st2.arena = st.arena ++ ext) (k : Nat) (tn : TypeNode)
    (hk : typeAt st k = some tn) : typeAt st2 k = some tn := by
  have hlt : k < st.arena.length := by
    by_contra hge
    rw [typeAt, List.getElem?_eq_none (Nat.le_of_not_lt hge)] at hk
    exact Option.noConfusion hk
  rw [typeAt, h, List.getElem?_append, if_pos hlt]
  exact hk

theorem isCompB_of_append (st st2 : State) (ext : List TypeNode)
    (h : st2.arena = st.arena ++ ext) (k : Nat) (hk : isCompB st k = true) :
    isCompB st2 k = true := by
  unfold isCompB at hk ⊢
  cases htn : typeAt st k with
  | none => rw [htn] at hk; exact absurd hk (by simp)
  | some tn =>
    rw [typeAt_of_append st st2 ext h k tn htn]
    rw [htn] at hk
    exact hk

theorem stEvol_refl (st : State) : StEvol st st :=
  ⟨⟨[], by simp⟩, fun _ _ h => h, fun _ _ h => h⟩

theorem stEvol_trans {st1 st2 st3 : State} (h1 : StEvol st1 st2) (h2 : StEvol st2 st3) :
    StEvol st1 st3 := by
  obtain ⟨⟨e1, he1⟩, hc1, ha1⟩ := h1
  obtain ⟨⟨e2, he2⟩, hc2, ha2⟩ := h2
  refine ⟨⟨e1 ++ e2, by rw [he2, he1, List.append_assoc]⟩, ?_, ?_⟩
  · intro k hk hs
    exact hc2 k (isCompB_of_append st1 st2 e1 he1 k hk) (hc1 k hk hs)
  · intro s b hb
    exact ha2 s b (ha1 s b hb)

theorem stEvol_seenSet_some (st : State) (t : TypeRef) (r : TypeRef) :
    StEvol st (seenSet st t (some r)) := by
  refine ⟨⟨[], by simp [seenSet]⟩, ?_, fun s b h => h⟩
  intro k _ hs
  rw [seenRead_seenSet]
  by_cases h : t = k <;> simp [h, hs]

theorem stEvol_seenSet_notComp (st : State) (t : TypeRef) (va : Option TypeRef)
    (h : isCompB st t = false) : StEvol st (seenSet st t va) := by
  refine ⟨⟨[], by simp [seenSet]⟩, ?_, fun s b hb => hb⟩
  intro k hk hs
  rw [seenRead_seenSet]
  have : t ≠ k := fun he => by rw [he] at h; rw [h] at hk; exact Bool.noConfusion hk
  simp [this, hs]

theorem stEvol_alloc (st : State) (n : TypeNode) : StEvol st (alloc st n).2 := by
  refine ⟨⟨[n], by simp [alloc]⟩, ?_, fun s b hb => hb⟩
  intro k _ hs
  exact hs

end GoTypes

namespace GoTypes

theorem aliasMono_aliasSet (st : State) (amap : List (SymId × Option TypeRef))
    (ha : st.aliases = some amap) (sym : SymId) (hread : mapRead amap sym = none)
    (va : Option TypeRef) :
    ∀ s b, aliasRead st s = some b → aliasRead (aliasSet st sym va) s = some b := by
  intro s b hsb
  rw [aliasRead_aliasSet st amap ha sym va s]
  by_cases hsym : sym = s
  · rw [← hsym] at hsb
    simp only [aliasRead, ha, hread] at hsb
    exact Option.noConfusion hsb
  · simp [hsym, hsb]

theorem substituteTypesNamed_frame (asgn : AssignPred) (ctx old arg : Option TypeRef)
    (st : State) (r : Option TypeRef) (st2 : State)
    (h : substituteTypesNamed asgn ctx old arg st = (r, st2)) :
    st2.arena = st.arena ∧ st2.seen = st.seen ∧ StEvol st st2 := by
  unfold substituteTypesNamed at h
  split at h
  · injection h with h1 h2
    subst h2
    exact ⟨rfl, rfl, stEvol_refl st⟩
  · split at h
    · split at h
      · split at h
        · split at h
          · injection h with h1 h2
            subst h2
            exact ⟨rfl, rfl, stEvol_refl st⟩
          · split at h
            · injection h with h1 h2
              subst h2
              exact ⟨rfl, rfl, ⟨[], by simp [aliasSet]⟩, fun k _ hs => hs,
                aliasMono_aliasSet st _ (by assumption) _ (by assumption) arg⟩
            · injection h with h1 h2
              subst h2
              exact ⟨rfl, rfl, stEvol_refl st⟩
        · injection h with h1 h2
          subst h2
          exact ⟨rfl, rfl, stEvol_refl st⟩
      · injection h with h1 h2
        subst h2
        exact ⟨rfl, rfl, stEvol_refl st⟩
    · injection h with h1 h2
      subst h2
      exact ⟨rfl, rfl, stEvol_refl st⟩

theorem substituteTypesNameds_frame (asgn : AssignPred) (ctx : Option TypeRef) :
    ∀ (old args : List (Option TypeRef)) (st : State) (res : List (Option TypeRef))
      (st2 : State),
      substituteTypesNameds asgn ctx old args st = .ok (res, st2) →
      st2.arena = st.arena ∧ st2.seen = st.seen ∧ StEvol st st2 := by
  intro old
  induction old with
  | nil =>
    intro args st res st2 h
    unfold substituteTypesNameds at h
    injection h with h
    injection h with h1 h2
    subst h2
    exact ⟨rfl, rfl, stEvol_refl st⟩
  | cons v rest ih =>
    intro args st res st2 h
    unfold substituteTypesNameds at h
    cases hnamed : substituteTypesNamed asgn ctx v ((args[0]?).bind id) st with
    | mk res1 st1 =>
      dsimp only at h
      rw [hnamed] at h
      obtain ⟨ha1, hs1, he1⟩ :=
        substituteTypesNamed_frame asgn ctx v ((args[0]?).bind id) st res1 st1 hnamed
      dsimp only at h
      split at h
      · simp at h
      · split at h
        · split at h
          · simp at h
          · rename_i r hnode rs st3 hrec
            injection h with h
            injection h with h1 h2
            subst h2
            obtain ⟨ha2, hs2, he2⟩ := ih (args.drop 1) st1 rs st3 hrec
            exact ⟨by rw [ha2, ha1], by rw [hs2, hs1], stEvol_trans he1 he2⟩
        · simp at h

theorem isCompB_false_of_named (st : State) (k : Nat) (o : Option SymId)
    (u c : Option TypeRef) (h : typeAt st k = some (.named o u c)) :
    isCompB st k = false := by
  simp [isCompB, h]

theorem isCompB_false_of_none (st : State) (k : Nat) (h : typeAt st k = none) :
    isCompB st k = false := by
  simp [isCompB, h]

theorem objectEvol_of {f : Nat} (hT : TypesEvol f) : ObjectEvol f := by
  intro asgn ctx old argO st o2 st2 h
  unfold substituteTypesObject at h
  cases hs : substituteTypes asgn f ctx old.typ argO.typ st with
  | error e => rw [hs] at h; simp at h
  | ok p =>
    obtain ⟨t2, st'⟩ := p
    rw [hs] at h
    dsimp only at h
    injection h with h
    injection h with h1 h2
    subst h2
    exact (hT _ _ _ _ _ _ _ hs).1

theorem varEvol_of {f : Nat} (hO : ObjectEvol f) : VarEvol f := by
  intro asgn ctx old argV st v2 st2 h
  unfold substituteTypesVar at h
  cases old with
  | none =>
    injection h with h
    injection h with h1 h2
    subst h2
    exact stEvol_refl st
  | some ov =>
    dsimp only at h
    split at h
    · simp at h
    · rename_i obj2 st' hs
      injection h with h
      injection h with h1 h2
      subst h2
      exact hO _ _ _ _ _ _ _ hs

theorem funcEvol_of {f : Nat} (hO : ObjectEvol f) : FuncEvol f := by
  intro asgn ctx old argF st f2 st2 h
  unfold substituteTypesFunc at h
  cases old with
  | none =>
    injection h with h
    injection h with h1 h2
    subst h2
    exact stEvol_refl st
  | some of_ =>
    dsimp only at h
    split at h
    · simp at h
    · rename_i obj2 st' hs
      injection h with h
      injection h with h1 h2
      subst h2
      exact hO _ _ _ _ _ _ _ hs

theorem typeNameEvol_of {f : Nat} (hO : ObjectEvol f) : TypeNameEvol f := by
  intro asgn ctx old argT st t2 st2 h
  unfold substituteTypesTypeName at h
  cases old with
  | none =>
    injection h with h
    injection h with h1 h2
    subst h2
    exact stEvol_refl st
  | some ot =>
    dsimp only at h
    split at h
    · simp at h
    · rename_i obj2 st' hs
      injection h with h
      injection h with h1 h2
      subst h2
      exact hO _ _ _ _ _ _ _ hs

theorem varsEvol_of {f : Nat} (hV : VarEvol f) : VarsEvol f := by
  intro asgn ctx old
  induction old with
  | nil =>
    intro argVs st vs2 st2 h
    unfold substituteTypesVars at h
    injection h with h
    injection h with h1 h2
    subst h2
    exact stEvol_refl st
  | cons v rest ih =>
    intro argVs st vs2 st2 h
    unfold substituteTypesVars at h
    dsimp only at h
    cases hs : substituteTypesVar asgn f ctx v ((argVs[0]?).bind id) st with
    | error e => rw [hs] at h; simp at h
    | ok p =>
      obtain ⟨v2, st'⟩ := p
      rw [hs] at h
      dsimp only at h
      cases hrest : substituteTypesVars asgn f ctx rest (argVs.drop 1) st' with
      | error e => rw [hrest] at h; simp at h
      | ok q =>
        obtain ⟨vs', st''⟩ := q
        rw [hrest] at h
        dsimp only at h
        injection h with h
        injection h with h1 h2
        subst h2
        exact stEvol_trans (hV _ _ _ _ _ _ _ hs) (ih _ _ _ _ hrest)

theorem funcsEvol_of {f : Nat} (hF : FuncEvol f) : FuncsEvol f := by
  intro asgn ctx old
  induction old with
  | nil =>
    intro argFs st fs2 st2 h
    unfold substituteTypesFuncs at h
    injection h with h
    injection h with h1 h2
    subst h2
    exact stEvol_refl st
  | cons fe rest ih =>
    intro argFs st fs2 st2 h
    unfold substituteTypesFuncs at h
    dsimp only at h
    cases hs : substituteTypesFunc asgn f ctx fe ((argFs[0]?).bind id) st with
    | error e => rw [hs] at h; simp at h
    | ok p =>
      obtain ⟨f2, st'⟩ := p
      rw [hs] at h
      dsimp only at h
      cases hrest : substituteTypesFuncs asgn f ctx rest (argFs.drop 1) st' with
      | error e => rw [hrest] at h; simp at h
      | ok q =>
        obtain ⟨fs', st''⟩ := q
        rw [hrest] at h
        dsimp only at h
        injection h with h
        injection h with h1 h2
        subst h2
        exact stEvol_trans (hF _ _ _ _ _ _ _ hs) (ih _ _ _ _ hrest)

theorem typeNamesEvol_of {f : Nat} (hN : TypeNameEvol f) : TypeNamesEvol f := by
  intro asgn ctx old
  induction old with
  | nil =>
    intro argTs st ts2 st2 h
    unfold substituteTypesTypeNames at h
    injection h with h
    injection h with h1 h2
    subst h2
    exact stEvol_refl st
  | cons te rest ih =>
    intro argTs st ts2 st2 h
    unfold substituteTypesTypeNames at h
    dsimp only at h
    cases hs : substituteTypesTypeName asgn f ctx te ((argTs[0]?).bind id) st with
    | error e => rw [hs] at h; simp at h
    | ok p =>
      obtain ⟨t2, st'⟩ := p
      rw [hs] at h
      dsimp only at h
      cases hrest : substituteTypesTypeNames asgn f ctx rest (argTs.drop 1) st' with
      | error e => rw [hrest] at h; simp at h
      | ok q =>
        obtain ⟨ts', st''⟩ := q
        rw [hrest] at h
        dsimp only at h
        injection h with h
        injection h with h1 h2
        subst h2
        exact stEvol_trans (hN _ _ _ _ _ _ _ hs) (ih _ _ _ _ hrest)

theorem tupleEvol_of {f : Nat} (hAll : ∀ m, m < f → TypesEvol m) : TupleEvol f := by
  intro asgn ctx old argT st r st2 h
  cases f with
  | zero => rw [substituteTypesTuple.eq_def] at h; simp at h
  | succ g =>
    rw [substituteTypesTuple.eq_def] at h
    dsimp only at h
    cases old with
    | none =>
      injection h with h
      injection h with h1 h2
      subst h2
      exact stEvol_refl st
    | some o =>
      dsimp only at h
      split at h
      · cases hs : substituteTypesVars asgn g ctx _ _ st with
        | error e => rw [hs] at h; simp at h
        | ok p =>
          obtain ⟨vs2, st'⟩ := p
          rw [hs] at h
          dsimp only at h
          injection h with h
          injection h with h1 h2
          subst h2
          have hV : VarsEvol g :=
            varsEvol_of (varEvol_of (objectEvol_of (hAll g (Nat.lt_succ_self g))))
          exact stEvol_trans (hV asgn ctx _ _ st vs2 st' hs) (stEvol_alloc st' _)
      · injection h with h
        injection h with h1 h2
        subst h2
        exact stEvol_refl st

theorem typesEvol : ∀ f, TypesEvol f := by
  intro f
  induction f using Nat.strong_induction_on with
  | _ f ih =>
    intro asgn ctx typ arg st r st2 h
    cases f with
    | zero => rw [substituteTypes.eq_def] at h; simp at h
    | succ g =>
      have hT : TypesEvol g := ih g (Nat.lt_succ_self g)
      have hVars : VarsEvol g := varsEvol_of (varEvol_of (objectEvol_of hT))
      have hFuncs : FuncsEvol g := funcsEvol_of (funcEvol_of (objectEvol_of hT))
      have hTNs : TypeNamesEvol g := typeNamesEvol_of (typeNameEvol_of (objectEvol_of hT))
      have hTup : TupleEvol g := tupleEvol_of (fun m hm => ih m (Nat.lt_succ_of_lt hm))
      rw [substituteTypes.eq_def] at h
      dsimp only at h
      cases typ with
      | none =>
        injection h with h
        injection h with h1 h2
        subst h2
        exact ⟨stEvol_refl st, fun t ht => nomatch ht⟩
      | some t =>
        dsimp only at h
        cases hseen : seenRead st t with
        | some r0 =>
          rw [hseen] at h
          dsimp only at h
          injection h with h
          injection h with h1 h2
          subst h2
          refine ⟨stEvol_refl st, fun t2 ht2 => ?_⟩
          injection ht2 with ht2
          subst ht2
          rw [hseen, h1]
        | none =>
          rw [hseen] at h
          dsimp only at h
          cases htn : typeAt (seenSet st t (some t)) t with
          | none =>
            rw [htn] at h
            dsimp only at h
            injection h with h
            injection h with h1 h2
            subst h2
            refine ⟨stEvol_trans (stEvol_seenSet_some st t t)
              (stEvol_seenSet_notComp _ t (some t) (isCompB_false_of_none _ t htn)),
              fun t2 ht2 => ?_⟩
            injection ht2 with ht2
            subst ht2
            rw [seenRead_seenSet, if_pos rfl, h1]
          | some tn =>
            rw [htn] at h
            cases tn with
            | array len elem =>
              dsimp only at h
              split at h
              · simp at h
              · rename_i elem2 st' hchild
                dsimp only [alloc] at h
                injection h with h
                injection h with h1 h2
                subst h2
                refine ⟨stEvol_trans (stEvol_seenSet_some st t t)
                  (stEvol_trans (hT _ _ _ _ _ _ _ hchild).1
                    (stEvol_trans (stEvol_alloc st' (.array len elem2))
                      (stEvol_seenSet_some _ t _))), fun t2 ht2 => ?_⟩
                injection ht2 with ht2
                subst ht2
                rw [seenRead_seenSet, if_pos rfl, h1]
            | slice elem =>
              dsimp only at h
              split at h
              · simp at h
              · rename_i elem2 st' hchild
                dsimp only [alloc] at h
                injection h with h
                injection h with h1 h2
                subst h2
                refine ⟨stEvol_trans (stEvol_seenSet_some st t t)
                  (stEvol_trans (hT _ _ _ _ _ _ _ hchild).1
                    (stEvol_trans (stEvol_alloc st' (.slice elem2))
                      (stEvol_seenSet_some _ t _))), fun t2 ht2 => ?_⟩
                injection ht2 with ht2
                subst ht2
                rw [seenRead_seenSet, if_pos rfl, h1]
            | struct_ fields tags offsets typeParams =>
              dsimp only at h
              split at h
              · simp at h
              · rename_i fields2 st' hvars
                split at h
                · simp at h
                · rename_i tps2 st'' htps
                  dsimp only [alloc] at h
                  injection h with h
                  injection h with h1 h2
                  subst h2
                  refine ⟨stEvol_trans (stEvol_seenSet_some st t t)
                    (stEvol_trans (hVars _ _ _ _ _ _ _ hvars)
                      (stEvol_trans (hTNs _ _ _ _ _ _ _ htps)
                        (stEvol_trans (stEvol_alloc st'' (.struct_ fields2 tags offsets tps2))
                          (stEvol_seenSet_some _ t _)))), fun t2 ht2 => ?_⟩
                  injection ht2 with ht2
                  subst ht2
                  rw [seenRead_seenSet, if_pos rfl, h1]
            | pointer base =>
              dsimp only at h
              split at h
              · simp at h
              · rename_i base2 st' hchild
                dsimp only [alloc] at h
                injection h with h
                injection h with h1 h2
                subst h2
                refine ⟨stEvol_trans (stEvol_seenSet_some st t t)
                  (stEvol_trans (hT _ _ _ _ _ _ _ hchild).1
                    (stEvol_trans (stEvol_alloc st' (.pointer base2))
                      (stEvol_seenSet_some _ t _))), fun t2 ht2 => ?_⟩
                injection ht2 with ht2
                subst ht2
                rw [seenRead_seenSet, if_pos rfl, h1]
            | tuple vars =>
              dsimp only at h
              split at h
              · simp at h
              · rename_i vars2 st' hvars
                dsimp only [alloc] at h
                injection h with h
                injection h with h1 h2
                subst h2
                refine ⟨stEvol_trans (stEvol_seenSet_some st t t)
                  (stEvol_trans (hVars _ _ _ _ _ _ _ hvars)
                    (stEvol_trans (stEvol_alloc st' (.tuple vars2))
                      (stEvol_seenSet_some _ t _))), fun t2 ht2 => ?_⟩
                injection ht2 with ht2
                subst ht2
                rw [seenRead_seenSet, if_pos rfl, h1]
            | signature scope recv params results variadic typeParams =>
              dsimp only at h
              split at h
              · simp at h
              · rename_i params2 st' hp
                split at h
                · simp at h
                · rename_i results2 st'' hq
                  split at h
                  · simp at h
                  · rename_i tps2 st3 htps
                    dsimp only [alloc] at h
                    injection h with h
                    injection h with h1 h2
                    subst h2
                    refine ⟨stEvol_trans (stEvol_seenSet_some st t t)
                      (stEvol_trans (hTup _ _ _ _ _ _ _ hp)
                        (stEvol_trans (hTup _ _ _ _ _ _ _ hq)
                          (stEvol_trans (hTNs _ _ _ _ _ _ _ htps)
                            (stEvol_trans
                              (stEvol_alloc st3
                                (.signature scope recv params2 results2 variadic tps2))
                              (stEvol_seenSet_some _ t _))))), fun t2 ht2 => ?_⟩
                    injection ht2 with ht2
                    subst ht2
                    rw [seenRead_seenSet, if_pos rfl, h1]
            | interface_ methods embeddeds allMethods variance =>
              dsimp only at h
              split at h
              · simp at h
              · rename_i ms2 st' hms
                split at h
                · simp at h
                · rename_i es2 st'' hes
                  split at h
                  · simp at h
                  · rename_i ams2 st3 hams
                    dsimp only [alloc] at h
                    injection h with h
                    injection h with h1 h2
                    subst h2
                    refine ⟨stEvol_trans (stEvol_seenSet_some st t t)
                      (stEvol_trans (hFuncs _ _ _ _ _ _ _ hms)
                        (stEvol_trans (substituteTypesNameds_frame _ _ _ _ _ _ _ hes).2.2
                          (stEvol_trans (hFuncs _ _ _ _ _ _ _ hams)
                            (stEvol_trans
                              (stEvol_alloc st3 (.interface_ ms2 es2 ams2 variance))
                              (stEvol_seenSet_some _ t _))))), fun t2 ht2 => ?_⟩
                    injection ht2 with ht2
                    subst ht2
                    rw [seenRead_seenSet, if_pos rfl, h1]
            | map_ key elem =>
              dsimp only at h
              split at h
              · simp at h
              · rename_i key2 st' hk
                split at h
                · simp at h
                · rename_i elem2 st'' he
                  dsimp only [alloc] at h
                  injection h with h
                  injection h with h1 h2
                  subst h2
                  refine ⟨stEvol_trans (stEvol_seenSet_some st t t)
                    (stEvol_trans (hT _ _ _ _ _ _ _ hk).1
                      (stEvol_trans (hT _ _ _ _ _ _ _ he).1
                        (stEvol_trans (stEvol_alloc st'' (.map_ key2 elem2))
                          (stEvol_seenSet_some _ t _)))), fun t2 ht2 => ?_⟩
                  injection ht2 with ht2
                  subst ht2
                  rw [seenRead_seenSet, if_pos rfl, h1]
            | chan_ dir elem =>
              dsimp only at h
              split at h
              · simp at h
              · rename_i elem2 st' hchild
                dsimp only [alloc] at h
                injection h with h
                injection h with h1 h2
                subst h2
                refine ⟨stEvol_trans (stEvol_seenSet_some st t t)
                  (stEvol_trans (hT _ _ _ _ _ _ _ hchild).1
                    (stEvol_trans (stEvol_alloc st' (.chan_ dir elem2))
                      (stEvol_seenSet_some _ t _))), fun t2 ht2 => ?_⟩
                injection ht2 with ht2
                subst ht2
                rw [seenRead_seenSet, if_pos rfl, h1]
            | named obj underlying context =>
              cases hn : substituteTypesNamed asgn ctx (some t) arg (seenSet st t (some t)) with
              | mk sub st' =>
                rw [hn] at h
                dsimp only at h
                injection h with h
                injection h with h1 h2
                subst h2
                obtain ⟨ha', hs', he'⟩ := substituteTypesNamed_frame _ _ _ _ _ _ _ hn
                have hcomp : isCompB st' t = false := by
                  rw [typeAt_isCompB_arena (seenSet st t (some t)) st' ha' t]
                  exact isCompB_false_of_named _ t obj underlying context htn
                refine ⟨stEvol_trans (stEvol_seenSet_some st t t)
                  (stEvol_trans he' (stEvol_seenSet_notComp st' t sub hcomp)),
                  fun t2 ht2 => ?_⟩
                injection ht2 with ht2
                subst ht2
                rw [seenRead_seenSet, if_pos rfl, h1]
            | basic k =>
              dsimp only at h
              injection h with h
              injection h with h1 h2
              subst h2
              refine ⟨stEvol_trans (stEvol_seenSet_some st t t)
                (stEvol_seenSet_some _ t t), fun t2 ht2 => ?_⟩
              injection ht2 with ht2
              subst ht2
              rw [seenRead_seenSet, if_pos rfl, h1]

theorem typeAt_of_lt_length (st st2 : State) (ext : List TypeNode)
    (h : st2.arena = st.arena ++ ext) (k : Nat) (hk : k < st.arena.length) :
    typeAt st2 k = typeAt st k := by
  rw [typeAt, typeAt, h, List.getElem?_append, if_pos hk]

theorem closedN_of_evol {st st2 : State} {N : Nat} (he : StEvol st st2)
    (hc : ClosedN N st) : ClosedN N st2 := by
  obtain ⟨⟨ext, hext⟩, _, _⟩ := he
  obtain ⟨hlen, hcl⟩ := hc
  refine ⟨by rw [hext]; exact Nat.le_trans hlen (by simp), ?_⟩
  intro i hi tn htn
  rw [typeAt_of_lt_length st st2 ext hext i (Nat.lt_of_lt_of_le hi hlen)] at htn
  exact hcl i hi tn htn

theorem muC_le_of_evol {st st2 : State} {N : Nat} (he : StEvol st st2)
    (hlen : N ≤ st.arena.length) : muC st2 N ≤ muC st N := by
  obtain ⟨⟨ext, hext⟩, hcomp, _⟩ := he
  apply Finset.card_le_card
  intro i hi
  simp only [muC, Finset.mem_filter, Finset.mem_range] at hi ⊢
  obtain ⟨hiN, hcompi, hseeni⟩ := hi
  have hieq : typeAt st2 i = typeAt st i :=
    typeAt_of_lt_length st st2 ext hext i (Nat.lt_of_lt_of_le hiN hlen)
  have hcompi2 : isCompB st i = true := by
    unfold isCompB at hcompi ⊢
    rw [hieq] at hcompi
    exact hcompi
  refine ⟨hiN, hcompi2, ?_⟩
  by_contra hne
  have hsome : (seenRead st i).isSome := by
    cases hx : seenRead st i with
    | none => exact absurd hx hne
    | some v => simp
  have := hcomp i hcompi2 hsome
  rw [hseeni] at this
  simp at this

theorem muC_seenSet_lt (st : State) (N : Nat) (t : TypeRef) (htN : t < N)
    (hcomp : isCompB st t = true) (hseen : seenRead st t = none) :
    muC (seenSet st t (some t)) N < muC st N := by
  apply Finset.card_lt_card
  constructor
  · intro i hi
    simp only [muC, Finset.mem_filter, Finset.mem_range] at hi ⊢
    obtain ⟨hiN, hcompi, hseeni⟩ := hi
    rw [seenRead_seenSet] at hseeni
    by_cases hti : t = i
    · rw [if_pos hti] at hseeni
      exact absurd hseeni (by simp)
    · rw [if_neg hti] at hseeni
      have hci : isCompB st i = true := by
        unfold isCompB at hcompi ⊢
        exact hcompi
      exact ⟨hiN, hci, hseeni⟩
  · intro hsub
    have ht1 : t ∈ (Finset.range N).filter
        (fun i => isCompB st i = true ∧ seenRead st i = none) := by
      simp only [Finset.mem_filter, Finset.mem_range]
      exact ⟨htN, hcomp, hseen⟩
    have := hsub ht1
    simp only [muC, Finset.mem_filter, Finset.mem_range, seenRead_seenSet, if_pos rfl] at this
    exact absurd this.2.2 (by simp)

theorem substituteTypesNameds_no_fuelOut (asgn : AssignPred) (ctx : Option TypeRef) :
    ∀ (old args : List (Option TypeRef)) (st : State),
      substituteTypesNameds asgn ctx old args st ≠ .error .fuelOut := by
  intro old
  induction old with
  | nil =>
    intro args st h
    unfold substituteTypesNameds at h
    exact Except.noConfusion h
  | cons v rest ih =>
    intro args st h
    unfold substituteTypesNameds at h
    dsimp only at h
    cases hn : substituteTypesNamed asgn ctx v ((args[0]?).bind id) st with
    | mk res1 st1 =>
      rw [hn] at h
      dsimp only at h
      split at h
      · injection h with h
        exact SubErr.noConfusion h
      · split at h
        · split at h
          · exact ih (args.drop 1) st1 (by rw [← h]; assumption)
          · exact Except.noConfusion h
        · injection h with h
          exact SubErr.noConfusion h



theorem objectAdeq_of {f : Nat} (hT : TypesAdeq f) : ObjectAdeq f := by
  intro asgn ctx old argO st N hc hb hf h
  unfold substituteTypesObject at h
  cases hs : substituteTypes asgn f ctx old.typ argO.typ st with
  | error e =>
    rw [hs] at h
    dsimp only at h
    injection h with h
    subst h
    exact hT asgn ctx old.typ argO.typ st N hc hb hf hs
  | ok p =>
    obtain ⟨t2, st'⟩ := p
    rw [hs] at h
    dsimp only at h
    exact Except.noConfusion h

theorem varAdeq_of {f : Nat} (hO : ObjectAdeq f) : VarAdeq f := by
  intro asgn ctx old argV st N hc hb hf h
  unfold substituteTypesVar at h
  cases old with
  | none => exact Except.noConfusion h
  | some ov =>
    dsimp only at h
    split at h
    · rename_i e hs
      injection h with h
      subst h
      exact hO asgn ctx ov.obj _ st N hc hb hf hs
    · exact Except.noConfusion h

theorem funcAdeq_of {f : Nat} (hO : ObjectAdeq f) : FuncAdeq f := by
  intro asgn ctx old argF st N hc hb hf h
  unfold substituteTypesFunc at h
  cases old with
  | none => exact Except.noConfusion h
  | some ov =>
    dsimp only at h
    split at h
    · rename_i e hs
      injection h with h
      subst h
      exact hO asgn ctx ov.obj _ st N hc hb hf hs
    · exact Except.noConfusion h

theorem typeNameAdeq_of {f : Nat} (hO : ObjectAdeq f) : TypeNameAdeq f := by
  intro asgn ctx old argT st N hc hb hf h
  unfold substituteTypesTypeName at h
  cases old with
  | none => exact Except.noConfusion h
  | some ov =>
    dsimp only at h
    split at h
    · rename_i e hs
      injection h with h
      subst h
      exact hO asgn ctx ov.obj _ st N hc hb hf hs
    · exact Except.noConfusion h

theorem varsAdeq_of {f : Nat} (hV : VarAdeq f) : VarsAdeq f := by
  intro asgn ctx old
  induction old with
  | nil =>
    intro argVs st N hc hb hf h
    unfold substituteTypesVars at h
    exact Except.noConfusion h
  | cons v rest ih =>
    intro argVs st N hc hb hf h
    unfold substituteTypesVars at h
    dsimp only at h
    simp only [VarsBelow, List.all_cons, Bool.and_eq_true] at hb
    cases hs : substituteTypesVar asgn f ctx v ((argVs[0]?).bind id) st with
    | error e =>
      rw [hs] at h
      dsimp only at h
      injection h with h
      subst h
      exact hV asgn ctx v _ st N hc hb.1 hf hs
    | ok p =>
      obtain ⟨v2, st'⟩ := p
      rw [hs] at h
      dsimp only at h
      have hevol : StEvol st st' :=
        varEvol_of (objectEvol_of (typesEvol f)) asgn ctx v _ st v2 st' hs
      cases hrest : substituteTypesVars asgn f ctx rest (argVs.drop 1) st' with
      | error e =>
        rw [hrest] at h
        dsimp only at h
        injection h with h
        subst h
        have hmu : muC st' N ≤ muC st N := muC_le_of_evol hevol hc.1
        exact ih (argVs.drop 1) st' N (closedN_of_evol hevol hc) hb.2 (by omega) hrest
      | ok q =>
        rw [hrest] at h
        dsimp only at h
        exact Except.noConfusion h

theorem funcsAdeq_of {f : Nat} (hF : FuncAdeq f) : FuncsAdeq f := by
  intro asgn ctx old
  induction old with
  | nil =>
    intro argFs st N hc hb hf h
    unfold substituteTypesFuncs at h
    exact Except.noConfusion h
  | cons v rest ih =>
    intro argFs st N hc hb hf h
    unfold substituteTypesFuncs at h
    dsimp only at h
    simp only [FuncsBelow, List.all_cons, Bool.and_eq_true] at hb
    cases hs : substituteTypesFunc asgn f ctx v ((argFs[0]?).bind id) st with
    | error e =>
      rw [hs] at h
      dsimp only at h
      injection h with h
      subst h
      exact hF asgn ctx v _ st N hc hb.1 hf hs
    | ok p =>
      obtain ⟨v2, st'⟩ := p
      rw [hs] at h
      dsimp only at h
      have hevol : StEvol st st' :=
        funcEvol_of (objectEvol_of (typesEvol f)) asgn ctx v _ st v2 st' hs
      cases hrest : substituteTypesFuncs asgn f ctx rest (argFs.drop 1) st' with
      | error e =>
        rw [hrest] at h
        dsimp only at h
        injection h with h
        subst h
        have hmu : muC st' N ≤ muC st N := muC_le_of_evol hevol hc.1
        exact ih (argFs.drop 1) st' N (closedN_of_evol hevol hc) hb.2 (by omega) hrest
      | ok q =>
        rw [hrest] at h
        dsimp only at h
        exact Except.noConfusion h

theorem typeNamesAdeq_of {f : Nat} (hN : TypeNameAdeq f) : TypeNamesAdeq f := by
  intro asgn ctx old
  induction old with
  | nil =>
    intro argTs st N hc hb hf h
    unfold substituteTypesTypeNames at h
    exact Except.noConfusion h
  | cons v rest ih =>
    intro argTs st N hc hb hf h
    unfold substituteTypesTypeNames at h
    dsimp only at h
    simp only [TypeNamesBelow, List.all_cons, Bool.and_eq_true] at hb
    cases hs : substituteTypesTypeName asgn f ctx v ((argTs[0]?).bind id) st with
    | error e =>
      rw [hs] at h
      dsimp only at h
      injection h with h
      subst h
      exact hN asgn ctx v _ st N hc hb.1 hf hs
    | ok p =>
      obtain ⟨v2, st'⟩ := p
      rw [hs] at h
      dsimp only at h
      have hevol : StEvol st st' :=
        typeNameEvol_of (objectEvol_of (typesEvol f)) asgn ctx v _ st v2 st' hs
      cases hrest : substituteTypesTypeNames asgn f ctx rest (argTs.drop 1) st' with
      | error e =>
        rw [hrest] at h
        dsimp only at h
        injection h with h
        subst h
        have hmu : muC st' N ≤ muC st N := muC_le_of_evol hevol hc.1
        exact ih (argTs.drop 1) st' N (closedN_of_evol hevol hc) hb.2 (by omega) hrest
      | ok q =>
        rw [hrest] at h
        dsimp only at h
        exact Except.noConfusion h

theorem tupleAdeq_of {f : Nat} (hAll : ∀ m, m < f → TypesAdeq m) : TupleAdeq f := by
  intro asgn ctx old argT st N hc hb hf h
  cases f with
  | zero => omega
  | succ g =>
    rw [substituteTypesTuple.eq_def] at h
    dsimp only at h
    cases old with
    | none => exact Except.noConfusion h
    | some o =>
      dsimp only at h
      split at h
      · rename_i vars hnode
        split at h
        · rename_i e hs
          injection h with h
          subst h
          have ho : o < N := by simpa [refBelow] using hb
          have hcl := hc.2 o ho _ hnode
          simp only [nodeClosedB] at hcl
          have hVs : VarsAdeq g :=
            varsAdeq_of (varAdeq_of (objectAdeq_of (hAll g (Nat.lt_succ_self g))))
          exact hVs asgn ctx vars _ st N hc hcl (by omega) hs
        · exact Except.noConfusion h
      · exact Except.noConfusion h



theorem typesAdeq : ∀ f, TypesAdeq f := by
  intro f
  induction f using Nat.strong_induction_on with
  | _ f ih =>
    intro asgn ctx typ arg st N hc hb hf h
    cases f with
    | zero => omega
    | succ g =>
      have hTg : TypesAdeq g := ih g (Nat.lt_succ_self g)
      have hVsA : VarsAdeq g := varsAdeq_of (varAdeq_of (objectAdeq_of hTg))
      have hFsA : FuncsAdeq g := funcsAdeq_of (funcAdeq_of (objectAdeq_of hTg))
      have hNsA : TypeNamesAdeq g := typeNamesAdeq_of (typeNameAdeq_of (objectAdeq_of hTg))
      have hTupA : TupleAdeq g := tupleAdeq_of (fun m hm => ih m (Nat.lt_succ_of_lt hm))
      have hTe : TypesEvol g := typesEvol g
      have hVarsE : VarsEvol g := varsEvol_of (varEvol_of (objectEvol_of hTe))
      have hFuncsE : FuncsEvol g := funcsEvol_of (funcEvol_of (objectEvol_of hTe))
      have hTupE : TupleEvol g := tupleEvol_of (fun m _ => typesEvol m)
      rw [substituteTypes.eq_def] at h
      dsimp only at h
      cases typ with
      | none => exact Except.noConfusion h
      | some t =>
        have ht : t < N := by simpa [refBelow] using hb
        dsimp only at h
        cases hseen : seenRead st t with
        | some r0 =>
          rw [hseen] at h
          exact Except.noConfusion h
        | none =>
          rw [hseen] at h
          dsimp only at h
          cases htn : typeAt (seenSet st t (some t)) t with
          | none =>
            rw [htn] at h
            exact Except.noConfusion h
          | some tn =>
            rw [htn] at h
            have htn0 : typeAt st t = some tn := htn
            have hcl := hc.2 t ht tn htn0
            cases tn with
            | array len elem =>
              have hcompt : isCompB st t = true := by simp [isCompB, htn0]
              have hdec := muC_seenSet_lt st N t ht hcompt hseen
              simp only [nodeClosedB] at hcl
              dsimp only at h
              split at h
              · rename_i e hs
                injection h with h
                subst h
                refine hTg asgn ctx elem _ (seenSet st t (some t)) N hc hcl ?_ hs
                omega
              · rename_i elem2 st' hs
                dsimp only [alloc] at h
                exact Except.noConfusion h
            | slice elem =>
              have hcompt : isCompB st t = true := by simp [isCompB, htn0]
              have hdec := muC_seenSet_lt st N t ht hcompt hseen
              simp only [nodeClosedB] at hcl
              dsimp only at h
              split at h
              · rename_i e hs
                injection h with h
                subst h
                refine hTg asgn ctx elem _ (seenSet st t (some t)) N hc hcl ?_ hs
                omega
              · rename_i elem2 st' hs
                dsimp only [alloc] at h
                exact Except.noConfusion h
            | struct_ fields tags offsets typeParams =>
              have hcompt : isCompB st t = true := by simp [isCompB, htn0]
              have hdec := muC_seenSet_lt st N t ht hcompt hseen
              simp only [nodeClosedB, Bool.and_eq_true] at hcl
              dsimp only at h
              split at h
              · rename_i e hs
                injection h with h
                subst h
                refine hVsA asgn ctx fields _ (seenSet st t (some t)) N hc hcl.1 ?_ hs
                omega
              · rename_i fields2 st' hs
                have hevol : StEvol (seenSet st t (some t)) st' :=
                  hVarsE _ _ _ _ _ _ _ hs
                have hmu : muC st' N ≤ muC (seenSet st t (some t)) N :=
                  muC_le_of_evol hevol hc.1
                split at h
                · rename_i e htps
                  injection h with h
                  subst h
                  refine hNsA asgn ctx typeParams _ st' N (closedN_of_evol hevol hc)
                    hcl.2 ?_ htps
                  omega
                · rename_i tps2 st'' htps
                  dsimp only [alloc] at h
                  exact Except.noConfusion h
            | pointer base =>
              have hcompt : isCompB st t = true := by simp [isCompB, htn0]
              have hdec := muC_seenSet_lt st N t ht hcompt hseen
              simp only [nodeClosedB] at hcl
              dsimp only at h
              split at h
              · rename_i e hs
                injection h with h
                subst h
                refine hTg asgn ctx base _ (seenSet st t (some t)) N hc hcl ?_ hs
                omega
              · rename_i base2 st' hs
                dsimp only [alloc] at h
                exact Except.noConfusion h
            | tuple vars =>
              have hcompt : isCompB st t = true := by simp [isCompB, htn0]
              have hdec := muC_seenSet_lt st N t ht hcompt hseen
              simp only [nodeClosedB] at hcl
              dsimp only at h
              split at h
              · rename_i e hs
                injection h with h
                subst h
                refine hVsA asgn ctx vars _ (seenSet st t (some t)) N hc hcl ?_ hs
                omega
              · rename_i vars2 st' hs
                dsimp only [alloc] at h
                exact Except.noConfusion h
            | signature scope recv params results variadic typeParams =>
              have hcompt : isCompB st t = true := by simp [isCompB, htn0]
              have hdec := muC_seenSet_lt st N t ht hcompt hseen
              simp only [nodeClosedB, Bool.and_eq_true] at hcl
              dsimp only at h
              split at h
              · rename_i e hp
                injection h with h
                subst h
                refine hTupA asgn ctx params _ (seenSet st t (some t)) N hc hcl.1.1 ?_ hp
                omega
              · rename_i params2 st' hp
                have hevol : StEvol (seenSet st t (some t)) st' := hTupE _ _ _ _ _ _ _ hp
                have hmu : muC st' N ≤ muC (seenSet st t (some t)) N :=
                  muC_le_of_evol hevol hc.1
                split at h
                · rename_i e hq
                  injection h with h
                  subst h
                  refine hTupA asgn ctx results _ st' N (closedN_of_evol hevol hc)
                    hcl.1.2 ?_ hq
                  omega
                · rename_i results2 st'' hq
                  have hevol2 : StEvol st' st'' := hTupE _ _ _ _ _ _ _ hq
                  have hmu2 : muC st'' N ≤ muC st' N :=
                    muC_le_of_evol hevol2 (closedN_of_evol hevol hc).1
                  split at h
                  · rename_i e htps
                    injection h with h
                    subst h
                    refine hNsA asgn ctx typeParams _ st'' N
                      (closedN_of_evol hevol2 (closedN_of_evol hevol hc))
                      hcl.2 ?_ htps
                    omega
                  · rename_i tps2 st3 htps
                    dsimp only [alloc] at h
                    exact Except.noConfusion h
            | interface_ methods embeddeds allMethods variance =>
              have hcompt : isCompB st t = true := by simp [isCompB, htn0]
              have hdec := muC_seenSet_lt st N t ht hcompt hseen
              simp only [nodeClosedB, Bool.and_eq_true] at hcl
              dsimp only at h
              split at h
              · rename_i e hms
                injection h with h
                subst h
                refine hFsA asgn ctx methods _ (seenSet st t (some t)) N hc hcl.1 ?_ hms
                omega
              · rename_i ms2 st' hms
                have hevol : StEvol (seenSet st t (some t)) st' := hFuncsE _ _ _ _ _ _ _ hms
                have hmu : muC st' N ≤ muC (seenSet st t (some t)) N :=
                  muC_le_of_evol hevol hc.1
                split at h
                · rename_i e hes
                  injection h with h
                  subst h
                  exact substituteTypesNameds_no_fuelOut asgn ctx embeddeds _ st' hes
                · rename_i es2 st'' hes
                  obtain ⟨ha2, hs2, he2⟩ := substituteTypesNameds_frame _ _ _ _ _ _ _ hes
                  have hmu2 : muC st'' N ≤ muC st' N :=
                    muC_le_of_evol he2 (closedN_of_evol hevol hc).1
                  split at h
                  · rename_i e hams
                    injection h with h
                    subst h
                    refine hFsA asgn ctx allMethods _ st'' N
                      (closedN_of_evol he2 (closedN_of_evol hevol hc))
                      hcl.2 ?_ hams
                    omega
                  · rename_i ams2 st3 hams
                    dsimp only [alloc] at h
                    exact Except.noConfusion h
            | map_ key elem =>
              have hcompt : isCompB st t = true := by simp [isCompB, htn0]
              have hdec := muC_seenSet_lt st N t ht hcompt hseen
              simp only [nodeClosedB, Bool.and_eq_true] at hcl
              dsimp only at h
              split at h
              · rename_i e hk
                injection h with h
                subst h
                refine hTg asgn ctx key _ (seenSet st t (some t)) N hc hcl.1 ?_ hk
                omega
              · rename_i key2 st' hk
                have hevol : StEvol (seenSet st t (some t)) st' :=
                  (hTe _ _ _ _ _ _ _ hk).1
                have hmu : muC st' N ≤ muC (seenSet st t (some t)) N :=
                  muC_le_of_evol hevol hc.1
                split at h
                · rename_i e he
                  injection h with h
                  subst h
                  refine hTg asgn ctx elem _ st' N (closedN_of_evol hevol hc)
                    hcl.2 ?_ he
                  omega
                · rename_i elem2 st'' he
                  dsimp only [alloc] at h
                  exact Except.noConfusion h
            | chan_ dir elem =>
              have hcompt : isCompB st t = true := by simp [isCompB, htn0]
              have hdec := muC_seenSet_lt st N t ht hcompt hseen
              simp only [nodeClosedB] at hcl
              dsimp only at h
              split at h
              · rename_i e hs
                injection h with h
                subst h
                refine hTg asgn ctx elem _ (seenSet st t (some t)) N hc hcl ?_ hs
                omega
              · rename_i elem2 st' hs
                dsimp only [alloc] at h
                exact Except.noConfusion h
            | named obj underlying context =>
              cases hn : substituteTypesNamed asgn ctx (some t) arg (seenSet st t (some t)) with
              | mk sub st' =>
                rw [hn] at h
                dsimp only at h
                exact Except.noConfusion h
            | basic k =>
              dsimp only at h
              exact Except.noConfusion h

theorem muC_le (st : State) (N : Nat) : muC st N ≤ N := by
  unfold muC
  calc ((Finset.range N).filter _).card ≤ (Finset.range N).card := Finset.card_filter_le _ _
    _ = N := Finset.card_range N

/-- C1: within one top-level SubstituteTypes pass the alias table is
write-once per type parameter: a binding that reads non-nil survives any
further substitution unchanged (first conjunct); an occurrence of a
parameter whose symbol is already bound returns the recorded binding
verbatim with the state untouched (second conjunct); and on the template
tuple (T, T) against argument (int, string) the map ends bound to int,
the type paired with the first traversal-order occurrence, and both
rebuilt fields carry int (third conjunct). -/
theorem claim_C1_first_binding_wins :
    (∀ (fuel : Nat) (asgn : AssignPred) (ctx typ arg : Option TypeRef) (st : State)
      (r : Option TypeRef) (st2 : State) (sym : SymId) (b : TypeRef),
      aliasRead st sym = some b →
      substituteTypes asgn fuel ctx typ arg st = .ok (r, st2) →
      aliasRead st2 sym = some b) ∧
    (∀ (asgn : AssignPred) (ctx : Option TypeRef) (o : TypeRef) (arg : Option TypeRef)
      (st : State) (sym : SymId) (u octx : Option TypeRef) (b : TypeRef),
      typeAt st o = some (.named (some sym) u octx) → octx = ctx →
      aliasRead st sym = some b →
      substituteTypesNamed asgn ctx (some o) arg st = (some b, st)) ∧
    ((SubstituteTypes asgnEx (some 5) (some 0) (some 6) stC1).toOption.map
      (fun p => (p.1, aliasRead p.2 0, typeAt p.2 7)) =
      some (some 7, some 3, some (.tuple [some (mkVar (some 3)), some (mkVar (some 3))]))) := by
  refine ⟨?_, ?_, ?_⟩
  · intro fuel asgn ctx typ arg st r st2 sym b h1 h2
    exact (typesEvol fuel asgn ctx typ arg st r st2 h2).1.2.2 sym b h1
  · intro asgn ctx o arg st sym u octx b hnode hctx hread
    unfold substituteTypesNamed
    dsimp only
    rw [hnode]
    cases ha : st.aliases with
    | none => rw [aliasRead, ha] at hread; exact Option.noConfusion hread
    | some amap =>
      simp only [aliasRead, ha] at hread
      dsimp only
      rw [if_pos hctx, hread]
  · simp [SubstituteTypes, substituteTypes, substituteTypesNamed, substituteTypesVars,
      substituteTypesVar, substituteTypesObject, seenRead, seenSet, aliasRead, aliasSet,
      mapRead, typeAt, argNode, alloc, zeroObject, mkVar, stC1, asgnEx, List.find?,
      Except.toOption]

/-- C1 witness: the first conjunct applied at a concrete bound state. -/
theorem claim_C1_witness :
    aliasRead ⟨[.basic 0], some [(0, some 0)], []⟩ 0 = some 0 ∧
    substituteTypes asgnEx 1 none none none ⟨[.basic 0], some [(0, some 0)], []⟩ =
      .ok (none, ⟨[.basic 0], some [(0, some 0)], []⟩) ∧
    aliasRead ⟨[.basic 0], some [(0, some 0)], []⟩ 0 = some 0 := by
  refine ⟨by simp [aliasRead, mapRead, List.find?], by simp [substituteTypes], ?_⟩
  exact claim_C1_first_binding_wins.1 1 asgnEx none none none
    ⟨[.basic 0], some [(0, some 0)], []⟩ none ⟨[.basic 0], some [(0, some 0)], []⟩ 0 0
    (by simp [aliasRead, mapRead, List.find?]) (by simp [substituteTypes])



/-- C2: substitution terminates on every closed type graph, cyclic ones
included: with the fuel bound of the SubstituteTypes entry point the
engine never exhausts fuel on a closed arena (first conjunct); whenever
a pass returns, the seen entry registered for the root before recursing
has been overwritten with the finished result (second conjunct); and on
the self-referential store (struct whose field points back to it) the
pass returns a fresh struct (handle 3) whose field points to a fresh
pointer node (handle 2) whose base is the original template handle 0,
preserving the self-reference as the same identity, with seen holding
the placeholder entries shadowed by the final results (third conjunct). -/
theorem claim_C2_cycle_termination :
    (∀ (asgn : AssignPred) (ctx arg : Option TypeRef) (st : State) (t : TypeRef),
      ClosedN st.arena.length st → t < st.arena.length →
      SubstituteTypes asgn ctx (some t) arg st ≠ .error .fuelOut) ∧
    (∀ (asgn : AssignPred) (ctx typ arg : Option TypeRef) (st : State)
      (r : Option TypeRef) (st2 : State) (t : TypeRef),
      SubstituteTypes asgn ctx typ arg st = .ok (r, st2) → typ = some t →
      seenRead st2 t = r) ∧
    (SubstituteTypes asgnEx none (some 0) none stC2 =
      .ok (some 3, ⟨[.struct_ [some (mkVar (some 1))] [] [] [], .pointer (some 0),
        .pointer (some 0), .struct_ [some (mkVar (some 2))] [] [] []],
        some [], [(0, some 3), (1, some 2), (1, some 1), (0, some 0)]⟩)) := by
  refine ⟨?_, ?_, ?_⟩
  · intro asgn ctx arg st t hc ht
    unfold SubstituteTypes
    apply typesAdeq (2 * st.arena.length + 2) asgn ctx (some t) arg
      { st with seen := [] } st.arena.length hc
    · simp [refBelow, ht]
    · have := muC_le { st with seen := [] } st.arena.length
      omega
  · intro asgn ctx typ arg st r st2 t h ht
    unfold SubstituteTypes at h
    exact (typesEvol _ _ _ _ _ _ _ _ h).2 t ht
  · simp [SubstituteTypes, substituteTypes, substituteTypesVars, substituteTypesVar,
      substituteTypesObject, substituteTypesTypeNames, substituteTypesTypeName,
      seenRead, seenSet, aliasRead, aliasSet, mapRead, typeAt,
      argNode, alloc, zeroObject, mkVar, stC2, asgnEx, List.find?]

/-- C2 witness: the termination conjunct applied to the concrete
self-referential store. -/
theorem claim_C2_witness :
    ClosedN stC2.arena.length stC2 ∧ 0 < stC2.arena.length ∧
    SubstituteTypes asgnEx none (some 0) none stC2 ≠ .error .fuelOut := by
  have hc : ClosedN stC2.arena.length stC2 := by
    refine ⟨Nat.le_refl _, ?_⟩
    intro i hi tn htn
    have hi2 : i < 2 := by simpa [stC2] using hi
    interval_cases i
    · simp only [stC2, typeAt, List.getElem?_cons_zero, Option.some.injEq] at htn
      subst htn
      decide
    · simp only [stC2, typeAt, List.getElem?_cons_succ, List.getElem?_cons_zero,
        Option.some.injEq] at htn
      subst htn
      decide
  exact ⟨hc, by simp [stC2],
    claim_C2_cycle_termination.1 asgnEx none none stC2 0 hc (by simp [stC2])⟩

/-- C3: a shape mismatch between template and argument degrades to
argument-absent substitution instead of failing: on an Array template
node a non-Array argument behaves exactly like an absent argument for
this level and therefore for all descendants (first conjunct); an
unbound type parameter substituted against an absent argument is left
unresolved, returning the original Named handle and recording no alias
entry (second conjunct, using the spec-modelled fact that an absent
argument is never assignable); and substituting the template Array(5, T)
against the argument Slice(int) returns a rebuilt Array whose element is
still the unresolved parameter handle with an unchanged empty alias
table (third conjunct). -/
theorem claim_C3_shape_mismatch :
    (∀ (asgn : AssignPred) (fuel : Nat) (ctx : Option TypeRef) (t : TypeRef)
      (arg : Option TypeRef) (st : State) (len : Int) (elem : Option TypeRef),
      typeAt st t = some (.array len elem) →
      (match argNode st arg with | some (.array _ _) => False | _ => True) →
      substituteTypes asgn fuel ctx (some t) arg st =
        substituteTypes asgn fuel ctx (some t) none st) ∧
    (∀ (asgn : AssignPred) (ctx : Option TypeRef) (o : TypeRef) (st : State)
      (sym : SymId) (u octx : Option TypeRef),
      typeAt st o = some (.named (some sym) u octx) → octx = ctx →
      aliasRead st sym = none → (∀ ar (tt : TypeRef), asgn ar none tt = false) →
      substituteTypesNamed asgn ctx (some o) none st = (some o, st)) ∧
    (SubstituteTypes asgnEx (some 4) (some 0) (some 2) stC3 =
      .ok (some 5, ⟨[.array 5 (some 1), .named (some 0) none (some 4), .slice (some 3),
        .basic 1, .basic 0, .array 5 (some 1)], some [],
        [(0, some 5), (1, some 1), (1, some 1), (0, some 0)]⟩)) := by
  refine ⟨?_, ?_, ?_⟩
  · intro asgn fuel ctx t arg st len elem htn hmis
    cases fuel with
    | zero => rw [substituteTypes.eq_def, substituteTypes.eq_def]
    | succ g =>
      rw [substituteTypes.eq_def, substituteTypes.eq_def]
      dsimp only
      cases hseen : seenRead st t with
      | some r0 => rfl
      | none =>
        have htn1 : typeAt (seenSet st t (some t)) t = some (.array len elem) := htn
        dsimp only
        rw [htn1]
        dsimp only
        have hargn : argNode (seenSet st t (some t)) arg = argNode st arg := rfl
        rw [hargn]
        cases hn : argNode st arg with
        | none => rfl
        | some node =>
          rw [hn] at hmis
          cases node with
          | array l2 e2 => exact absurd hmis (by simp)
          | slice e => rfl
          | struct_ a b c d => rfl
          | pointer b => rfl
          | tuple a => rfl
          | signature a b c d e f => rfl
          | interface_ a b c d => rfl
          | map_ a b => rfl
          | chan_ a b => rfl
          | named a b c => rfl
          | basic a => rfl
  · intro asgn ctx o st sym u octx hnode hctx hread hasgn
    unfold substituteTypesNamed
    dsimp only
    rw [hnode]
    cases ha : st.aliases with
    | none => rfl
    | some amap =>
      simp only [aliasRead, ha] at hread
      dsimp only
      rw [if_pos hctx, hread]
      simp [hasgn]
  · simp [SubstituteTypes, substituteTypes, substituteTypesNamed, seenRead, seenSet,
      aliasRead, aliasSet, mapRead, typeAt, argNode, alloc, stC3, asgnEx, List.find?]

/-- C3 witness: the mismatch conjunct applied at the concrete Array
template against the Slice argument, and the unresolved-parameter
conjunct at the concrete unbound parameter. -/
theorem claim_C3_witness :
    (substituteTypes asgnEx 12 (some 4) (some 0) (some 2) stC3 =
      substituteTypes asgnEx 12 (some 4) (some 0) none stC3) ∧
    substituteTypesNamed asgnEx (some 4) (some 1) none stC3 = (some 1, stC3) := by
  constructor
  · exact claim_C3_shape_mismatch.1 asgnEx 12 (some 4) 0 (some 2) stC3 5 (some 1)
      (by simp [typeAt, stC3]) (by simp [argNode, typeAt, stC3])
  · exact claim_C3_shape_mismatch.2.1 asgnEx (some 4) 1 stC3 0 none (some 4)
      (by simp [typeAt, stC3]) rfl (by simp [aliasRead, mapRead, stC3])
      (by intro ar tt; simp [asgnEx])



theorem typeAt_alloc_self (st : State) (n : TypeNode) :
    typeAt (alloc st n).2 (alloc st n).1 = some n := by
  simp [alloc, typeAt]

/-- C8: the substituted result carries every piece of non-type metadata
over from the template unchanged: a rebuilt object keeps parent,
position, package, name and declaration order (first conjunct); a
substituted Array keeps its length, a Struct its tags and offsets, a
Signature its scope, receiver and variadic flag, an Interface its
variance and a Chan its direction (remaining conjuncts), whatever the
argument and alias state. -/
theorem claim_C8_metadata_preserved :
    (∀ (asgn : AssignPred) (fuel : Nat) (ctx : Option TypeRef) (old argO : ObjectV)
      (st : State) (o2 : ObjectV) (st2 : State),
      substituteTypesObject asgn fuel ctx old argO st = .ok (o2, st2) →
      o2.parent = old.parent ∧ o2.pos = old.pos ∧ o2.pkg = old.pkg ∧
        o2.name = old.name ∧ o2.order = old.order) ∧
    (∀ (asgn : AssignPred) (g : Nat) (ctx : Option TypeRef) (t : TypeRef)
      (arg : Option TypeRef) (st : State) (len : Int) (elem : Option TypeRef)
      (r : Option TypeRef) (st2 : State),
      seenRead st t = none → typeAt st t = some (.array len elem) →
      substituteTypes asgn (g + 1) ctx (some t) arg st = .ok (r, st2) →
      ∃ rr elem2, r = some rr ∧ typeAt st2 rr = some (.array len elem2)) ∧
    (∀ (asgn : AssignPred) (g : Nat) (ctx : Option TypeRef) (t : TypeRef)
      (arg : Option TypeRef) (st : State) (fields : List (Option VarV))
      (tags : List String) (offsets : List Int) (typeParams : List (Option TypeNameV))
      (r : Option TypeRef) (st2 : State),
      seenRead st t = none → typeAt st t = some (.struct_ fields tags offsets typeParams) →
      substituteTypes asgn (g + 1) ctx (some t) arg st = .ok (r, st2) →
      ∃ rr fields2 tps2, r = some rr ∧
        typeAt st2 rr = some (.struct_ fields2 tags offsets tps2)) ∧
    (∀ (asgn : AssignPred) (g : Nat) (ctx : Option TypeRef) (t : TypeRef)
      (arg : Option TypeRef) (st : State) (scope : Option Nat) (recv : Option VarV)
      (params results : Option TypeRef) (variadic : Bool)
      (typeParams : List (Option TypeNameV)) (r : Option TypeRef) (st2 : State),
      seenRead st t = none →
      typeAt st t = some (.signature scope recv params results variadic typeParams) →
      substituteTypes asgn (g + 1) ctx (some t) arg st = .ok (r, st2) →
      ∃ rr params2 results2 tps2, r = some rr ∧
        typeAt st2 rr = some (.signature scope recv params2 results2 variadic tps2)) ∧
    (∀ (asgn : AssignPred) (g : Nat) (ctx : Option TypeRef) (t : TypeRef)
      (arg : Option TypeRef) (st : State) (methods : List (Option FuncV))
      (embeddeds : List (Option TypeRef)) (allMethods : List (Option FuncV))
      (variance : Int) (r : Option TypeRef) (st2 : State),
      seenRead st t = none →
      typeAt st t = some (.interface_ methods embeddeds allMethods variance) →
      substituteTypes asgn (g + 1) ctx (some t) arg st = .ok (r, st2) →
      ∃ rr ms2 es2 ams2, r = some rr ∧
        typeAt st2 rr = some (.interface_ ms2 es2 ams2 variance)) ∧
    (∀ (asgn : AssignPred) (g : Nat) (ctx : Option TypeRef) (t : TypeRef)
      (arg : Option TypeRef) (st : State) (dir : Nat) (elem : Option TypeRef)
      (r : Option TypeRef) (st2 : State),
      seenRead st t = none → typeAt st t = some (.chan_ dir elem) →
      substituteTypes asgn (g + 1) ctx (some t) arg st = .ok (r, st2) →
      ∃ rr elem2, r = some rr ∧ typeAt st2 rr = some (.chan_ dir elem2)) := by
  refine ⟨?_, ?_, ?_, ?_, ?_, ?_⟩
  · intro asgn fuel ctx old argO st o2 st2 h
    unfold substituteTypesObject at h
    split at h
    · exact Except.noConfusion h
    · rename_i t2 st' hs
      injection h with h
      injection h with h1 h2
      subst h1
      exact ⟨rfl, rfl, rfl, rfl, rfl⟩
  · intro asgn g ctx t arg st len elem r st2 hseen htn h
    rw [substituteTypes.eq_def] at h
    dsimp only at h
    rw [hseen] at h
    dsimp only at h
    have htn1 : typeAt (seenSet st t (some t)) t = some (.array len elem) := htn
    rw [htn1] at h
    dsimp only at h
    split at h
    · exact Except.noConfusion h
    · rename_i elem2 st' hs
      injection h with h
      injection h with h1 h2
      subst h1
      subst h2
      exact ⟨_, elem2, rfl, typeAt_alloc_self st' (.array len elem2)⟩
  · intro asgn g ctx t arg st fields tags offsets typeParams r st2 hseen htn h
    rw [substituteTypes.eq_def] at h
    dsimp only at h
    rw [hseen] at h
    dsimp only at h
    have htn1 : typeAt (seenSet st t (some t)) t =
      some (.struct_ fields tags offsets typeParams) := htn
    rw [htn1] at h
    dsimp only at h
    split at h
    · exact Except.noConfusion h
    · rename_i fields2 st' hs
      split at h
      · exact Except.noConfusion h
      · rename_i tps2 st'' htps
        injection h with h
        injection h with h1 h2
        subst h1
        subst h2
        exact ⟨_, fields2, tps2, rfl,
          typeAt_alloc_self st'' (.struct_ fields2 tags offsets tps2)⟩
  · intro asgn g ctx t arg st scope recv params results variadic typeParams r st2 hseen htn h
    rw [substituteTypes.eq_def] at h
    dsimp only at h
    rw [hseen] at h
    dsimp only at h
    have htn1 : typeAt (seenSet st t (some t)) t =
      some (.signature scope recv params results variadic typeParams) := htn
    rw [htn1] at h
    dsimp only at h
    split at h
    · exact Except.noConfusion h
    · rename_i params2 st' hp
      split at h
      · exact Except.noConfusion h
      · rename_i results2 st'' hq
        split at h
        · exact Except.noConfusion h
        · rename_i tps2 st3 htps
          injection h with h
          injection h with h1 h2
          subst h1
          subst h2
          exact ⟨_, params2, results2, tps2, rfl,
            typeAt_alloc_self st3 (.signature scope recv params2 results2 variadic tps2)⟩
  · intro asgn g ctx t arg st methods embeddeds allMethods variance r st2 hseen htn h
    rw [substituteTypes.eq_def] at h
    dsimp only at h
    rw [hseen] at h
    dsimp only at h
    have htn1 : typeAt (seenSet st t (some t)) t =
      some (.interface_ methods embeddeds allMethods variance) := htn
    rw [htn1] at h
    dsimp only at h
    split at h
    · exact Except.noConfusion h
    · rename_i ms2 st' hms
      split at h
      · exact Except.noConfusion h
      · rename_i es2 st'' hes
        split at h
        · exact Except.noConfusion h
        · rename_i ams2 st3 hams
          injection h with h
          injection h with h1 h2
          subst h1
          subst h2
          exact ⟨_, ms2, es2, ams2, rfl,
            typeAt_alloc_self st3 (.interface_ ms2 es2 ams2 variance)⟩
  · intro asgn g ctx t arg st dir elem r st2 hseen htn h
    rw [substituteTypes.eq_def] at h
    dsimp only at h
    rw [hseen] at h
    dsimp only at h
    have htn1 : typeAt (seenSet st t (some t)) t = some (.chan_ dir elem) := htn
    rw [htn1] at h
    dsimp only at h
    split at h
    · exact Except.noConfusion h
    · rename_i elem2 st' hs
      injection h with h
      injection h with h1 h2
      subst h1
      subst h2
      exact ⟨_, elem2, rfl, typeAt_alloc_self st' (.chan_ dir elem2)⟩

/-- C8 witness: the Array conjunct applied to the concrete Array(5, T)
template store. -/
theorem claim_C8_witness :
    ∃ rr elem2, (some 5 : Option TypeRef) = some rr ∧
      typeAt ⟨[.array 5 (some 1), .named (some 0) none (some 4), .slice (some 3),
        .basic 1, .basic 0, .array 5 (some 1)], some [],
        [(0, some 5), (1, some 1), (1, some 1), (0, some 0)]⟩ rr =
        some (.array 5 elem2) := by
  apply claim_C8_metadata_preserved.2.1 asgnEx 11 (some 4) 0 (some 2) stC3 5 (some 1)
  · rfl
  · rfl
  · simp [substituteTypes, substituteTypesNamed, seenRead, seenSet, aliasRead, aliasSet,
      mapRead, typeAt, argNode, alloc, stC3, asgnEx, List.find?]

theorem rgOr_eq_true (a b : Option Bool) :
    rgOr a b = some true ↔ a = some true ∨ (a = some false ∧ b = some true) := by
  cases a with
  | none => simp [rgOr]
  | some x => cases x <;> simp [rgOr]

theorem rgOr_ne_false_left (a b : Option Bool) (ha : a ≠ some false) :
    rgOr a b ≠ some false := by
  cases a with
  | none => simp [rgOr]
  | some x =>
    cases x with
    | true => simp [rgOr]
    | false => exact absurd rfl ha

theorem rgOr_ne_false_right (a b : Option Bool) (hb : b ≠ some false) :
    rgOr a b ≠ some false := by
  cases a with
  | none => simp [rgOr]
  | some x =>
    cases x with
    | true => simp [rgOr]
    | false => simpa [rgOr] using hb

/-- Forward direction: a true answer of the fueled RuntimeGeneric always
exhibits generic-reachability. -/
theorem genReach_of_rg_true :
    ∀ (f : Nat) (st : State) (typ : Option TypeRef),
      RuntimeGeneric f st typ = some true → ∃ r, typ = some r ∧ GenReach st r := by
  intro f
  induction f with
  | zero =>
    intro st typ h
    rw [RuntimeGeneric.eq_def] at h
    exact Option.noConfusion h
  | succ g ih =>
    have ihVars : ∀ (st : State) (l : List (Option VarV)),
        runtimeGenericVars g st l = some true →
        ∃ vv e, some vv ∈ l ∧ vv.obj.typ = some e ∧ GenReach st e := by
      intro st l
      induction l with
      | nil =>
        intro h
        rw [runtimeGenericVars.eq_def] at h
        simp at h
      | cons v rest ihl =>
        intro h
        rw [runtimeGenericVars.eq_def] at h
        dsimp only at h
        cases v with
        | none =>
          obtain ⟨vv, e, hm, he, hr⟩ := ihl h
          exact ⟨vv, e, List.mem_cons_of_mem _ hm, he, hr⟩
        | some vv =>
          rw [rgOr_eq_true] at h
          cases h with
          | inl h =>
            obtain ⟨e, he, hr⟩ := ih st vv.obj.typ h
            exact ⟨vv, e, List.mem_cons_self _ _, he, hr⟩
          | inr h =>
            obtain ⟨vv2, e, hm, he, hr⟩ := ihl h.2
            exact ⟨vv2, e, List.mem_cons_of_mem _ hm, he, hr⟩
    have ihTNs : ∀ (st : State) (l : List (Option TypeNameV)),
        runtimeGenericTypeNames g st l = some true →
        ∃ tt e, some tt ∈ l ∧ tt.obj.typ = some e ∧ GenReach st e := by
      intro st l
      induction l with
      | nil =>
        intro h
        rw [runtimeGenericTypeNames.eq_def] at h
        simp at h
      | cons v rest ihl =>
        intro h
        rw [runtimeGenericTypeNames.eq_def] at h
        dsimp only at h
        cases v with
        | none =>
          obtain ⟨vv, e, hm, he, hr⟩ := ihl h
          exact ⟨vv, e, List.mem_cons_of_mem _ hm, he, hr⟩
        | some vv =>
          rw [rgOr_eq_true] at h
          cases h with
          | inl h =>
            obtain ⟨e, he, hr⟩ := ih st vv.obj.typ h
            exact ⟨vv, e, List.mem_cons_self _ _, he, hr⟩
          | inr h =>
            obtain ⟨vv2, e, hm, he, hr⟩ := ihl h.2
            exact ⟨vv2, e, List.mem_cons_of_mem _ hm, he, hr⟩
    have ihFuncs : ∀ (st : State) (l : List (Option FuncV)),
        runtimeGenericFuncs g st l = some true →
        ∃ ff e, some ff ∈ l ∧ ff.obj.typ = some e ∧ GenReach st e := by
      intro st l
      induction l with
      | nil =>
        intro h
        rw [runtimeGenericFuncs.eq_def] at h
        simp at h
      | cons v rest ihl =>
        intro h
        rw [runtimeGenericFuncs.eq_def] at h
        dsimp only at h
        cases v with
        | none =>
          obtain ⟨vv, e, hm, he, hr⟩ := ihl h
          exact ⟨vv, e, List.mem_cons_of_mem _ hm, he, hr⟩
        | some vv =>
          rw [rgOr_eq_true] at h
          cases h with
          | inl h =>
            obtain ⟨e, he, hr⟩ := ih st vv.obj.typ h
            exact ⟨vv, e, List.mem_cons_self _ _, he, hr⟩
          | inr h =>
            obtain ⟨vv2, e, hm, he, hr⟩ := ihl h.2
            exact ⟨vv2, e, List.mem_cons_of_mem _ hm, he, hr⟩
    have ihEmbeds : ∀ (st : State) (l : List (Option TypeRef)),
        runtimeGenericEmbeds g st l = some true →
        ∃ e o u c, some e ∈ l ∧ typeAt st e = some (.named o (some u) c) ∧ GenReach st u := by
      intro st l
      induction l with
      | nil =>
        intro h
        rw [runtimeGenericEmbeds.eq_def] at h
        simp at h
      | cons v rest ihl =>
        intro h
        rw [runtimeGenericEmbeds.eq_def] at h
        dsimp only at h
        cases v with
        | none =>
          obtain ⟨e, o, u, c, hm, he, hr⟩ := ihl h
          exact ⟨e, o, u, c, List.mem_cons_of_mem _ hm, he, hr⟩
        | some er =>
          dsimp only at h
          cases htn : typeAt st er with
          | none =>
            rw [htn] at h
            obtain ⟨e, o, u, c, hm, he, hr⟩ := ihl h
            exact ⟨e, o, u, c, List.mem_cons_of_mem _ hm, he, hr⟩
          | some tn =>
            rw [htn] at h
            cases tn with
            | named o u c =>
              cases u with
              | none =>
                dsimp only at h
                rw [rgOr_eq_true] at h
                cases h with
                | inl h =>
                  rw [RuntimeGeneric.eq_def] at h
                  cases g <;> simp at h
                | inr h =>
                  obtain ⟨e, o2, u2, c2, hm, he, hr⟩ := ihl h.2
                  exact ⟨e, o2, u2, c2, List.mem_cons_of_mem _ hm, he, hr⟩
              | some ur =>
                dsimp only at h
                rw [rgOr_eq_true] at h
                cases h with
                | inl h =>
                  obtain ⟨r2, hr2, hr⟩ := ih st (some ur) h
                  injection hr2 with hr2
                  subst hr2
                  exact ⟨er, o, ur, c, List.mem_cons_self _ _, htn, hr⟩
                | inr h =>
                  obtain ⟨e, o2, u2, c2, hm, he, hr⟩ := ihl h.2
                  exact ⟨e, o2, u2, c2, List.mem_cons_of_mem _ hm, he, hr⟩
            | array a b =>
              obtain ⟨e, o, u, c, hm, he, hr⟩ := ihl h
              exact ⟨e, o, u, c, List.mem_cons_of_mem _ hm, he, hr⟩
            | slice a =>
              obtain ⟨e, o, u, c, hm, he, hr⟩ := ihl h
              exact ⟨e, o, u, c, List.mem_cons_of_mem _ hm, he, hr⟩
            | struct_ a b c d =>
              obtain ⟨e, o, u, c, hm, he, hr⟩ := ihl h
              exact ⟨e, o, u, c, List.mem_cons_of_mem _ hm, he, hr⟩
            | pointer a =>
              obtain ⟨e, o, u, c, hm, he, hr⟩ := ihl h
              exact ⟨e, o, u, c, List.mem_cons_of_mem _ hm, he, hr⟩
            | tuple a =>
              obtain ⟨e, o, u, c, hm, he, hr⟩ := ihl h
              exact ⟨e, o, u, c, List.mem_cons_of_mem _ hm, he, hr⟩
            | signature a b c d e2 f2 =>
              obtain ⟨e, o, u, c, hm, he, hr⟩ := ihl h
              exact ⟨e, o, u, c, List.mem_cons_of_mem _ hm, he, hr⟩
            | interface_ a b c d =>
              obtain ⟨e, o, u, c, hm, he, hr⟩ := ihl h
              exact ⟨e, o, u, c, List.mem_cons_of_mem _ hm, he, hr⟩
            | map_ a b =>
              obtain ⟨e, o, u, c, hm, he, hr⟩ := ihl h
              exact ⟨e, o, u, c, List.mem_cons_of_mem _ hm, he, hr⟩
            | chan_ a b =>
              obtain ⟨e, o, u, c, hm, he, hr⟩ := ihl h
              exact ⟨e, o, u, c, List.mem_cons_of_mem _ hm, he, hr⟩
            | basic a =>
              obtain ⟨e, o, u, c, hm, he, hr⟩ := ihl h
              exact ⟨e, o, u, c, List.mem_cons_of_mem _ hm, he, hr⟩
    intro st typ h
    rw [RuntimeGeneric.eq_def] at h
    dsimp only at h
    cases typ with
    | none => simp at h
    | some t =>
      refine ⟨t, rfl, ?_⟩
      dsimp only at h
      cases htn : typeAt st t with
      | none => rw [htn] at h; simp at h
      | some tn =>
        rw [htn] at h
        cases tn with
        | array len elem =>
          obtain ⟨e, he, hr⟩ := ih st elem h
          subst he
          exact GenReach.arrayElem htn hr
        | slice elem =>
          obtain ⟨e, he, hr⟩ := ih st elem h
          subst he
          exact GenReach.sliceElem htn hr
        | pointer base =>
          obtain ⟨e, he, hr⟩ := ih st base h
          subst he
          exact GenReach.pointerBase htn hr
        | map_ key elem =>
          rw [rgOr_eq_true] at h
          cases h with
          | inl h =>
            obtain ⟨e, he, hr⟩ := ih st key h
            subst he
            exact GenReach.mapKey htn hr
          | inr h =>
            obtain ⟨e, he, hr⟩ := ih st elem h.2
            subst he
            exact GenReach.mapElem htn hr
        | chan_ dir elem =>
          obtain ⟨e, he, hr⟩ := ih st elem h
          subst he
          exact GenReach.chanElem htn hr
        | named obj underlying octx =>
          dsimp only at h
          injection h with h
          cases hoc : octx with
          | none => rw [hoc] at h; simp at h
          | some c => exact GenReach.namedHere (by rw [htn, hoc])
        | tuple vars =>
          obtain ⟨vv, e, hm, he, hr⟩ := ihVars st vars h
          exact GenReach.tupleVar htn hm he hr
        | signature scope recv params results variadic typeParams =>
          rw [rgOr_eq_true] at h
          cases h with
          | inl h =>
            rw [rgOr_eq_true] at h
            cases h with
            | inl h =>
              obtain ⟨e, he, hr⟩ := ih st params h
              subst he
              exact GenReach.sigParams htn hr
            | inr h =>
              obtain ⟨e, he, hr⟩ := ih st results h.2
              subst he
              exact GenReach.sigResults htn hr
          | inr h =>
            obtain ⟨tt, e, hm, he, hr⟩ := ihTNs st typeParams h.2
            exact GenReach.sigTypeParam htn hm he hr
        | struct_ fields tags offsets typeParams =>
          rw [rgOr_eq_true] at h
          cases h with
          | inl h =>
            obtain ⟨vv, e, hm, he, hr⟩ := ihVars st fields h
            exact GenReach.structField htn hm he hr
          | inr h =>
            obtain ⟨tt, e, hm, he, hr⟩ := ihTNs st typeParams h.2
            exact GenReach.structTypeParam htn hm he hr
        | interface_ methods embeddeds allMethods variance =>
          rw [rgOr_eq_true] at h
          cases h with
          | inl h =>
            obtain ⟨ff, e, hm, he, hr⟩ := ihFuncs st methods h
            exact GenReach.ifaceMethod htn hm he hr
          | inr h =>
            obtain ⟨e, o, u, c, hm, he, hr⟩ := ihEmbeds st embeddeds h.2
            exact GenReach.ifaceEmbedUnderlying htn hm he hr
        | basic k => simp at h



theorem rgOr_eq_false (a b : Option Bool) :
    rgOr a b = some false ↔ a = some false ∧ b = some false := by
  cases a with
  | none => simp [rgOr]
  | some x => cases x <;> simp [rgOr]

theorem runtimeGenericVars_ne_false (g : Nat) (st : State) (vv : VarV) (e : TypeRef)
    (he : vv.obj.typ = some e) (hne : RuntimeGeneric g st (some e) ≠ some false) :
    ∀ l, some vv ∈ l → runtimeGenericVars g st l ≠ some false := by
  intro l
  induction l with
  | nil => intro hm; exact absurd hm (List.not_mem_nil _)
  | cons v rest ihl =>
    intro hm h
    rw [runtimeGenericVars.eq_def] at h
    dsimp only at h
    cases List.mem_cons.mp hm with
    | inl heq =>
      cases heq
      dsimp only at h
      rw [he, rgOr_eq_false] at h
      exact hne h.1
    | inr hm2 =>
      cases v with
      | none => exact ihl hm2 h
      | some vv2 =>
        dsimp only at h
        rw [rgOr_eq_false] at h
        exact ihl hm2 h.2

theorem runtimeGenericTypeNames_ne_false (g : Nat) (st : State) (tt : TypeNameV) (e : TypeRef)
    (he : tt.obj.typ = some e) (hne : RuntimeGeneric g st (some e) ≠ some false) :
    ∀ l, some tt ∈ l → runtimeGenericTypeNames g st l ≠ some false := by
  intro l
  induction l with
  | nil => intro hm; exact absurd hm (List.not_mem_nil _)
  | cons v rest ihl =>
    intro hm h
    rw [runtimeGenericTypeNames.eq_def] at h
    dsimp only at h
    cases List.mem_cons.mp hm with
    | inl heq =>
      cases heq
      dsimp only at h
      rw [he, rgOr_eq_false] at h
      exact hne h.1
    | inr hm2 =>
      cases v with
      | none => exact ihl hm2 h
      | some vv2 =>
        dsimp only at h
        rw [rgOr_eq_false] at h
        exact ihl hm2 h.2

theorem runtimeGenericFuncs_ne_false (g : Nat) (st : State) (ff : FuncV) (e : TypeRef)
    (he : ff.obj.typ = some e) (hne : RuntimeGeneric g st (some e) ≠ some false) :
    ∀ l, some ff ∈ l → runtimeGenericFuncs g st l ≠ some false := by
  intro l
  induction l with
  | nil => intro hm; exact absurd hm (List.not_mem_nil _)
  | cons v rest ihl =>
    intro hm h
    rw [runtimeGenericFuncs.eq_def] at h
    dsimp only at h
    cases List.mem_cons.mp hm with
    | inl heq =>
      cases heq
      dsimp only at h
      rw [he, rgOr_eq_false] at h
      exact hne h.1
    | inr hm2 =>
      cases v with
      | none => exact ihl hm2 h
      | some vv2 =>
        dsimp only at h
        rw [rgOr_eq_false] at h
        exact ihl hm2 h.2

theorem runtimeGenericEmbeds_ne_false (g : Nat) (st : State) (e : TypeRef)
    (o : Option SymId) (u : TypeRef) (c : Option TypeRef)
    (he : typeAt st e = some (.named o (some u) c))
    (hne : RuntimeGeneric g st (some u) ≠ some false) :
    ∀ l, some e ∈ l → runtimeGenericEmbeds g st l ≠ some false := by
  intro l
  induction l with
  | nil => intro hm; exact absurd hm (List.not_mem_nil _)
  | cons v rest ihl =>
    intro hm h
    rw [runtimeGenericEmbeds.eq_def] at h
    dsimp only at h
    cases List.mem_cons.mp hm with
    | inl heq =>
      cases heq
      dsimp only at h
      rw [he] at h
      dsimp only at h
      rw [rgOr_eq_false] at h
      exact hne h.1
    | inr hm2 =>
      cases v with
      | none => exact ihl hm2 h
      | some er =>
        dsimp only at h
        cases htn : typeAt st er with
        | none => rw [htn] at h; exact ihl hm2 h
        | some tn =>
          rw [htn] at h
          cases tn with
          | named o2 u2 c2 =>
            dsimp only at h
            rw [rgOr_eq_false] at h
            exact ihl hm2 h.2
          | array a b => exact ihl hm2 h
          | slice a => exact ihl hm2 h
          | struct_ a b c2 d => exact ihl hm2 h
          | pointer a => exact ihl hm2 h
          | tuple a => exact ihl hm2 h
          | signature a b c2 d e2 f2 => exact ihl hm2 h
          | interface_ a b c2 d => exact ihl hm2 h
          | map_ a b => exact ihl hm2 h
          | chan_ a b => exact ihl hm2 h
          | basic a => exact ihl hm2 h

/-- Backward direction: a generically-reachable root can never make
RuntimeGeneric answer false, at any fuel. -/
theorem rg_ne_false_of_genReach (st : State) (r : TypeRef) (h : GenReach st r) :
    ∀ f, RuntimeGeneric f st (some r) ≠ some false := by
  induction h with
  | namedHere htn =>
    intro f
    cases f with
    | zero => rw [RuntimeGeneric.eq_def]; simp
    | succ g =>
      rw [RuntimeGeneric.eq_def]
      dsimp only
      rw [htn]
      simp
  | arrayElem htn hreach ih =>
    intro f
    cases f with
    | zero => rw [RuntimeGeneric.eq_def]; simp
    | succ g =>
      rw [RuntimeGeneric.eq_def]
      dsimp only
      rw [htn]
      exact ih g
  | sliceElem htn hreach ih =>
    intro f
    cases f with
    | zero => rw [RuntimeGeneric.eq_def]; simp
    | succ g =>
      rw [RuntimeGeneric.eq_def]
      dsimp only
      rw [htn]
      exact ih g
  | pointerBase htn hreach ih =>
    intro f
    cases f with
    | zero => rw [RuntimeGeneric.eq_def]; simp
    | succ g =>
      rw [RuntimeGeneric.eq_def]
      dsimp only
      rw [htn]
      exact ih g
  | mapKey htn hreach ih =>
    intro f
    cases f with
    | zero => rw [RuntimeGeneric.eq_def]; simp
    | succ g =>
      rw [RuntimeGeneric.eq_def]
      dsimp only
      rw [htn]
      exact rgOr_ne_false_left _ _ (ih g)
  | mapElem htn hreach ih =>
    intro f
    cases f with
    | zero => rw [RuntimeGeneric.eq_def]; simp
    | succ g =>
      rw [RuntimeGeneric.eq_def]
      dsimp only
      rw [htn]
      exact rgOr_ne_false_right _ _ (ih g)
  | chanElem htn hreach ih =>
    intro f
    cases f with
    | zero => rw [RuntimeGeneric.eq_def]; simp
    | succ g =>
      rw [RuntimeGeneric.eq_def]
      dsimp only
      rw [htn]
      exact ih g
  | tupleVar htn hm he hreach ih =>
    intro f
    cases f with
    | zero => rw [RuntimeGeneric.eq_def]; simp
    | succ g =>
      rw [RuntimeGeneric.eq_def]
      dsimp only
      rw [htn]
      exact runtimeGenericVars_ne_false g _ _ _ he (ih g) _ hm
  | sigParams htn hreach ih =>
    intro f
    cases f with
    | zero => rw [RuntimeGeneric.eq_def]; simp
    | succ g =>
      rw [RuntimeGeneric.eq_def]
      dsimp only
      rw [htn]
      exact rgOr_ne_false_left _ _ (rgOr_ne_false_left _ _ (ih g))
  | sigResults htn hreach ih =>
    intro f
    cases f with
    | zero => rw [RuntimeGeneric.eq_def]; simp
    | succ g =>
      rw [RuntimeGeneric.eq_def]
      dsimp only
      rw [htn]
      exact rgOr_ne_false_left _ _ (rgOr_ne_false_right _ _ (ih g))
  | sigTypeParam htn hm he hreach ih =>
    intro f
    cases f with
    | zero => rw [RuntimeGeneric.eq_def]; simp
    | succ g =>
      rw [RuntimeGeneric.eq_def]
      dsimp only
      rw [htn]
      exact rgOr_ne_false_right _ _ (runtimeGenericTypeNames_ne_false g _ _ _ he (ih g) _ hm)
  | structField htn hm he hreach ih =>
    intro f
    cases f with
    | zero => rw [RuntimeGeneric.eq_def]; simp
    | succ g =>
      rw [RuntimeGeneric.eq_def]
      dsimp only
      rw [htn]
      exact rgOr_ne_false_left _ _ (runtimeGenericVars_ne_false g _ _ _ he (ih g) _ hm)
  | structTypeParam htn hm he hreach ih =>
    intro f
    cases f with
    | zero => rw [RuntimeGeneric.eq_def]; simp
    | succ g =>
      rw [RuntimeGeneric.eq_def]
      dsimp only
      rw [htn]
      exact rgOr_ne_false_right _ _ (runtimeGenericTypeNames_ne_false g _ _ _ he (ih g) _ hm)
  | ifaceMethod htn hm he hreach ih =>
    intro f
    cases f with
    | zero => rw [RuntimeGeneric.eq_def]; simp
    | succ g =>
      rw [RuntimeGeneric.eq_def]
      dsimp only
      rw [htn]
      exact rgOr_ne_false_left _ _ (runtimeGenericFuncs_ne_false g _ _ _ he (ih g) _ hm)
  | ifaceEmbedUnderlying htn hm he hreach ih =>
    intro f
    cases f with
    | zero => rw [RuntimeGeneric.eq_def]; simp
    | succ g =>
      rw [RuntimeGeneric.eq_def]
      dsimp only
      rw [htn]
      exact rgOr_ne_false_right _ _ (runtimeGenericEmbeds_ne_false g _ _ _ _ _ he (ih g) _ hm)

/-- C7 (corrected): whenever the fueled RuntimeGeneric returns a definite
answer on a non-nil type, that answer is true exactly when the type, or a
type reachable through the children the code actually traverses — array,
slice and channel elements, pointer base, map key and value, tuple
members, signature parameter, result and type-parameter lists, struct
field and type-parameter lists, interface explicit methods and the
underlying types of interface embeds, but not the allMethods list and
not an embed directly — is a Named type with a non-nil instantiation
context. -/
theorem claim_C7_reachability (fuel : Nat) (st : State) (r : TypeRef) (b : Bool)
    (h : RuntimeGeneric fuel st (some r) = some b) :
    b = true ↔ GenReach st r := by
  constructor
  · intro hb
    subst hb
    obtain ⟨r2, hr2, hreach⟩ := genReach_of_rg_true fuel st (some r) h
    injection hr2 with hr2
    subst hr2
    exact hreach
  · intro hreach
    cases b with
    | true => rfl
    | false => exact absurd h (rg_ne_false_of_genReach st r hreach fuel)

/-- C7 witness: on the store stC7 the fueled RuntimeGeneric decides handle
1 (a Named type with instantiation context) true, and the claim theorem
turns that into generic-reachability. -/
theorem claim_C7_witness :
    RuntimeGeneric 10 stC7 (some 1) = some true ∧ (true = true ↔ GenReach stC7 1) := by
  have he : RuntimeGeneric 10 stC7 (some 1) = some true := by
    simp [RuntimeGeneric, rgOr, typeAt, stC7]
  exact ⟨he, claim_C7_reachability 10 stC7 1 true he⟩

/-- C7 counterexample to the literal claim: in stC7 the only generic
reference sits in the interface's allMethods list; the claim's
reachability (SpecReachGeneric, which includes allMethods edges) holds
at the interface handle 0, yet RuntimeGeneric answers false because the
code never traverses allMethods. -/
theorem claim_C7_counterexample :
    RuntimeGeneric 10 stC7 (some 0) = some false ∧ SpecReachGeneric stC7 0 := by
  constructor
  · simp [RuntimeGeneric, runtimeGenericFuncs, runtimeGenericEmbeds, rgOr, typeAt, stC7]
  · refine ⟨1, some 0, none, 2, ?_, rfl⟩
    refine Relation.ReflTransGen.single
      (SpecStep.ifaceAllMethod (show typeAt stC7 0 =
        some (.interface_ [] [] [some ⟨⟨none, 0, none, "m", some 1, 0⟩⟩] 0) from rfl)
        (List.Mem.head _) rfl)

end GoTypes

namespace GoAst

/-- The init-splitting performed inline by the statement cases equals
walkTransformInitStmt's result, for any rewrite outcome of the init. -/
theorem walkTransformInitStmt_split (v : Transformer) (init : Option AStmt)
    (L : List AStmt) (h : WalkTransformStmt v init = some L) :
    walkTransformInitStmt v init =
      some (if L.length > 1 then L.take (L.length - 1) else [],
        if L.length = 1 then L[0]? else if L.length > 1 then L.getLast? else none) := by
  unfold walkTransformInitStmt
  rw [h]
  dsimp only
  by_cases h1 : L.length = 1
  · simp [h1]
  · by_cases h2 : L.length > 1
    · simp [h1, h2]
    · simp [h1, h2]

/-- C4: when the init rewrite of an init-bearing statement (for, if,
switch, type switch) expands to more than one statement, all but the
last are hoisted in front of the rebuilt construct inside the enclosing
statement list and the last becomes the new init clause; the same split
is what walkTransformInitStmt returns. -/
theorem claim_C4_init_hoisting (v : Transformer) (init : Option AStmt) (L : List AStmt)
    (hinit : WalkTransformStmt v init = some L) (hlen : L.length > 1) :
    walkTransformInitStmt v init = some (L.take (L.length - 1), L.getLast?) ∧
    (∀ forPos cond post body out,
      WalkTransformStmt v (some (.forS forPos init cond post body)) = some out →
      ∃ newCond newPost newBody,
        out = L.take (L.length - 1) ++
          v.transformStmt (some (.forS forPos init cond post body))
            (some (.forS forPos L.getLast? newCond newPost newBody))) ∧
    (∀ ifPos cond body els out,
      WalkTransformStmt v (some (.ifS ifPos init cond body els)) = some out →
      ∃ cond2 body2 els2,
        out = L.take (L.length - 1) ++
          v.transformStmt (some (.ifS ifPos init cond body els))
            (some (.ifS ifPos L.getLast? cond2 body2 els2))) ∧
    (∀ switchPos tag body out,
      WalkTransformStmt v (some (.switchS switchPos init tag body)) = some out →
      ∃ body2,
        out = L.take (L.length - 1) ++
          v.transformStmt (some (.switchS switchPos init tag body))
            (some (.switchS switchPos L.getLast? tag body2))) ∧
    (∀ switchPos assign body out,
      WalkTransformStmt v (some (.typeSwitchS switchPos init assign body)) = some out →
      ∃ assign2 body2,
        out = L.take (L.length - 1) ++
          v.transformStmt (some (.typeSwitchS switchPos init assign body))
            (some (.typeSwitchS switchPos L.getLast? assign2 body2))) := by
  have h1 : ¬ (L.length = 1) := by omega
  refine ⟨?_, ?_, ?_, ?_, ?_⟩
  · rw [walkTransformInitStmt_split v init L hinit, if_pos hlen, if_neg h1, if_pos hlen]
  · intro forPos cond post body out hout
    cases cond with
    | none =>
      rw [WalkTransformStmt.eq_19] at hout
      rw [hinit] at hout
      dsimp only at hout
      rw [if_neg h1] at hout
      rw [if_pos hlen] at hout
      rw [if_pos hlen] at hout
      split at hout
      · exact Option.noConfusion hout
      · split at hout
        · exact Option.noConfusion hout
        · split at hout
          · exact Option.noConfusion hout
          · split at hout
            · injection hout with hout
              exact ⟨_, _, _, hout.symm⟩
            · exact Option.noConfusion hout
    | some c =>
      rw [WalkTransformStmt.eq_18] at hout
      rw [hinit] at hout
      dsimp only at hout
      rw [if_neg h1] at hout
      rw [if_pos hlen] at hout
      rw [if_pos hlen] at hout
      split at hout
      · exact Option.noConfusion hout
      · split at hout
        · exact Option.noConfusion hout
        · split at hout
          · exact Option.noConfusion hout
          · split at hout
            · exact Option.noConfusion hout
            · split at hout
              · injection hout with hout
                exact ⟨_, _, _, hout.symm⟩
              · exact Option.noConfusion hout
  · intro ifPos cond body els out hout
    rw [WalkTransformStmt.eq_11] at hout
    rw [hinit] at hout
    dsimp only at hout
    rw [if_neg h1] at hout
    rw [if_pos hlen] at hout
    rw [if_pos hlen] at hout
    split at hout
    · exact Option.noConfusion hout
    · split at hout
      · exact Option.noConfusion hout
      · split at hout
        · exact Option.noConfusion hout
        · split at hout
          · exact Option.noConfusion hout
          · injection hout with hout
            exact ⟨_, _, _, hout.symm⟩
  · intro switchPos tag body out hout
    rw [WalkTransformStmt.eq_13] at hout
    rw [hinit] at hout
    dsimp only at hout
    rw [if_neg h1] at hout
    rw [if_pos hlen] at hout
    rw [if_pos hlen] at hout
    split at hout
    · exact Option.noConfusion hout
    · split at hout
      · exact Option.noConfusion hout
      · injection hout with hout
        exact ⟨_, hout.symm⟩
  · intro switchPos assign body out hout
    rw [WalkTransformStmt.eq_14] at hout
    rw [hinit] at hout
    dsimp only at hout
    rw [if_neg h1] at hout
    rw [if_pos hlen] at hout
    rw [if_pos hlen] at hout
    split at hout
    · exact Option.noConfusion hout
    · split at hout
      · exact Option.noConfusion hout
      · split at hout
        · exact Option.noConfusion hout
        · split at hout
          · exact Option.noConfusion hout
          · injection hout with hout
            exact ⟨_, _, hout.symm⟩

/-- C4 witness: the rewriter vC4 expands the marker init into three
statements; transforming the for loop hoists the first two and installs
the third as the new init. -/
theorem claim_C4_witness :
    ∃ newCond newPost newBody,
      [AStmt.emptyS 1, .emptyS 2, .forS 10 (some (.emptyS 3)) none none (.blockS 11 [] 12)] =
        [AStmt.emptyS 1, .emptyS 2, .emptyS 3].take
            ([AStmt.emptyS 1, .emptyS 2, .emptyS 3].length - 1) ++
          vC4.transformStmt (some (.forS 10 (some (.emptyS 99)) none none (.blockS 11 [] 12)))
            (some (.forS 10 [AStmt.emptyS 1, .emptyS 2, .emptyS 3].getLast? newCond newPost
              newBody)) := by
  apply (claim_C4_init_hoisting vC4 (some (.emptyS 99)) [.emptyS 1, .emptyS 2, .emptyS 3]
    (by simp [WalkTransformStmt, vC4]) (by decide)).2.1 10 none none (.blockS 11 [] 12)
  simp [WalkTransformStmt, walkTransformStmtList, headBlock, castBlock, vC4]



/-- C5: when the post-clause rewrite of a for statement expands to more
than one statement, all but the last are appended at the end of the
transformed loop body's statement list and the last becomes the new post
clause. -/
theorem claim_C5_post_hoisting (v : Transformer) (post : Option AStmt) (P : List AStmt)
    (hpost : WalkTransformStmt v post = some P) (hlen : P.length > 1)
    (forPos : Nat) (init : Option AStmt) (cond : Option AExpr) (body : AStmt)
    (out : List AStmt)
    (hout : WalkTransformStmt v (some (.forS forPos init cond post body)) = some out) :
    ∃ hoist newInit newCond lb bl rb bodyOut,
      walkTransformInitStmt v init = some (hoist, newInit) ∧
      WalkTransformStmt v (some body) = some bodyOut ∧
      headBlock bodyOut = some (.blockS lb bl rb) ∧
      out = hoist ++ v.transformStmt (some (.forS forPos init cond post body))
        (some (.forS forPos newInit newCond P.getLast?
          (.blockS lb (bl ++ P.take (P.length - 1)) rb))) := by
  have hp1 : ¬ (P.length = 1) := by omega
  cases cond with
  | none =>
    rw [WalkTransformStmt.eq_19] at hout
    split at hout
    · exact Option.noConfusion hout
    · rename_i newInitList hinitEq
      dsimp only at hout
      split at hout
      · exact Option.noConfusion hout
      · rename_i bodyOut hbody
        split at hout
        · exact Option.noConfusion hout
        · rename_i newBody hhead
          rw [hpost] at hout
          dsimp only at hout
          split at hout
          · rename_i lb bl rb
            rw [if_neg hp1] at hout
            rw [if_pos hlen] at hout
            rw [if_pos hlen] at hout
            injection hout with hout
            exact ⟨_, _, none, lb, bl, rb, bodyOut,
              walkTransformInitStmt_split v init newInitList hinitEq, hbody, hhead, hout.symm⟩
          · exact Option.noConfusion hout
  | some c =>
    rw [WalkTransformStmt.eq_18] at hout
    split at hout
    · exact Option.noConfusion hout
    · rename_i newInitList hinitEq
      dsimp only at hout
      split at hout
      · exact Option.noConfusion hout
      · rename_i newCond hcond
        split at hout
        · exact Option.noConfusion hout
        · rename_i bodyOut hbody
          split at hout
          · exact Option.noConfusion hout
          · rename_i newBody hhead
            rw [hpost] at hout
            dsimp only at hout
            split at hout
            · rename_i lb bl rb
              rw [if_neg hp1] at hout
              rw [if_pos hlen] at hout
              rw [if_pos hlen] at hout
              injection hout with hout
              exact ⟨_, _, newCond, lb, bl, rb, bodyOut,
                walkTransformInitStmt_split v init newInitList hinitEq, hbody, hhead, hout.symm⟩
            · exact Option.noConfusion hout

/-- C5 witness: the rewriter vC5 expands the marker post into two
statements; transforming the for loop appends the first at the end of
the body and installs the second as the new post clause. -/
theorem claim_C5_witness :
    ∃ hoist newInit newCond lb bl rb bodyOut,
      walkTransformInitStmt vC5 none = some (hoist, newInit) ∧
      WalkTransformStmt vC5 (some (.blockS 11 [] 12)) = some bodyOut ∧
      headBlock bodyOut = some (.blockS lb bl rb) ∧
      [AStmt.forS 10 none none (some (.emptyS 2)) (.blockS 11 [.emptyS 1] 12)] =
        hoist ++ vC5.transformStmt
          (some (.forS 10 none none (some (.emptyS 99)) (.blockS 11 [] 12)))
          (some (.forS 10 newInit newCond [AStmt.emptyS 1, .emptyS 2].getLast?
            (.blockS lb (bl ++ [AStmt.emptyS 1, .emptyS 2].take
              ([AStmt.emptyS 1, .emptyS 2].length - 1)) rb))) := by
  apply claim_C5_post_hoisting vC5 (some (.emptyS 99)) [.emptyS 1, .emptyS 2]
    (by simp [WalkTransformStmt, vC5]) (by decide) 10 none none (.blockS 11 [] 12)
  simp [WalkTransformStmt, walkTransformStmtList, headBlock, castBlock, vC5]

/-- C6 (corrected): when a rewrite for an arity-one slot yields zero
statements the code leaves the slot absent (the Go zero value nil): a
zero-output init split returns an empty hoist list and nil init, a
zero-output labeled-statement target is rebuilt with a nil statement,
and a zero-output for post clause is rebuilt nil with the transformed
body unchanged; no empty statement is synthesized. -/
theorem claim_C6_zero_output (v : Transformer) :
    (∀ init, WalkTransformStmt v init = some [] →
      walkTransformInitStmt v init = some ([], none)) ∧
    (∀ label colon stmt out, WalkTransformStmt v stmt = some [] →
      WalkTransformStmt v (some (.labeledS label colon stmt)) = some out →
      ∃ label3, out = v.transformStmt (some (.labeledS label colon stmt))
        (some (.labeledS label3 colon none))) ∧
    (∀ forPos init cond post body out, WalkTransformStmt v post = some [] →
      WalkTransformStmt v (some (.forS forPos init cond post body)) = some out →
      ∃ hoist newInit newCond lb bl rb bodyOut,
        walkTransformInitStmt v init = some (hoist, newInit) ∧
        WalkTransformStmt v (some body) = some bodyOut ∧
        headBlock bodyOut = some (.blockS lb bl rb) ∧
        out = hoist ++ v.transformStmt (some (.forS forPos init cond post body))
          (some (.forS forPos newInit newCond none (.blockS lb bl rb)))) := by
  refine ⟨?_, ?_, ?_⟩
  · intro init h
    rw [walkTransformInitStmt_split v init [] h]
    simp
  · intro label colon stmt out hstmt hout
    rw [WalkTransformStmt.eq_2] at hout
    split at hout
    · exact Option.noConfusion hout
    · split at hout
      · exact Option.noConfusion hout
      · rename_i label3 hcast
        rw [hstmt] at hout
        simp only [List.length_nil] at hout
        rw [if_neg (by decide : ¬ ((0 : Nat) = 1))] at hout
        rw [if_neg (by decide : ¬ ((0 : Nat) > 1))] at hout
        rw [if_neg (by decide : ¬ ((0 : Nat) > 1))] at hout
        rw [List.nil_append] at hout
        injection hout with hout
        exact ⟨label3, hout.symm⟩
  · intro forPos init cond post body out hpost hout
    cases cond with
    | none =>
      rw [WalkTransformStmt.eq_19] at hout
      split at hout
      · exact Option.noConfusion hout
      · rename_i newInitList hinitEq
        dsimp only at hout
        split at hout
        · exact Option.noConfusion hout
        · rename_i bodyOut hbody
          split at hout
          · exact Option.noConfusion hout
          · rename_i newBody hhead
            rw [hpost] at hout
            dsimp only at hout
            split at hout
            · rename_i lb bl rb
              simp only [List.length_nil] at hout
              rw [if_neg (by decide : ¬ ((0 : Nat) = 1))] at hout
              rw [if_neg (by decide : ¬ ((0 : Nat) > 1))] at hout
              rw [if_neg (by decide : ¬ ((0 : Nat) > 1))] at hout
              injection hout with hout
              exact ⟨_, _, none, lb, bl, rb, bodyOut,
                walkTransformInitStmt_split v init newInitList hinitEq, hbody, hhead, hout.symm⟩
            · exact Option.noConfusion hout
    | some c =>
      rw [WalkTransformStmt.eq_18] at hout
      split at hout
      · exact Option.noConfusion hout
      · rename_i newInitList hinitEq
        dsimp only at hout
        split at hout
        · exact Option.noConfusion hout
        · rename_i newCond hcond
          split at hout
          · exact Option.noConfusion hout
          · rename_i bodyOut hbody
            split at hout
            · exact Option.noConfusion hout
            · rename_i newBody hhead
              rw [hpost] at hout
              dsimp only at hout
              split at hout
              · rename_i lb bl rb
                simp only [List.length_nil] at hout
                rw [if_neg (by decide : ¬ ((0 : Nat) = 1))] at hout
                rw [if_neg (by decide : ¬ ((0 : Nat) > 1))] at hout
                rw [if_neg (by decide : ¬ ((0 : Nat) > 1))] at hout
                injection hout with hout
                exact ⟨_, _, newCond, lb, bl, rb, bodyOut,
                  walkTransformInitStmt_split v init newInitList hinitEq, hbody, hhead,
                  hout.symm⟩
              · exact Option.noConfusion hout

/-- C6 witness: with the deleting rewriter vC6, a for statement whose
post clause is the marker is rebuilt with a nil post and an unchanged
body. -/
theorem claim_C6_witness :
    ∃ hoist newInit newCond lb bl rb bodyOut,
      walkTransformInitStmt vC6 none = some (hoist, newInit) ∧
      WalkTransformStmt vC6 (some (.blockS 21 [] 22)) = some bodyOut ∧
      headBlock bodyOut = some (.blockS lb bl rb) ∧
      [AStmt.forS 20 none none none (.blockS 21 [] 22)] =
        hoist ++ vC6.transformStmt
          (some (.forS 20 none none (some (.emptyS 99)) (.blockS 21 [] 22)))
          (some (.forS 20 newInit newCond none (.blockS lb bl rb))) := by
  apply (claim_C6_zero_output vC6).2.2 20 none none (some (.emptyS 99)) (.blockS 21 [] 22)
  · simp [WalkTransformStmt, vC6]
  · simp [WalkTransformStmt, walkTransformStmtList, headBlock, castBlock, vC6]

/-- C6 counterexample to the literal claim: the deleting rewriter vC6
removes the marker init of an if statement; the rebuilt if statement
carries an absent (nil) init clause, not a synthesized empty
statement. -/
theorem claim_C6_counterexample :
    WalkTransformStmt vC6
        (some (.ifS 1 (some (.emptyS 99)) (.ident 2 "c") (.blockS 3 [] 4) none)) =
      some [.ifS 1 none (.ident 2 "c") (.blockS 3 [] 4) none] := by
  simp [WalkTransformStmt, WalkTransformExpr, walkTransformStmtList, headBlock, castBlock,
    castIdent, vC6]

/-- C10: a nil statement handed to WalkTransformStmt goes through the
default dispatch and calls the rewriter's TransformStmt with nil for
both arguments; the returned list then feeds the normal init splitting
rules, both in walkTransformInitStmt and in a for statement whose init
clause is absent. -/
theorem claim_C10_nil_dispatch (v : Transformer) :
    WalkTransformStmt v none = some (v.transformStmt none none) ∧
    walkTransformInitStmt v none =
      some (if (v.transformStmt none none).length > 1 then
          (v.transformStmt none none).take ((v.transformStmt none none).length - 1) else [],
        if (v.transformStmt none none).length = 1 then (v.transformStmt none none)[0]?
        else if (v.transformStmt none none).length > 1 then
          (v.transformStmt none none).getLast?
        else none) ∧
    (∀ forPos cond post body out,
      WalkTransformStmt v (some (.forS forPos none cond post body)) = some out →
      ∃ newCond newPost newBody,
        out = (if (v.transformStmt none none).length > 1 then
            (v.transformStmt none none).take ((v.transformStmt none none).length - 1)
          else []) ++
          v.transformStmt (some (.forS forPos none cond post body))
            (some (.forS forPos
              (if (v.transformStmt none none).length = 1 then (v.transformStmt none none)[0]?
               else if (v.transformStmt none none).length > 1 then
                 (v.transformStmt none none).getLast? else none)
              newCond newPost newBody))) := by
  refine ⟨WalkTransformStmt.eq_24 v, ?_, ?_⟩
  · exact walkTransformInitStmt_split v none (v.transformStmt none none)
      (WalkTransformStmt.eq_24 v)
  · intro forPos cond post body out hout
    cases cond with
    | none =>
      rw [WalkTransformStmt.eq_19] at hout
      rw [WalkTransformStmt.eq_24] at hout
      dsimp only at hout
      split at hout
      · exact Option.noConfusion hout
      · split at hout
        · exact Option.noConfusion hout
        · split at hout
          · exact Option.noConfusion hout
          · split at hout
            · injection hout with hout
              exact ⟨_, _, _, hout.symm⟩
            · exact Option.noConfusion hout
    | some c =>
      rw [WalkTransformStmt.eq_18] at hout
      rw [WalkTransformStmt.eq_24] at hout
      dsimp only at hout
      split at hout
      · exact Option.noConfusion hout
      · split at hout
        · exact Option.noConfusion hout
        · split at hout
          · exact Option.noConfusion hout
          · split at hout
            · exact Option.noConfusion hout
            · split at hout
              · injection hout with hout
                exact ⟨_, _, _, hout.symm⟩
              · exact Option.noConfusion hout

/-- C10 witness: the rewriter vC10 answers one statement for a nil
input; a for statement with absent init and post gets that statement as
both its new init and new post clause. -/
theorem claim_C10_witness :
    ∃ newCond newPost newBody,
      [AStmt.forS 30 (some (.emptyS 7)) none (some (.emptyS 7)) (.blockS 31 [] 32)] =
        (if (vC10.transformStmt none none).length > 1 then
            (vC10.transformStmt none none).take ((vC10.transformStmt none none).length - 1)
          else []) ++
          vC10.transformStmt (some (.forS 30 none none none (.blockS 31 [] 32)))
            (some (.forS 30
              (if (vC10.transformStmt none none).length = 1 then
                  (vC10.transformStmt none none)[0]?
                else if (vC10.transformStmt none none).length > 1 then
                  (vC10.transformStmt none none).getLast? else none)
              newCond newPost newBody)) := by
  apply (claim_C10_nil_dispatch vC10).2.2 30 none none (.blockS 31 [] 32)
  simp [WalkTransformStmt, walkTransformStmtList, headBlock, castBlock, vC10]

end GoAst

namespace GoTypes

theorem typeAt_arena_eq (st st2 : State) (h : st2.arena = st.arena) (r : TypeRef) :
    typeAt st2 r = typeAt st r := by
  simp [typeAt, h]

theorem arenaLe_refl (st : State) : ArenaLe st st := ⟨[], by simp⟩

theorem arenaLe_trans {st1 st2 st3 : State} (h1 : ArenaLe st1 st2) (h2 : ArenaLe st2 st3) :
    ArenaLe st1 st3 := by
  obtain ⟨e1, he1⟩ := h1
  obtain ⟨e2, he2⟩ := h2
  exact ⟨e1 ++ e2, by rw [he2, he1, List.append_assoc]⟩

theorem arenaLe_of_eq {st st2 : State} (h : st2.arena = st.arena) : ArenaLe st st2 :=
  ⟨[], by simp [h]⟩

theorem arenaLe_seenSet (st : State) (t : TypeRef) (v : Option TypeRef) :
    ArenaLe st (seenSet st t v) := arenaLe_of_eq rfl

theorem arenaLe_alloc (st : State) (n : TypeNode) : ArenaLe st (alloc st n).2 :=
  ⟨[n], rfl⟩

theorem arenaLe_of_evol {st st2 : State} (h : StEvol st st2) : ArenaLe st st2 := h.1

theorem typeAt_arenaLe {st st2 : State} {r : TypeRef} {tn : TypeNode}
    (hle : ArenaLe st st2) (h : typeAt st r = some tn) : typeAt st2 r = some tn := by
  obtain ⟨ext, hext⟩ := hle
  simp only [typeAt] at h ⊢
  rw [hext, List.getElem?_append, if_pos (List.getElem?_eq_some.mp h).1]
  exact h

theorem typeAt_arenaLe_lt {st st2 : State} {r : TypeRef} (hle : ArenaLe st st2)
    (hr : r < st.arena.length) : typeAt st2 r = typeAt st r := by
  obtain ⟨ext, hext⟩ := hle
  simp only [typeAt]
  rw [hext, List.getElem?_append, if_pos hr]

theorem structEqN_zero (st : State) (a b : Option TypeRef) : StructEqN 0 st a b := by
  simp [StructEqN]

theorem structEqN_succ_some (n : Nat) (st : State) (x y : TypeRef) :
    StructEqN (n + 1) st (some x) (some y) ↔
      (x = y ∨ NodeEqN n st (typeAt st x) (typeAt st y)) := by
  simp [StructEqN]

theorem structEqN_succ_none (n : Nat) (st : State) : StructEqN (n + 1) st none none := by
  simp [StructEqN]

theorem structEqN_refl (n : Nat) (st : State) (a : Option TypeRef) : StructEqN n st a a := by
  cases n with
  | zero => exact structEqN_zero st a a
  | succ m =>
    cases a with
    | none => exact structEqN_succ_none m st
    | some x => exact (structEqN_succ_some m st x x).mpr (Or.inl rfl)

theorem eqFor_refl (st : State) (a : Option TypeRef) : EqFor st a a :=
  fun st2 _ n => structEqN_refl n st2 a

theorem eqFor_arenaLe {st st2 : State} {a b : Option TypeRef} (hle : ArenaLe st st2)
    (h : EqFor st a b) : EqFor st2 a b :=
  fun st3 hle2 => h st3 (arenaLe_trans hle hle2)

theorem objEqFor_arenaLe {st st2 : State} {o1 o2 : ObjectV} (hle : ArenaLe st st2)
    (h : ObjEqFor st o1 o2) : ObjEqFor st2 o1 o2 :=
  fun st3 hle2 => h st3 (arenaLe_trans hle hle2)

theorem varsEqFor_arenaLe {st st2 : State} {l1 l2 : List (Option VarV)} (hle : ArenaLe st st2)
    (h : VarsEqFor st l1 l2) : VarsEqFor st2 l1 l2 :=
  fun st3 hle2 => h st3 (arenaLe_trans hle hle2)

theorem funcsEqFor_arenaLe {st st2 : State} {l1 l2 : List (Option FuncV)} (hle : ArenaLe st st2)
    (h : FuncsEqFor st l1 l2) : FuncsEqFor st2 l1 l2 :=
  fun st3 hle2 => h st3 (arenaLe_trans hle hle2)

theorem typeNamesEqFor_arenaLe {st st2 : State} {l1 l2 : List (Option TypeNameV)}
    (hle : ArenaLe st st2) (h : TypeNamesEqFor st l1 l2) : TypeNamesEqFor st2 l1 l2 :=
  fun st3 hle2 => h st3 (arenaLe_trans hle hle2)

theorem refsEqN_refl (l : List (Option TypeRef)) : ∀ (n : Nat) (st : State),
    RefsEqN n st l l := by
  induction l with
  | nil => intro n st; simp [RefsEqN]
  | cons e rest ih =>
    intro n st
    simp only [RefsEqN]
    exact ⟨structEqN_refl n st e, ih n st⟩



theorem subStep_arenaLe {st st2 : State} {t e : TypeRef} (hle : ArenaLe st st2)
    (h : SubStep st t e) : SubStep st2 t e := by
  cases h with
  | arrayElem htn => exact .arrayElem (typeAt_arenaLe hle htn)
  | sliceElem htn => exact .sliceElem (typeAt_arenaLe hle htn)
  | pointerBase htn => exact .pointerBase (typeAt_arenaLe hle htn)
  | mapKey htn => exact .mapKey (typeAt_arenaLe hle htn)
  | mapElem htn => exact .mapElem (typeAt_arenaLe hle htn)
  | chanElem htn => exact .chanElem (typeAt_arenaLe hle htn)
  | tupleVar htn hm he => exact .tupleVar (typeAt_arenaLe hle htn) hm he
  | structField htn hm he => exact .structField (typeAt_arenaLe hle htn) hm he
  | structTypeParam htn hm he => exact .structTypeParam (typeAt_arenaLe hle htn) hm he
  | sigParams htn => exact .sigParams (typeAt_arenaLe hle htn)
  | sigResults htn => exact .sigResults (typeAt_arenaLe hle htn)
  | sigTypeParam htn hm he => exact .sigTypeParam (typeAt_arenaLe hle htn) hm he
  | ifaceMethod htn hm he => exact .ifaceMethod (typeAt_arenaLe hle htn) hm he
  | ifaceEmbed htn hm => exact .ifaceEmbed (typeAt_arenaLe hle htn) hm
  | ifaceAllMethod htn hm he => exact .ifaceAllMethod (typeAt_arenaLe hle htn) hm he

theorem isPlaceholderAt_arenaLe {st st2 : State} {ctx : Option TypeRef} {r : TypeRef}
    (hle : ArenaLe st st2) (h : IsPlaceholderAt st ctx r) : IsPlaceholderAt st2 ctx r := by
  obtain ⟨sym, u, octx, htn, hc⟩ := h
  exact ⟨sym, u, octx, typeAt_arenaLe hle htn, hc⟩

theorem reach_arenaLe {st st2 : State} {t r' : TypeRef} (hle : ArenaLe st st2)
    (h : Relation.ReflTransGen (SubStep st) t r') :
    Relation.ReflTransGen (SubStep st2) t r' := by
  induction h with
  | refl => exact .refl
  | tail hstep hlast ih => exact .tail ih (subStep_arenaLe hle hlast)

/-- NoPH transfers backwards along arena extension (reach and
placeholders only grow). -/
theorem noPH_rev {st st2 : State} {ctx : Option TypeRef} {t : TypeRef}
    (hle : ArenaLe st st2) (h : NoPH st2 ctx t) : NoPH st ctx t := by
  intro r' hr hph
  exact h r' (reach_arenaLe hle hr) (isPlaceholderAt_arenaLe hle hph)

theorem noPH_step {st : State} {ctx : Option TypeRef} {t e : TypeRef}
    (hs : SubStep st t e) (h : NoPH st ctx t) : NoPH st ctx e :=
  fun r' hr hph => h r' (Relation.ReflTransGen.head hs hr) hph

theorem noPH_self {st : State} {ctx : Option TypeRef} {t : TypeRef} (h : NoPH st ctx t) :
    ¬ IsPlaceholderAt st ctx t := h t .refl

theorem varsBelow_mem {N : Nat} {l : List (Option VarV)} {vv : VarV}
    (hb : VarsBelow N l = true) (hm : some vv ∈ l) : refBelow N vv.obj.typ = true := by
  have := (List.all_eq_true.mp hb) (some vv) hm
  simpa using this

theorem funcsBelow_mem {N : Nat} {l : List (Option FuncV)} {ff : FuncV}
    (hb : FuncsBelow N l = true) (hm : some ff ∈ l) : refBelow N ff.obj.typ = true := by
  have := (List.all_eq_true.mp hb) (some ff) hm
  simpa using this

theorem typeNamesBelow_mem {N : Nat} {l : List (Option TypeNameV)} {tt : TypeNameV}
    (hb : TypeNamesBelow N l = true) (hm : some tt ∈ l) : refBelow N tt.obj.typ = true := by
  have := (List.all_eq_true.mp hb) (some tt) hm
  simpa using this

theorem refBelow_some_lt {N : Nat} {e : TypeRef} (h : refBelow N (some e) = true) : e < N := by
  simpa [refBelow] using h

theorem refBelow_opt {N : Nat} {o : Option TypeRef} {e : TypeRef} (h : refBelow N o = true)
    (ho : o = some e) : e < N := refBelow_some_lt (ho ▸ h)

/-- One substitution step out of a below-N handle stays below N on a
closed arena with bounded embeds. -/
theorem subStep_below {N : Nat} {st : State} {t e : TypeRef} (hcl : ClosedN N st)
    (hemb : EmbedsBelow N st) (ht : t < N) (h : SubStep st t e) : e < N := by
  cases h with
  | arrayElem htn =>
    have hb := hcl.2 t ht _ htn
    simp only [nodeClosedB] at hb
    exact refBelow_some_lt hb
  | sliceElem htn =>
    have hb := hcl.2 t ht _ htn
    simp only [nodeClosedB] at hb
    exact refBelow_some_lt hb
  | pointerBase htn =>
    have hb := hcl.2 t ht _ htn
    simp only [nodeClosedB] at hb
    exact refBelow_some_lt hb
  | mapKey htn =>
    have hb := hcl.2 t ht _ htn
    simp only [nodeClosedB, Bool.and_eq_true] at hb
    exact refBelow_some_lt hb.1
  | mapElem htn =>
    have hb := hcl.2 t ht _ htn
    simp only [nodeClosedB, Bool.and_eq_true] at hb
    exact refBelow_some_lt hb.2
  | chanElem htn =>
    have hb := hcl.2 t ht _ htn
    simp only [nodeClosedB] at hb
    exact refBelow_some_lt hb
  | tupleVar htn hm he =>
    have hb := hcl.2 t ht _ htn
    simp only [nodeClosedB] at hb
    exact refBelow_opt (varsBelow_mem hb hm) he
  | structField htn hm he =>
    have hb := hcl.2 t ht _ htn
    simp only [nodeClosedB, Bool.and_eq_true] at hb
    exact refBelow_opt (varsBelow_mem hb.1 hm) he
  | structTypeParam htn hm he =>
    have hb := hcl.2 t ht _ htn
    simp only [nodeClosedB, Bool.and_eq_true] at hb
    exact refBelow_opt (typeNamesBelow_mem hb.2 hm) he
  | sigParams htn =>
    have hb := hcl.2 t ht _ htn
    simp only [nodeClosedB, Bool.and_eq_true] at hb
    exact refBelow_some_lt hb.1.1
  | sigResults htn =>
    have hb := hcl.2 t ht _ htn
    simp only [nodeClosedB, Bool.and_eq_true] at hb
    exact refBelow_some_lt hb.1.2
  | sigTypeParam htn hm he =>
    have hb := hcl.2 t ht _ htn
    simp only [nodeClosedB, Bool.and_eq_true] at hb
    exact refBelow_opt (typeNamesBelow_mem hb.2 hm) he
  | ifaceMethod htn hm he =>
    have hb := hcl.2 t ht _ htn
    simp only [nodeClosedB, Bool.and_eq_true] at hb
    exact refBelow_opt (funcsBelow_mem hb.1 hm) he
  | ifaceEmbed htn hm => exact hemb t ht _ _ _ _ htn _ hm
  | ifaceAllMethod htn hm he =>
    have hb := hcl.2 t ht _ htn
    simp only [nodeClosedB, Bool.and_eq_true] at hb
    exact refBelow_opt (funcsBelow_mem hb.2 hm) he

theorem subStep_back {N : Nat} {st st2 : State} {t e : TypeRef} (hcl : ClosedN N st)
    (hle : ArenaLe st st2) (ht : t < N) (h : SubStep st2 t e) : SubStep st t e := by
  have ht' : t < st.arena.length := lt_of_lt_of_le ht hcl.1
  have heq : typeAt st2 t = typeAt st t := typeAt_arenaLe_lt hle ht'
  cases h with
  | arrayElem htn => exact .arrayElem (heq ▸ htn)
  | sliceElem htn => exact .sliceElem (heq ▸ htn)
  | pointerBase htn => exact .pointerBase (heq ▸ htn)
  | mapKey htn => exact .mapKey (heq ▸ htn)
  | mapElem htn => exact .mapElem (heq ▸ htn)
  | chanElem htn => exact .chanElem (heq ▸ htn)
  | tupleVar htn hm he => exact .tupleVar (heq ▸ htn) hm he
  | structField htn hm he => exact .structField (heq ▸ htn) hm he
  | structTypeParam htn hm he => exact .structTypeParam (heq ▸ htn) hm he
  | sigParams htn => exact .sigParams (heq ▸ htn)
  | sigResults htn => exact .sigResults (heq ▸ htn)
  | sigTypeParam htn hm he => exact .sigTypeParam (heq ▸ htn) hm he
  | ifaceMethod htn hm he => exact .ifaceMethod (heq ▸ htn) hm he
  | ifaceEmbed htn hm => exact .ifaceEmbed (heq ▸ htn) hm
  | ifaceAllMethod htn hm he => exact .ifaceAllMethod (heq ▸ htn) hm he

theorem reach_back {N : Nat} {st st2 : State} {t r' : TypeRef} (hcl : ClosedN N st)
    (hemb : EmbedsBelow N st) (hle : ArenaLe st st2) (ht : t < N)
    (h : Relation.ReflTransGen (SubStep st2) t r') :
    Relation.ReflTransGen (SubStep st) t r' ∧ r' < N := by
  induction h using Relation.ReflTransGen.head_induction_on with
  | refl => exact ⟨.refl, ht⟩
  | head hstep hrest ih =>
    rename_i a b
    have hstep' : SubStep st a b := subStep_back hcl hle ht hstep
    have hb : b < N := subStep_below hcl hemb ht hstep'
    obtain ⟨hr, hrN⟩ := ih hb
    exact ⟨.head hstep' hr, hrN⟩

/-- NoPH transfers forward along arena extension for a below-N root on a
closed arena. -/
theorem noPH_arenaLe {N : Nat} {st st2 : State} {ctx : Option TypeRef} {t : TypeRef}
    (hcl : ClosedN N st) (hemb : EmbedsBelow N st) (ht : t < N) (hle : ArenaLe st st2)
    (h : NoPH st ctx t) : NoPH st2 ctx t := by
  intro r' hr hph
  obtain ⟨hr', hrN⟩ := reach_back hcl hemb hle ht hr
  refine h r' hr' ?_
  obtain ⟨sym, u, octx, htn, hc⟩ := hph
  have hr2 : r' < st.arena.length := lt_of_lt_of_le hrN hcl.1
  exact ⟨sym, u, octx, by rw [← typeAt_arenaLe_lt hle hr2]; exact htn, hc⟩



theorem noPH_arena_eq {st st2 : State} {ctx : Option TypeRef} {t : TypeRef}
    (h : st2.arena = st.arena) (hnp : NoPH st ctx t) : NoPH st2 ctx t :=
  noPH_rev (arenaLe_of_eq (by rw [h])) hnp

theorem closedN_arenaLe {N : Nat} {st st2 : State} (hcl : ClosedN N st)
    (hle : ArenaLe st st2) : ClosedN N st2 := by
  obtain ⟨ext, hext⟩ := hle
  constructor
  · rw [hext, List.length_append]
    have := hcl.1
    omega
  · intro i hi tn htn2
    rw [typeAt_arenaLe_lt ⟨ext, hext⟩ (lt_of_lt_of_le hi hcl.1)] at htn2
    exact hcl.2 i hi tn htn2

theorem tupleWF_arenaLe {N : Nat} {st st2 : State} (htw : TupleWF N st) (hcl : ClosedN N st)
    (hle : ArenaLe st st2) : TupleWF N st2 := by
  intro i hi sc rc p q vd tp htn2
  rw [typeAt_arenaLe_lt hle (lt_of_lt_of_le hi hcl.1)] at htn2
  obtain ⟨hp, hq⟩ := htw i hi sc rc p q vd tp htn2
  constructor
  · intro pp hpp
    obtain ⟨vs, hvs⟩ := hp pp hpp
    exact ⟨vs, typeAt_arenaLe hle hvs⟩
  · intro qq hqq
    obtain ⟨vs, hvs⟩ := hq qq hqq
    exact ⟨vs, typeAt_arenaLe hle hvs⟩

theorem embedsBelow_arenaLe {N : Nat} {st st2 : State} (hemb : EmbedsBelow N st)
    (hcl : ClosedN N st) (hle : ArenaLe st st2) : EmbedsBelow N st2 := by
  intro i hi ms es ams vr htn2
  rw [typeAt_arenaLe_lt hle (lt_of_lt_of_le hi hcl.1)] at htn2
  exact hemb i hi ms es ams vr htn2

theorem seenInvP_empty {N : Nat} {ctx : Option TypeRef} {st : State} (h : st.seen = []) :
    SeenInvP N ctx st := by
  intro t r hr
  simp [seenRead, mapRead, h] at hr

theorem seenInvP_seenSet_some {N : Nat} {ctx : Option TypeRef} {st : State} {t : TypeRef}
    {rr : TypeRef} (hinv : SeenInvP N ctx st)
    (hnew : t < N → NoPH st ctx t → EqFor st (some rr) (some t)) :
    SeenInvP N ctx (seenSet st t (some rr)) := by
  intro k r hk hkN hknoph
  have hknoph' : NoPH st ctx k := noPH_rev (arenaLe_seenSet st t (some rr)) hknoph
  rw [seenRead_seenSet] at hk
  by_cases hkt : t = k
  · subst hkt
    rw [if_pos rfl] at hk
    injection hk with hk
    subst hk
    exact eqFor_arenaLe (arenaLe_seenSet st t _) (hnew hkN hknoph')
  · rw [if_neg hkt] at hk
    exact eqFor_arenaLe (arenaLe_seenSet st t (some rr)) (hinv k r hk hkN hknoph')

theorem seenInvP_arenaLe {N : Nat} {ctx : Option TypeRef} {st st2 : State}
    (hseen : st2.seen = st.seen) (hle : ArenaLe st st2) (hinv : SeenInvP N ctx st) :
    SeenInvP N ctx st2 := by
  intro k r hk hkN hknoph
  rw [seenRead] at hk
  rw [hseen] at hk
  exact eqFor_arenaLe hle (hinv k r hk hkN (noPH_rev hle hknoph))

theorem substituteTypesNamed_id (asgn : AssignPred) (ctx : Option TypeRef) {st : State}
    {o : TypeRef} (argTyp : Option TypeRef) (hnp : ¬ IsPlaceholderAt st ctx o) :
    substituteTypesNamed asgn ctx (some o) argTyp st = (some o, st) := by
  cases htn : typeAt st o with
  | none => simp [substituteTypesNamed, htn]
  | some tn =>
    cases tn with
    | named obj u octx =>
      cases hal : st.aliases with
      | none => simp [substituteTypesNamed, htn, hal]
      | some amap =>
        cases obj with
        | none => simp [substituteTypesNamed, htn, hal]
        | some sym =>
          have hne : ¬ octx = ctx := fun hc => hnp ⟨sym, u, octx, htn, hc⟩
          simp [substituteTypesNamed, htn, hal, hne]
    | array a b => simp [substituteTypesNamed, htn]
    | slice a => simp [substituteTypesNamed, htn]
    | struct_ a b c d => simp [substituteTypesNamed, htn]
    | pointer a => simp [substituteTypesNamed, htn]
    | tuple a => simp [substituteTypesNamed, htn]
    | signature a b c d e f => simp [substituteTypesNamed, htn]
    | interface_ a b c d => simp [substituteTypesNamed, htn]
    | map_ a b => simp [substituteTypesNamed, htn]
    | chan_ a b => simp [substituteTypesNamed, htn]
    | basic a => simp [substituteTypesNamed, htn]

theorem substituteTypesNameds_id (asgn : AssignPred) (ctx : Option TypeRef) :
    ∀ (old args : List (Option TypeRef)) (st : State) (es2 : List (Option TypeRef))
      (st2 : State),
    (∀ e, some e ∈ old → ¬ IsPlaceholderAt st ctx e) →
    substituteTypesNameds asgn ctx old args st = .ok (es2, st2) → es2 = old ∧ st2 = st := by
  intro old
  induction old with
  | nil =>
    intro args st es2 st2 hnp h
    unfold substituteTypesNameds at h
    injection h with h
    exact ⟨congrArg Prod.fst h.symm, congrArg Prod.snd h.symm⟩
  | cons v rest ih =>
    intro args st es2 st2 hnp h
    unfold substituteTypesNameds at h
    dsimp only at h
    cases v with
    | none =>
      rw [show substituteTypesNamed asgn ctx none ((args[0]?).bind id) st = (none, st)
        from rfl] at h
      exact Except.noConfusion h
    | some o =>
      have hnpo : ¬ IsPlaceholderAt st ctx o := hnp o (List.mem_cons_self _ _)
      rw [substituteTypesNamed_id asgn ctx _ hnpo] at h
      dsimp only at h
      cases htn : typeAt st o with
      | none =>
        rw [htn] at h
        exact Except.noConfusion h
      | some tn =>
        cases tn with
        | named o2 u2 c2 =>
          rw [htn] at h
          dsimp only at h
          cases hrec : substituteTypesNameds asgn ctx rest (args.drop 1) st with
          | error e =>
            rw [hrec] at h
            exact Except.noConfusion h
          | ok p =>
            obtain ⟨rs, st3⟩ := p
            rw [hrec] at h
            dsimp only at h
            injection h with h
            obtain ⟨h1, h2⟩ := ih (args.drop 1) st rs st3
              (fun e hm => hnp e (List.mem_cons_of_mem _ hm)) hrec
            subst h1
            subst h2
            exact ⟨congrArg Prod.fst h.symm, congrArg Prod.snd h.symm⟩
        | array a b =>
          rw [htn] at h
          exact Except.noConfusion h
        | slice a =>
          rw [htn] at h
          exact Except.noConfusion h
        | struct_ a b c d =>
          rw [htn] at h
          exact Except.noConfusion h
        | pointer a =>
          rw [htn] at h
          exact Except.noConfusion h
        | tuple a =>
          rw [htn] at h
          exact Except.noConfusion h
        | signature a b c d e f =>
          rw [htn] at h
          exact Except.noConfusion h
        | interface_ a b c d =>
          rw [htn] at h
          exact Except.noConfusion h
        | map_ a b =>
          rw [htn] at h
          exact Except.noConfusion h
        | chan_ a b =>
          rw [htn] at h
          exact Except.noConfusion h
        | basic a =>
          rw [htn] at h
          exact Except.noConfusion h



theorem objectId_of {f : Nat} (hT : TypesId f) : ObjectId f := by
  intro asgn ctx old argO st N o2 st2 hcl hemb htw hinv hbel hnp h
  unfold substituteTypesObject at h
  split at h
  · exact Except.noConfusion h
  · rename_i typ2 st' hs
    injection h with h
    obtain ⟨heq, hinv2⟩ :=
      hT asgn ctx old.typ argO.typ st N typ2 st' hcl hemb htw hinv hbel hnp hs
    have h1 : (⟨old.parent, old.pos, old.pkg, old.name, typ2, old.order⟩ : ObjectV) = o2 :=
      congrArg Prod.fst h
    have h2 : st' = st2 := congrArg Prod.snd h
    subst h1
    subst h2
    refine ⟨?_, hinv2⟩
    intro st3 hle n
    simp only [ObjEqN]
    exact ⟨trivial, trivial, trivial, trivial, trivial, heq st3 hle n⟩

theorem varId_of {f : Nat} (hO : ObjectId f) : VarId f := by
  intro asgn ctx old argV st N v2 st2 hcl hemb htw hinv hbel hnp h
  unfold substituteTypesVar at h
  cases old with
  | none =>
    injection h with h
    have h1 : (none : Option VarV) = v2 := congrArg Prod.fst h
    have h2 : st = st2 := congrArg Prod.snd h
    subst h1
    subst h2
    exact ⟨Or.inl ⟨rfl, rfl⟩, hinv⟩
  | some ov =>
    dsimp only at h
    split at h
    · exact Except.noConfusion h
    · rename_i obj2 st' hs
      injection h with h
      have h1 : (some ⟨obj2, ov.anonymous, ov.visited, ov.isField, ov.used⟩ : Option VarV)
          = v2 := congrArg Prod.fst h
      have h2 : st' = st2 := congrArg Prod.snd h
      subst h1
      subst h2
      obtain ⟨hobj, hinv2⟩ := hO asgn ctx ov.obj _ st N obj2 st' hcl hemb htw hinv
        (hbel ov rfl) (hnp ov rfl) hs
      exact ⟨Or.inr ⟨ov, obj2, rfl, rfl, hobj⟩, hinv2⟩

theorem funcId_of {f : Nat} (hO : ObjectId f) : FuncId f := by
  intro asgn ctx old argF st N f2 st2 hcl hemb htw hinv hbel hnp h
  unfold substituteTypesFunc at h
  cases old with
  | none =>
    injection h with h
    have h1 : (none : Option FuncV) = f2 := congrArg Prod.fst h
    have h2 : st = st2 := congrArg Prod.snd h
    subst h1
    subst h2
    exact ⟨Or.inl ⟨rfl, rfl⟩, hinv⟩
  | some ov =>
    dsimp only at h
    split at h
    · exact Except.noConfusion h
    · rename_i obj2 st' hs
      injection h with h
      have h1 : (some ⟨obj2⟩ : Option FuncV) = f2 := congrArg Prod.fst h
      have h2 : st' = st2 := congrArg Prod.snd h
      subst h1
      subst h2
      obtain ⟨hobj, hinv2⟩ := hO asgn ctx ov.obj _ st N obj2 st' hcl hemb htw hinv
        (hbel ov rfl) (hnp ov rfl) hs
      exact ⟨Or.inr ⟨ov, obj2, rfl, rfl, hobj⟩, hinv2⟩

theorem typeNameId_of {f : Nat} (hO : ObjectId f) : TypeNameId f := by
  intro asgn ctx old argT st N t2 st2 hcl hemb htw hinv hbel hnp h
  unfold substituteTypesTypeName at h
  cases old with
  | none =>
    injection h with h
    have h1 : (none : Option TypeNameV) = t2 := congrArg Prod.fst h
    have h2 : st = st2 := congrArg Prod.snd h
    subst h1
    subst h2
    exact ⟨Or.inl ⟨rfl, rfl⟩, hinv⟩
  | some ov =>
    dsimp only at h
    split at h
    · exact Except.noConfusion h
    · rename_i obj2 st' hs
      injection h with h
      have h1 : (some ⟨obj2⟩ : Option TypeNameV) = t2 := congrArg Prod.fst h
      have h2 : st' = st2 := congrArg Prod.snd h
      subst h1
      subst h2
      obtain ⟨hobj, hinv2⟩ := hO asgn ctx ov.obj _ st N obj2 st' hcl hemb htw hinv
        (hbel ov rfl) (hnp ov rfl) hs
      exact ⟨Or.inr ⟨ov, obj2, rfl, rfl, hobj⟩, hinv2⟩



theorem varsId_of {f : Nat} (hV : VarId f) : VarsId f := by
  intro asgn ctx old
  induction old with
  | nil =>
    intro argVs st N vs2 st2 hcl hemb htw hinv hb hnp h
    unfold substituteTypesVars at h
    injection h with h
    have h1 : ([] : List (Option VarV)) = vs2 := congrArg Prod.fst h
    have h2 : st = st2 := congrArg Prod.snd h
    subst h1
    subst h2
    refine ⟨?_, hinv⟩
    intro st3 hle n
    simp [VarsEqN]
  | cons v rest ih =>
    intro argVs st N vs2 st2 hcl hemb htw hinv hb hnp h
    unfold substituteTypesVars at h
    dsimp only at h
    simp only [VarsBelow, List.all_cons, Bool.and_eq_true] at hb
    cases hs : substituteTypesVar asgn f ctx v ((argVs[0]?).bind id) st with
    | error e =>
      rw [hs] at h
      exact Except.noConfusion h
    | ok p =>
      obtain ⟨v2, st'⟩ := p
      rw [hs] at h
      dsimp only at h
      have hle1 : ArenaLe st st' :=
        (varEvol_of (objectEvol_of (typesEvol f)) asgn ctx v _ st v2 st' hs).1
      have hbhd : ∀ ov, v = some ov → refBelow N ov.obj.typ = true := by
        intro ov hov
        subst hov
        simpa using hb.1
      have hnphd : ∀ ov, v = some ov → NoPHopt st ctx ov.obj.typ := by
        intro ov hov t ht
        subst hov
        exact hnp ov t (List.mem_cons_self _ _) ht
      obtain ⟨hd, hinv2⟩ := hV asgn ctx v _ st N v2 st' hcl hemb htw hinv hbhd hnphd hs
      cases hrest : substituteTypesVars asgn f ctx rest (argVs.drop 1) st' with
      | error e =>
        rw [hrest] at h
        exact Except.noConfusion h
      | ok q =>
        obtain ⟨rs, st''⟩ := q
        rw [hrest] at h
        dsimp only at h
        injection h with h
        have h1 : v2 :: rs = vs2 := congrArg Prod.fst h
        have h2 : st'' = st2 := congrArg Prod.snd h
        subst h1
        subst h2
        have hle2 : ArenaLe st' st'' :=
          (varsEvol_of (varEvol_of (objectEvol_of (typesEvol f))) asgn ctx rest _ st' rs
            st'' hrest).1
        have hnptl : NoPHvars st' ctx rest := by
          intro vv e hm he
          exact noPH_arenaLe hcl hemb (refBelow_opt (varsBelow_mem hb.2 hm) he) hle1
            (hnp vv e (List.mem_cons_of_mem _ hm) he)
        obtain ⟨htl, hinv3⟩ := ih (argVs.drop 1) st' N rs st'' (closedN_arenaLe hcl hle1)
          (embedsBelow_arenaLe hemb hcl hle1) (tupleWF_arenaLe htw hcl hle1)
          hinv2 hb.2 hnptl hrest
        refine ⟨?_, hinv3⟩
        intro st3 hle n
        cases hd with
        | inl hnone =>
          obtain ⟨hv, hv2⟩ := hnone
          subst hv
          subst hv2
          simp only [VarsEqN]
          exact htl st3 hle n
        | inr hsome =>
          obtain ⟨ov, obj2, hov, hv2, hobj⟩ := hsome
          subst hov
          subst hv2
          simp only [VarsEqN]
          refine ⟨objEqFor_arenaLe hle2 hobj st3 hle n, ?_, ?_, ?_, ?_, htl st3 hle n⟩
          all_goals trivial

theorem funcsId_of {f : Nat} (hF : FuncId f) : FuncsId f := by
  intro asgn ctx old
  induction old with
  | nil =>
    intro argFs st N fs2 st2 hcl hemb htw hinv hb hnp h
    unfold substituteTypesFuncs at h
    injection h with h
    have h1 : ([] : List (Option FuncV)) = fs2 := congrArg Prod.fst h
    have h2 : st = st2 := congrArg Prod.snd h
    subst h1
    subst h2
    refine ⟨?_, hinv⟩
    intro st3 hle n
    simp [FuncsEqN]
  | cons v rest ih =>
    intro argFs st N fs2 st2 hcl hemb htw hinv hb hnp h
    unfold substituteTypesFuncs at h
    dsimp only at h
    simp only [FuncsBelow, List.all_cons, Bool.and_eq_true] at hb
    cases hs : substituteTypesFunc asgn f ctx v ((argFs[0]?).bind id) st with
    | error e =>
      rw [hs] at h
      exact Except.noConfusion h
    | ok p =>
      obtain ⟨v2, st'⟩ := p
      rw [hs] at h
      dsimp only at h
      have hle1 : ArenaLe st st' :=
        (funcEvol_of (objectEvol_of (typesEvol f)) asgn ctx v _ st v2 st' hs).1
      have hbhd : ∀ ov, v = some ov → refBelow N ov.obj.typ = true := by
        intro ov hov
        subst hov
        simpa using hb.1
      have hnphd : ∀ ov, v = some ov → NoPHopt st ctx ov.obj.typ := by
        intro ov hov t ht
        subst hov
        exact hnp ov t (List.mem_cons_self _ _) ht
      obtain ⟨hd, hinv2⟩ := hF asgn ctx v _ st N v2 st' hcl hemb htw hinv hbhd hnphd hs
      cases hrest : substituteTypesFuncs asgn f ctx rest (argFs.drop 1) st' with
      | error e =>
        rw [hrest] at h
        exact Except.noConfusion h
      | ok q =>
        obtain ⟨rs, st''⟩ := q
        rw [hrest] at h
        dsimp only at h
        injection h with h
        have h1 : v2 :: rs = fs2 := congrArg Prod.fst h
        have h2 : st'' = st2 := congrArg Prod.snd h
        subst h1
        subst h2
        have hle2 : ArenaLe st' st'' :=
          (funcsEvol_of (funcEvol_of (objectEvol_of (typesEvol f))) asgn ctx rest _ st' rs
            st'' hrest).1
        have hnptl : NoPHfuncs st' ctx rest := by
          intro vv e hm he
          exact noPH_arenaLe hcl hemb (refBelow_opt (funcsBelow_mem hb.2 hm) he) hle1
            (hnp vv e (List.mem_cons_of_mem _ hm) he)
        obtain ⟨htl, hinv3⟩ := ih (argFs.drop 1) st' N rs st'' (closedN_arenaLe hcl hle1)
          (embedsBelow_arenaLe hemb hcl hle1) (tupleWF_arenaLe htw hcl hle1)
          hinv2 hb.2 hnptl hrest
        refine ⟨?_, hinv3⟩
        intro st3 hle n
        cases hd with
        | inl hnone =>
          obtain ⟨hv, hv2⟩ := hnone
          subst hv
          subst hv2
          simp only [FuncsEqN]
          exact htl st3 hle n
        | inr hsome =>
          obtain ⟨ov, obj2, hov, hv2, hobj⟩ := hsome
          subst hov
          subst hv2
          simp only [FuncsEqN]
          exact ⟨objEqFor_arenaLe hle2 hobj st3 hle n, htl st3 hle n⟩

theorem typeNamesId_of {f : Nat} (hN : TypeNameId f) : TypeNamesId f := by
  intro asgn ctx old
  induction old with
  | nil =>
    intro argTs st N ts2 st2 hcl hemb htw hinv hb hnp h
    unfold substituteTypesTypeNames at h
    injection h with h
    have h1 : ([] : List (Option TypeNameV)) = ts2 := congrArg Prod.fst h
    have h2 : st = st2 := congrArg Prod.snd h
    subst h1
    subst h2
    refine ⟨?_, hinv⟩
    intro st3 hle n
    simp [TypeNamesEqN]
  | cons v rest ih =>
    intro argTs st N ts2 st2 hcl hemb htw hinv hb hnp h
    unfold substituteTypesTypeNames at h
    dsimp only at h
    simp only [TypeNamesBelow, List.all_cons, Bool.and_eq_true] at hb
    cases hs : substituteTypesTypeName asgn f ctx v ((argTs[0]?).bind id) st with
    | error e =>
      rw [hs] at h
      exact Except.noConfusion h
    | ok p =>
      obtain ⟨v2, st'⟩ := p
      rw [hs] at h
      dsimp only at h
      have hle1 : ArenaLe st st' :=
        (typeNameEvol_of (objectEvol_of (typesEvol f)) asgn ctx v _ st v2 st' hs).1
      have hbhd : ∀ ov, v = some ov → refBelow N ov.obj.typ = true := by
        intro ov hov
        subst hov
        simpa using hb.1
      have hnphd : ∀ ov, v = some ov → NoPHopt st ctx ov.obj.typ := by
        intro ov hov t ht
        subst hov
        exact hnp ov t (List.mem_cons_self _ _) ht
      obtain ⟨hd, hinv2⟩ := hN asgn ctx v _ st N v2 st' hcl hemb htw hinv hbhd hnphd hs
      cases hrest : substituteTypesTypeNames asgn f ctx rest (argTs.drop 1) st' with
      | error e =>
        rw [hrest] at h
        exact Except.noConfusion h
      | ok q =>
        obtain ⟨rs, st''⟩ := q
        rw [hrest] at h
        dsimp only at h
        injection h with h
        have h1 : v2 :: rs = ts2 := congrArg Prod.fst h
        have h2 : st'' = st2 := congrArg Prod.snd h
        subst h1
        subst h2
        have hle2 : ArenaLe st' st'' :=
          (typeNamesEvol_of (typeNameEvol_of (objectEvol_of (typesEvol f))) asgn ctx rest _
            st' rs st'' hrest).1
        have hnptl : NoPHtypeNames st' ctx rest := by
          intro vv e hm he
          exact noPH_arenaLe hcl hemb (refBelow_opt (typeNamesBelow_mem hb.2 hm) he) hle1
            (hnp vv e (List.mem_cons_of_mem _ hm) he)
        obtain ⟨htl, hinv3⟩ := ih (argTs.drop 1) st' N rs st'' (closedN_arenaLe hcl hle1)
          (embedsBelow_arenaLe hemb hcl hle1) (tupleWF_arenaLe htw hcl hle1)
          hinv2 hb.2 hnptl hrest
        refine ⟨?_, hinv3⟩
        intro st3 hle n
        cases hd with
        | inl hnone =>
          obtain ⟨hv, hv2⟩ := hnone
          subst hv
          subst hv2
          simp only [TypeNamesEqN]
          exact htl st3 hle n
        | inr hsome =>
          obtain ⟨ov, obj2, hov, hv2, hobj⟩ := hsome
          subst hov
          subst hv2
          simp only [TypeNamesEqN]
          exact ⟨objEqFor_arenaLe hle2 hobj st3 hle n, htl st3 hle n⟩



theorem tupleId_of {f : Nat} (hAll : ∀ m, m < f → TypesId m) : TupleId f := by
  intro asgn ctx old argT st N r r2 hcl hemb htw hinv hb hshape hnp h
  cases f with
  | zero =>
    rw [substituteTypesTuple.eq_def] at h
    exact Except.noConfusion h
  | succ g =>
    rw [substituteTypesTuple.eq_def] at h
    dsimp only at h
    cases old with
    | none =>
      injection h with h
      have h1 : (none : Option TypeRef) = r := congrArg Prod.fst h
      have h2 : st = r2 := congrArg Prod.snd h
      subst h1
      subst h2
      exact ⟨eqFor_refl st none, hinv⟩
    | some o =>
      obtain ⟨vs, hvs⟩ := hshape o rfl
      dsimp only at h
      rw [hvs] at h
      dsimp only at h
      have hoN : o < N := refBelow_some_lt hb
      have hbvs : VarsBelow N vs = true := hcl.2 o hoN _ hvs
      have hnpo : NoPH st ctx o := hnp o rfl
      have hnpvs : NoPHvars st ctx vs := fun vv e hm he =>
        noPH_step (SubStep.tupleVar hvs hm he) hnpo
      have hVsI : VarsId g := varsId_of (varId_of (objectId_of (hAll g (Nat.lt_succ_self g))))
      split at h
      · exact Except.noConfusion h
      · rename_i vars2 st' hs
        injection h with h
        have h1 : some (alloc st' (.tuple vars2)).1 = r := congrArg Prod.fst h
        have h2 : (alloc st' (.tuple vars2)).2 = r2 := congrArg Prod.snd h
        subst h1
        subst h2
        obtain ⟨hveq, hinv2⟩ := hVsI asgn ctx vs _ st N vars2 st' hcl hemb htw hinv hbvs
          hnpvs hs
        have hle1 : ArenaLe st st' :=
          (varsEvol_of (varEvol_of (objectEvol_of (typesEvol g))) asgn ctx vs _ st vars2
            st' hs).1
        have hle2 : ArenaLe st' (alloc st' (.tuple vars2)).2 := arenaLe_alloc st' _
        refine ⟨?_, seenInvP_arenaLe
          (show ((alloc st' (TypeNode.tuple vars2)).2).seen = st'.seen from rfl) hle2 hinv2⟩
        intro st3 hle n
        cases n with
        | zero => exact structEqN_zero st3 _ _
        | succ m =>
          refine (structEqN_succ_some m st3 _ o).mpr (Or.inr ?_)
          have htr : typeAt st3 (alloc st' (.tuple vars2)).1 = some (.tuple vars2) :=
            typeAt_arenaLe hle (typeAt_alloc_self st' (.tuple vars2))
          have hto : typeAt st3 o = some (.tuple vs) :=
            typeAt_arenaLe (arenaLe_trans hle1 (arenaLe_trans hle2 hle)) hvs
          rw [htr, hto]
          simp only [NodeEqN]
          exact hveq st3 (arenaLe_trans hle2 hle) m



theorem typesId : ∀ f, TypesId f := by
  intro f
  induction f using Nat.strong_induction_on with
  | _ f ih =>
    intro asgn ctx typ arg st N r st2 hcl hemb htw hinv hbel hnp h
    cases f with
    | zero =>
      rw [substituteTypes.eq_def] at h
      exact Except.noConfusion h
    | succ g =>
      have hTg : TypesId g := ih g (Nat.lt_succ_self g)
      have hOI : ObjectId g := objectId_of hTg
      have hVsI : VarsId g := varsId_of (varId_of hOI)
      have hFsI : FuncsId g := funcsId_of (funcId_of hOI)
      have hNsI : TypeNamesId g := typeNamesId_of (typeNameId_of hOI)
      have hTupI : TupleId g := tupleId_of (fun m hm => ih m (Nat.lt_succ_of_lt hm))
      rw [substituteTypes.eq_def] at h
      dsimp only at h
      cases typ with
      | none =>
        injection h with h
        have h1 : (none : Option TypeRef) = r := congrArg Prod.fst h
        have h2 : st = st2 := congrArg Prod.snd h
        subst h1
        subst h2
        exact ⟨eqFor_refl st none, hinv⟩
      | some t =>
        have ht : t < N := by simpa [refBelow] using hbel
        have hnpt : NoPH st ctx t := hnp t rfl
        dsimp only at h
        cases hseen : seenRead st t with
        | some r0 =>
          rw [hseen] at h
          injection h with h
          have h1 : some r0 = r := congrArg Prod.fst h
          have h2 : st = st2 := congrArg Prod.snd h
          subst h1
          subst h2
          exact ⟨hinv t r0 hseen ht hnpt, hinv⟩
        | none =>
          rw [hseen] at h
          dsimp only at h
          have hinv1 : SeenInvP N ctx (seenSet st t (some t)) :=
            seenInvP_seenSet_some hinv (fun _ _ => eqFor_refl st (some t))
          have hle0 : ArenaLe st (seenSet st t (some t)) := arenaLe_seenSet st t (some t)
          cases htn : typeAt (seenSet st t (some t)) t with
          | none =>
            rw [htn] at h
            injection h with h
            have h1 : some t = r := congrArg Prod.fst h
            have h2 : seenSet (seenSet st t (some t)) t (some t) = st2 := congrArg Prod.snd h
            subst h1
            subst h2
            exact ⟨eqFor_refl _ (some t),
              seenInvP_seenSet_some hinv1 (fun _ _ => eqFor_refl _ (some t))⟩
          | some tn =>
            rw [htn] at h
            have htn0 : typeAt st t = some tn := htn
            have hclt := hcl.2 t ht tn htn0
            cases tn with
            | array len elem =>
              dsimp only at h
              split at h
              · exact Except.noConfusion h
              · rename_i elem2 st' hs
                injection h with h
                have h1 : some (alloc st' (.array len elem2)).1 = r := congrArg Prod.fst h
                have h2 : seenSet (alloc st' (.array len elem2)).2 t
                    (some (alloc st' (.array len elem2)).1) = st2 := congrArg Prod.snd h
                subst h1
                subst h2
                have hbelem : refBelow N elem = true := by simpa [nodeClosedB] using hclt
                have hnpe : NoPHopt (seenSet st t (some t)) ctx elem := by
                  intro e he
                  subst he
                  exact noPH_arena_eq (seenSet_arena st t (some t))
                    (noPH_step (SubStep.arrayElem htn0) hnpt)
                obtain ⟨heq, hinv2⟩ := hTg asgn ctx elem _ (seenSet st t (some t)) N elem2 st'
                  hcl hemb htw hinv1 hbelem hnpe hs
                have hle1 : ArenaLe (seenSet st t (some t)) st' :=
                  arenaLe_of_evol (typesEvol g asgn ctx elem _ _ _ _ hs).1
                have hle2 : ArenaLe st' (alloc st' (.array len elem2)).2 := arenaLe_alloc st' _
                have hEqA : EqFor (alloc st' (.array len elem2)).2
                    (some (alloc st' (.array len elem2)).1) (some t) := by
                  intro st3 hle n
                  cases n with
                  | zero => exact structEqN_zero st3 _ _
                  | succ m =>
                    refine (structEqN_succ_some m st3 _ t).mpr (Or.inr ?_)
                    rw [typeAt_arenaLe hle (typeAt_alloc_self st' (.array len elem2)),
                      typeAt_arenaLe
                        (arenaLe_trans hle0 (arenaLe_trans hle1 (arenaLe_trans hle2 hle)))
                        htn0]
                    simp only [NodeEqN]
                    exact ⟨trivial, heq st3 (arenaLe_trans hle2 hle) m⟩
                refine ⟨eqFor_arenaLe (arenaLe_seenSet _ t _) hEqA, ?_⟩
                exact seenInvP_seenSet_some
                  (seenInvP_arenaLe
                    (show ((alloc st' (.array len elem2)).2).seen = st'.seen from rfl)
                    hle2 hinv2)
                  (fun _ _ => hEqA)
            | slice elem =>
              dsimp only at h
              split at h
              · exact Except.noConfusion h
              · rename_i elem2 st' hs
                injection h with h
                have h1 : some (alloc st' (.slice elem2)).1 = r := congrArg Prod.fst h
                have h2 : seenSet (alloc st' (.slice elem2)).2 t
                    (some (alloc st' (.slice elem2)).1) = st2 := congrArg Prod.snd h
                subst h1
                subst h2
                have hbelem : refBelow N elem = true := by simpa [nodeClosedB] using hclt
                have hnpe : NoPHopt (seenSet st t (some t)) ctx elem := by
                  intro e he
                  subst he
                  exact noPH_arena_eq (seenSet_arena st t (some t))
                    (noPH_step (SubStep.sliceElem htn0) hnpt)
                obtain ⟨heq, hinv2⟩ := hTg asgn ctx elem _ (seenSet st t (some t)) N elem2 st'
                  hcl hemb htw hinv1 hbelem hnpe hs
                have hle1 : ArenaLe (seenSet st t (some t)) st' :=
                  arenaLe_of_evol (typesEvol g asgn ctx elem _ _ _ _ hs).1
                have hle2 : ArenaLe st' (alloc st' (.slice elem2)).2 := arenaLe_alloc st' _
                have hEqA : EqFor (alloc st' (.slice elem2)).2
                    (some (alloc st' (.slice elem2)).1) (some t) := by
                  intro st3 hle n
                  cases n with
                  | zero => exact structEqN_zero st3 _ _
                  | succ m =>
                    refine (structEqN_succ_some m st3 _ t).mpr (Or.inr ?_)
                    rw [typeAt_arenaLe hle (typeAt_alloc_self st' (.slice elem2)),
                      typeAt_arenaLe
                        (arenaLe_trans hle0 (arenaLe_trans hle1 (arenaLe_trans hle2 hle)))
                        htn0]
                    simp only [NodeEqN]
                    exact heq st3 (arenaLe_trans hle2 hle) m
                refine ⟨eqFor_arenaLe (arenaLe_seenSet _ t _) hEqA, ?_⟩
                exact seenInvP_seenSet_some
                  (seenInvP_arenaLe
                    (show ((alloc st' (.slice elem2)).2).seen = st'.seen from rfl)
                    hle2 hinv2)
                  (fun _ _ => hEqA)
            | pointer base =>
              dsimp only at h
              split at h
              · exact Except.noConfusion h
              · rename_i base2 st' hs
                injection h with h
                have h1 : some (alloc st' (.pointer base2)).1 = r := congrArg Prod.fst h
                have h2 : seenSet (alloc st' (.pointer base2)).2 t
                    (some (alloc st' (.pointer base2)).1) = st2 := congrArg Prod.snd h
                subst h1
                subst h2
                have hbbase : refBelow N base = true := by simpa [nodeClosedB] using hclt
                have hnpb : NoPHopt (seenSet st t (some t)) ctx base := by
                  intro e he
                  subst he
                  exact noPH_arena_eq (seenSet_arena st t (some t))
                    (noPH_step (SubStep.pointerBase htn0) hnpt)
                obtain ⟨heq, hinv2⟩ := hTg asgn ctx base _ (seenSet st t (some t)) N base2 st'
                  hcl hemb htw hinv1 hbbase hnpb hs
                have hle1 : ArenaLe (seenSet st t (some t)) st' :=
                  arenaLe_of_evol (typesEvol g asgn ctx base _ _ _ _ hs).1
                have hle2 : ArenaLe st' (alloc st' (.pointer base2)).2 := arenaLe_alloc st' _
                have hEqA : EqFor (alloc st' (.pointer base2)).2
                    (some (alloc st' (.pointer base2)).1) (some t) := by
                  intro st3 hle n
                  cases n with
                  | zero => exact structEqN_zero st3 _ _
                  | succ m =>
                    refine (structEqN_succ_some m st3 _ t).mpr (Or.inr ?_)
                    rw [typeAt_arenaLe hle (typeAt_alloc_self st' (.pointer base2)),
                      typeAt_arenaLe
                        (arenaLe_trans hle0 (arenaLe_trans hle1 (arenaLe_trans hle2 hle)))
                        htn0]
                    simp only [NodeEqN]
                    exact heq st3 (arenaLe_trans hle2 hle) m
                refine ⟨eqFor_arenaLe (arenaLe_seenSet _ t _) hEqA, ?_⟩
                exact seenInvP_seenSet_some
                  (seenInvP_arenaLe
                    (show ((alloc st' (.pointer base2)).2).seen = st'.seen from rfl)
                    hle2 hinv2)
                  (fun _ _ => hEqA)
            | chan_ dir elem =>
              dsimp only at h
              split at h
              · exact Except.noConfusion h
              · rename_i elem2 st' hs
                injection h with h
                have h1 : some (alloc st' (.chan_ dir elem2)).1 = r := congrArg Prod.fst h
                have h2 : seenSet (alloc st' (.chan_ dir elem2)).2 t
                    (some (alloc st' (.chan_ dir elem2)).1) = st2 := congrArg Prod.snd h
                subst h1
                subst h2
                have hbelem : refBelow N elem = true := by simpa [nodeClosedB] using hclt
                have hnpe : NoPHopt (seenSet st t (some t)) ctx elem := by
                  intro e he
                  subst he
                  exact noPH_arena_eq (seenSet_arena st t (some t))
                    (noPH_step (SubStep.chanElem htn0) hnpt)
                obtain ⟨heq, hinv2⟩ := hTg asgn ctx elem _ (seenSet st t (some t)) N elem2 st'
                  hcl hemb htw hinv1 hbelem hnpe hs
                have hle1 : ArenaLe (seenSet st t (some t)) st' :=
                  arenaLe_of_evol (typesEvol g asgn ctx elem _ _ _ _ hs).1
                have hle2 : ArenaLe st' (alloc st' (.chan_ dir elem2)).2 := arenaLe_alloc st' _
                have hEqA : EqFor (alloc st' (.chan_ dir elem2)).2
                    (some (alloc st' (.chan_ dir elem2)).1) (some t) := by
                  intro st3 hle n
                  cases n with
                  | zero => exact structEqN_zero st3 _ _
                  | succ m =>
                    refine (structEqN_succ_some m st3 _ t).mpr (Or.inr ?_)
                    rw [typeAt_arenaLe hle (typeAt_alloc_self st' (.chan_ dir elem2)),
                      typeAt_arenaLe
                        (arenaLe_trans hle0 (arenaLe_trans hle1 (arenaLe_trans hle2 hle)))
                        htn0]
                    simp only [NodeEqN]
                    exact ⟨trivial, heq st3 (arenaLe_trans hle2 hle) m⟩
                refine ⟨eqFor_arenaLe (arenaLe_seenSet _ t _) hEqA, ?_⟩
                exact seenInvP_seenSet_some
                  (seenInvP_arenaLe
                    (show ((alloc st' (.chan_ dir elem2)).2).seen = st'.seen from rfl)
                    hle2 hinv2)
                  (fun _ _ => hEqA)
            | basic k =>
              injection h with h
              have h1 : some t = r := congrArg Prod.fst h
              have h2 : seenSet (seenSet st t (some t)) t (some t) = st2 := congrArg Prod.snd h
              subst h1
              subst h2
              exact ⟨eqFor_refl _ (some t),
                seenInvP_seenSet_some hinv1 (fun _ _ => eqFor_refl _ (some t))⟩
            | named obj u octx =>
              dsimp only at h
              have hnpph : ¬ IsPlaceholderAt (seenSet st t (some t)) ctx t :=
                fun hph => noPH_self hnpt hph
              rw [substituteTypesNamed_id asgn ctx arg hnpph] at h
              dsimp only at h
              injection h with h
              have h1 : some t = r := congrArg Prod.fst h
              have h2 : seenSet (seenSet st t (some t)) t (some t) = st2 := congrArg Prod.snd h
              subst h1
              subst h2
              exact ⟨eqFor_refl _ (some t),
                seenInvP_seenSet_some hinv1 (fun _ _ => eqFor_refl _ (some t))⟩
            | map_ key elem =>
              simp only [nodeClosedB, Bool.and_eq_true] at hclt
              dsimp only at h
              split at h
              · exact Except.noConfusion h
              · rename_i key2 stA hsk
                split at h
                · exact Except.noConfusion h
                · rename_i elem2 stB hse
                  injection h with h
                  have h1 : some (alloc stB (.map_ key2 elem2)).1 = r := congrArg Prod.fst h
                  have h2 : seenSet (alloc stB (.map_ key2 elem2)).2 t
                      (some (alloc stB (.map_ key2 elem2)).1) = st2 := congrArg Prod.snd h
                  subst h1
                  subst h2
                  have hnpk : NoPHopt (seenSet st t (some t)) ctx key := by
                    intro e he
                    subst he
                    exact noPH_arena_eq (seenSet_arena st t (some t))
                      (noPH_step (SubStep.mapKey htn0) hnpt)
                  obtain ⟨hkeq, hinvA⟩ := hTg asgn ctx key _ (seenSet st t (some t)) N key2
                    stA hcl hemb htw hinv1 hclt.1 hnpk hsk
                  have hle1 : ArenaLe (seenSet st t (some t)) stA :=
                    arenaLe_of_evol (typesEvol g asgn ctx key _ _ _ _ hsk).1
                  have hle01 : ArenaLe st stA := arenaLe_trans hle0 hle1
                  have hnpe : NoPHopt stA ctx elem := by
                    intro e he
                    subst he
                    exact noPH_arenaLe hcl hemb (refBelow_some_lt hclt.2) hle01
                      (noPH_step (SubStep.mapElem htn0) hnpt)
                  obtain ⟨heq, hinvB⟩ := hTg asgn ctx elem _ stA N elem2 stB
                    (closedN_arenaLe hcl hle01) (embedsBelow_arenaLe hemb hcl hle01)
                    (tupleWF_arenaLe htw hcl hle01) hinvA hclt.2 hnpe hse
                  have hle2 : ArenaLe stA stB :=
                    arenaLe_of_evol (typesEvol g asgn ctx elem _ _ _ _ hse).1
                  have hle3 : ArenaLe stB (alloc stB (.map_ key2 elem2)).2 :=
                    arenaLe_alloc stB _
                  have hEqA : EqFor (alloc stB (.map_ key2 elem2)).2
                      (some (alloc stB (.map_ key2 elem2)).1) (some t) := by
                    intro st3 hle n
                    cases n with
                    | zero => exact structEqN_zero st3 _ _
                    | succ m =>
                      refine (structEqN_succ_some m st3 _ t).mpr (Or.inr ?_)
                      rw [typeAt_arenaLe hle (typeAt_alloc_self stB (.map_ key2 elem2)),
                        typeAt_arenaLe
                          (arenaLe_trans hle01 (arenaLe_trans hle2 (arenaLe_trans hle3 hle)))
                          htn0]
                      simp only [NodeEqN]
                      exact ⟨hkeq st3 (arenaLe_trans hle2 (arenaLe_trans hle3 hle)) m,
                        heq st3 (arenaLe_trans hle3 hle) m⟩
                  refine ⟨eqFor_arenaLe (arenaLe_seenSet _ t _) hEqA, ?_⟩
                  exact seenInvP_seenSet_some
                    (seenInvP_arenaLe
                      (show ((alloc stB (.map_ key2 elem2)).2).seen = stB.seen from rfl)
                      hle3 hinvB)
                    (fun _ _ => hEqA)
            | tuple vars =>
              dsimp only at h
              split at h
              · exact Except.noConfusion h
              · rename_i vars2 st' hs
                injection h with h
                have h1 : some (alloc st' (.tuple vars2)).1 = r := congrArg Prod.fst h
                have h2 : seenSet (alloc st' (.tuple vars2)).2 t
                    (some (alloc st' (.tuple vars2)).1) = st2 := congrArg Prod.snd h
                subst h1
                subst h2
                have hnpv : NoPHvars (seenSet st t (some t)) ctx vars := by
                  intro vv e hm he
                  exact noPH_arena_eq (seenSet_arena st t (some t))
                    (noPH_step (SubStep.tupleVar htn0 hm he) hnpt)
                obtain ⟨hveq, hinv2⟩ := hVsI asgn ctx vars _ (seenSet st t (some t)) N vars2
                  st' hcl hemb htw hinv1 hclt hnpv hs
                have hle1 : ArenaLe (seenSet st t (some t)) st' :=
                  arenaLe_of_evol (varsEvol_of (varEvol_of (objectEvol_of (typesEvol g)))
                    asgn ctx vars _ _ vars2 st' hs)
                have hle2 : ArenaLe st' (alloc st' (.tuple vars2)).2 := arenaLe_alloc st' _
                have hEqA : EqFor (alloc st' (.tuple vars2)).2
                    (some (alloc st' (.tuple vars2)).1) (some t) := by
                  intro st3 hle n
                  cases n with
                  | zero => exact structEqN_zero st3 _ _
                  | succ m =>
                    refine (structEqN_succ_some m st3 _ t).mpr (Or.inr ?_)
                    rw [typeAt_arenaLe hle (typeAt_alloc_self st' (.tuple vars2)),
                      typeAt_arenaLe
                        (arenaLe_trans hle0 (arenaLe_trans hle1 (arenaLe_trans hle2 hle)))
                        htn0]
                    simp only [NodeEqN]
                    exact hveq st3 (arenaLe_trans hle2 hle) m
                refine ⟨eqFor_arenaLe (arenaLe_seenSet _ t _) hEqA, ?_⟩
                exact seenInvP_seenSet_some
                  (seenInvP_arenaLe
                    (show ((alloc st' (.tuple vars2)).2).seen = st'.seen from rfl)
                    hle2 hinv2)
                  (fun _ _ => hEqA)
            | struct_ fields tags offsets typeParams =>
              simp only [nodeClosedB, Bool.and_eq_true] at hclt
              dsimp only at h
              split at h
              · exact Except.noConfusion h
              · rename_i fields2 stA hsf
                split at h
                · exact Except.noConfusion h
                · rename_i tps2 stB hstp
                  injection h with h
                  have h1 : some (alloc stB (.struct_ fields2 tags offsets tps2)).1 = r :=
                    congrArg Prod.fst h
                  have h2 : seenSet (alloc stB (.struct_ fields2 tags offsets tps2)).2 t
                      (some (alloc stB (.struct_ fields2 tags offsets tps2)).1) = st2 :=
                    congrArg Prod.snd h
                  subst h1
                  subst h2
                  have hnpf : NoPHvars (seenSet st t (some t)) ctx fields := by
                    intro vv e hm he
                    exact noPH_arena_eq (seenSet_arena st t (some t))
                      (noPH_step (SubStep.structField htn0 hm he) hnpt)
                  obtain ⟨hveq, hinvA⟩ := hVsI asgn ctx fields _ (seenSet st t (some t)) N
                    fields2 stA hcl hemb htw hinv1 hclt.1 hnpf hsf
                  have hle1 : ArenaLe (seenSet st t (some t)) stA :=
                    arenaLe_of_evol (varsEvol_of (varEvol_of (objectEvol_of (typesEvol g)))
                      asgn ctx fields _ _ fields2 stA hsf)
                  have hle01 : ArenaLe st stA := arenaLe_trans hle0 hle1
                  have hnptp : NoPHtypeNames stA ctx typeParams := by
                    intro tt e hm he
                    exact noPH_arenaLe hcl hemb
                      (refBelow_opt (typeNamesBelow_mem hclt.2 hm) he) hle01
                      (noPH_step (SubStep.structTypeParam htn0 hm he) hnpt)
                  obtain ⟨htneq, hinvB⟩ := hNsI asgn ctx typeParams _ stA N tps2 stB
                    (closedN_arenaLe hcl hle01) (embedsBelow_arenaLe hemb hcl hle01)
                    (tupleWF_arenaLe htw hcl hle01) hinvA hclt.2 hnptp hstp
                  have hle2 : ArenaLe stA stB :=
                    arenaLe_of_evol (typeNamesEvol_of (typeNameEvol_of (objectEvol_of
                      (typesEvol g))) asgn ctx typeParams _ stA tps2 stB hstp)
                  have hle3 : ArenaLe stB (alloc stB (.struct_ fields2 tags offsets tps2)).2 :=
                    arenaLe_alloc stB _
                  have hEqA : EqFor (alloc stB (.struct_ fields2 tags offsets tps2)).2
                      (some (alloc stB (.struct_ fields2 tags offsets tps2)).1) (some t) := by
                    intro st3 hle n
                    cases n with
                    | zero => exact structEqN_zero st3 _ _
                    | succ m =>
                      refine (structEqN_succ_some m st3 _ t).mpr (Or.inr ?_)
                      rw [typeAt_arenaLe hle
                          (typeAt_alloc_self stB (.struct_ fields2 tags offsets tps2)),
                        typeAt_arenaLe
                          (arenaLe_trans hle01 (arenaLe_trans hle2 (arenaLe_trans hle3 hle)))
                          htn0]
                      simp only [NodeEqN]
                      exact ⟨trivial, trivial,
                        hveq st3 (arenaLe_trans hle2 (arenaLe_trans hle3 hle)) m,
                        htneq st3 (arenaLe_trans hle3 hle) m⟩
                  refine ⟨eqFor_arenaLe (arenaLe_seenSet _ t _) hEqA, ?_⟩
                  exact seenInvP_seenSet_some
                    (seenInvP_arenaLe
                      (show ((alloc stB (.struct_ fields2 tags offsets tps2)).2).seen
                        = stB.seen from rfl)
                      hle3 hinvB)
                    (fun _ _ => hEqA)
            | signature scope recv params results variadic typeParams =>
              simp only [nodeClosedB, Bool.and_eq_true] at hclt
              obtain ⟨hpshape, hqshape⟩ := htw t ht scope recv params results variadic
                typeParams htn0
              dsimp only at h
              split at h
              · exact Except.noConfusion h
              · rename_i params2 stA hsp
                split at h
                · exact Except.noConfusion h
                · rename_i results2 stB hsq
                  split at h
                  · exact Except.noConfusion h
                  · rename_i tps2 stC hstp
                    injection h with h
                    have h1 : some (alloc stC
                        (.signature scope recv params2 results2 variadic tps2)).1 = r :=
                      congrArg Prod.fst h
                    have h2 : seenSet (alloc stC
                        (.signature scope recv params2 results2 variadic tps2)).2 t
                        (some (alloc stC
                          (.signature scope recv params2 results2 variadic tps2)).1) = st2 :=
                      congrArg Prod.snd h
                    subst h1
                    subst h2
                    have hnpp : NoPHopt (seenSet st t (some t)) ctx params := by
                      intro e he
                      subst he
                      exact noPH_arena_eq (seenSet_arena st t (some t))
                        (noPH_step (SubStep.sigParams htn0) hnpt)
                    have hpshape1 : ∀ o, params = some o →
                        ∃ vs, typeAt (seenSet st t (some t)) o = some (.tuple vs) := hpshape
                    obtain ⟨hpeq, hinvA⟩ := hTupI asgn ctx params _ (seenSet st t (some t)) N
                      params2 stA hcl hemb htw hinv1 hclt.1.1 hpshape1 hnpp hsp
                    have hle1 : ArenaLe (seenSet st t (some t)) stA :=
                      arenaLe_of_evol (tupleEvol_of (fun m _ => typesEvol m) asgn ctx params
                        _ _ params2 stA hsp)
                    have hle01 : ArenaLe st stA := arenaLe_trans hle0 hle1
                    have hnpq : NoPHopt stA ctx results := by
                      intro e he
                      subst he
                      exact noPH_arenaLe hcl hemb (refBelow_some_lt hclt.1.2) hle01
                        (noPH_step (SubStep.sigResults htn0) hnpt)
                    have hqshape1 : ∀ o, results = some o →
                        ∃ vs, typeAt stA o = some (.tuple vs) := by
                      intro o ho
                      obtain ⟨vs, hvs⟩ := hqshape o ho
                      exact ⟨vs, typeAt_arenaLe hle01 hvs⟩
                    obtain ⟨hqeq, hinvB⟩ := hTupI asgn ctx results _ stA N results2 stB
                      (closedN_arenaLe hcl hle01) (embedsBelow_arenaLe hemb hcl hle01)
                      (tupleWF_arenaLe htw hcl hle01) hinvA hclt.1.2 hqshape1 hnpq hsq
                    have hle2 : ArenaLe stA stB :=
                      arenaLe_of_evol (tupleEvol_of (fun m _ => typesEvol m) asgn ctx results
                        _ stA results2 stB hsq)
                    have hle02 : ArenaLe st stB := arenaLe_trans hle01 hle2
                    have hnptp : NoPHtypeNames stB ctx typeParams := by
                      intro tt e hm he
                      exact noPH_arenaLe hcl hemb
                        (refBelow_opt (typeNamesBelow_mem hclt.2 hm) he) hle02
                        (noPH_step (SubStep.sigTypeParam htn0 hm he) hnpt)
                    obtain ⟨htneq, hinvC⟩ := hNsI asgn ctx typeParams _ stB N tps2 stC
                      (closedN_arenaLe hcl hle02) (embedsBelow_arenaLe hemb hcl hle02)
                      (tupleWF_arenaLe htw hcl hle02) hinvB hclt.2 hnptp hstp
                    have hle3 : ArenaLe stB stC :=
                      arenaLe_of_evol (typeNamesEvol_of (typeNameEvol_of (objectEvol_of
                        (typesEvol g))) asgn ctx typeParams _ stB tps2 stC hstp)
                    have hle4 : ArenaLe stC (alloc stC
                        (.signature scope recv params2 results2 variadic tps2)).2 :=
                      arenaLe_alloc stC _
                    have hEqA : EqFor (alloc stC
                        (.signature scope recv params2 results2 variadic tps2)).2
                        (some (alloc stC
                          (.signature scope recv params2 results2 variadic tps2)).1)
                        (some t) := by
                      intro st3 hle n
                      cases n with
                      | zero => exact structEqN_zero st3 _ _
                      | succ m =>
                        refine (structEqN_succ_some m st3 _ t).mpr (Or.inr ?_)
                        rw [typeAt_arenaLe hle (typeAt_alloc_self stC
                            (.signature scope recv params2 results2 variadic tps2)),
                          typeAt_arenaLe
                            (arenaLe_trans hle02
                              (arenaLe_trans hle3 (arenaLe_trans hle4 hle)))
                            htn0]
                        simp only [NodeEqN]
                        exact ⟨trivial, trivial, trivial,
                          hpeq st3
                            (arenaLe_trans hle2
                              (arenaLe_trans hle3 (arenaLe_trans hle4 hle))) m,
                          hqeq st3 (arenaLe_trans hle3 (arenaLe_trans hle4 hle)) m,
                          htneq st3 (arenaLe_trans hle4 hle) m⟩
                    refine ⟨eqFor_arenaLe (arenaLe_seenSet _ t _) hEqA, ?_⟩
                    exact seenInvP_seenSet_some
                      (seenInvP_arenaLe
                        (show ((alloc stC
                          (.signature scope recv params2 results2 variadic tps2)).2).seen
                          = stC.seen from rfl)
                        hle4 hinvC)
                      (fun _ _ => hEqA)
            | interface_ methods embeddeds allMethods variance =>
              simp only [nodeClosedB, Bool.and_eq_true] at hclt
              dsimp only at h
              split at h
              · exact Except.noConfusion h
              · rename_i ms2 stA hsm
                split at h
                · exact Except.noConfusion h
                · rename_i es2 stB hse
                  split at h
                  · exact Except.noConfusion h
                  · rename_i ams2 stC hsa
                    injection h with h
                    have h1 : some (alloc stC (.interface_ ms2 es2 ams2 variance)).1 = r :=
                      congrArg Prod.fst h
                    have h2 : seenSet (alloc stC (.interface_ ms2 es2 ams2 variance)).2 t
                        (some (alloc stC (.interface_ ms2 es2 ams2 variance)).1) = st2 :=
                      congrArg Prod.snd h
                    subst h1
                    subst h2
                    have hnpm : NoPHfuncs (seenSet st t (some t)) ctx methods := by
                      intro ff e hm he
                      exact noPH_arena_eq (seenSet_arena st t (some t))
                        (noPH_step (SubStep.ifaceMethod htn0 hm he) hnpt)
                    obtain ⟨hmeq, hinvA⟩ := hFsI asgn ctx methods _ (seenSet st t (some t)) N
                      ms2 stA hcl hemb htw hinv1 hclt.1 hnpm hsm
                    have hle1 : ArenaLe (seenSet st t (some t)) stA :=
                      arenaLe_of_evol (funcsEvol_of (funcEvol_of (objectEvol_of
                        (typesEvol g))) asgn ctx methods _ _ ms2 stA hsm)
                    have hle01 : ArenaLe st stA := arenaLe_trans hle0 hle1
                    have hnpes : ∀ e, some e ∈ embeddeds → ¬ IsPlaceholderAt stA ctx e := by
                      intro e hm
                      exact noPH_self (noPH_arenaLe hcl hemb
                        (hemb t ht _ _ _ _ htn0 e hm) hle01
                        (noPH_step (SubStep.ifaceEmbed htn0 hm) hnpt))
                    obtain ⟨hes, hstB⟩ := substituteTypesNameds_id asgn ctx embeddeds _ stA
                      es2 stB hnpes hse
                    subst hes
                    rw [hstB] at hsa
                    have hnpa : NoPHfuncs stA ctx allMethods := by
                      intro ff e hm he
                      exact noPH_arenaLe hcl hemb
                        (refBelow_opt (funcsBelow_mem hclt.2 hm) he) hle01
                        (noPH_step (SubStep.ifaceAllMethod htn0 hm he) hnpt)
                    obtain ⟨hameq, hinvC⟩ := hFsI asgn ctx allMethods _ stA N ams2 stC
                      (closedN_arenaLe hcl hle01) (embedsBelow_arenaLe hemb hcl hle01)
                      (tupleWF_arenaLe htw hcl hle01) hinvA hclt.2 hnpa hsa
                    have hle3 : ArenaLe stA stC :=
                      arenaLe_of_evol (funcsEvol_of (funcEvol_of (objectEvol_of
                        (typesEvol g))) asgn ctx allMethods _ stA ams2 stC hsa)
                    have hle4 : ArenaLe stC
                        (alloc stC (.interface_ ms2 es2 ams2 variance)).2 :=
                      arenaLe_alloc stC _
                    have hEqA : EqFor (alloc stC (.interface_ ms2 es2 ams2 variance)).2
                        (some (alloc stC (.interface_ ms2 es2 ams2 variance)).1)
                        (some t) := by
                      intro st3 hle n
                      cases n with
                      | zero => exact structEqN_zero st3 _ _
                      | succ m =>
                        refine (structEqN_succ_some m st3 _ t).mpr (Or.inr ?_)
                        rw [typeAt_arenaLe hle (typeAt_alloc_self stC
                            (.interface_ ms2 es2 ams2 variance)),
                          typeAt_arenaLe
                            (arenaLe_trans hle01
                              (arenaLe_trans hle3 (arenaLe_trans hle4 hle)))
                            htn0]
                        simp only [NodeEqN]
                        exact ⟨trivial,
                          hmeq st3
                            (arenaLe_trans hle3 (arenaLe_trans hle4 hle)) m,
                          refsEqN_refl es2 m st3,
                          hameq st3 (arenaLe_trans hle4 hle) m⟩
                    refine ⟨eqFor_arenaLe (arenaLe_seenSet _ t _) hEqA, ?_⟩
                    exact seenInvP_seenSet_some
                      (seenInvP_arenaLe
                        (show ((alloc stC
                          (.interface_ ms2 es2 ams2 variance)).2).seen
                          = stC.seen from rfl)
                        hle4 hinvC)
                      (fun _ _ => hEqA)



/-- C9: substitution is the identity up to structural equality on
concrete types: on a closed, statically well-typed arena, a template
with no reachable type-parameter placeholder of the substitution context
substitutes, for any argument type, to a result structurally equal to
the template at every depth. -/
theorem claim_C9_identity (asgn : AssignPred) (ctx typ arg : Option TypeRef) (st : State)
    (N : Nat) (r : Option TypeRef) (st2 : State)
    (hcl : ClosedN N st) (hemb : EmbedsBelow N st) (htw : TupleWF N st)
    (hbel : refBelow N typ = true) (hnp : NoPHopt st ctx typ)
    (hrun : SubstituteTypes asgn ctx typ arg st = .ok (r, st2)) :
    ∀ n, StructEqN n st2 r typ := by
  unfold SubstituteTypes at hrun
  have hcl0 : ClosedN N { st with seen := [] } := hcl
  have hemb0 : EmbedsBelow N { st with seen := [] } := hemb
  have htw0 : TupleWF N { st with seen := [] } := htw
  have hinv0 : SeenInvP N ctx { st with seen := [] } := seenInvP_empty rfl
  have hnp0 : NoPHopt { st with seen := [] } ctx typ := fun t ht =>
    noPH_arena_eq (show ({ st with seen := [] } : State).arena = st.arena from rfl)
      (hnp t ht)
  obtain ⟨heq, _⟩ := typesId _ asgn ctx typ arg _ N r st2 hcl0 hemb0 htw0 hinv0 hbel
    hnp0 hrun
  exact fun n => heq st2 (arenaLe_refl st2) n

/-- C9 witness: the concrete template Slice(basic) substitutes to a
fresh handle that is structurally equal (at depth 2) to the template. -/
theorem claim_C9_witness :
    StructEqN 2 ⟨[.slice (some 1), .basic 0, .slice (some 1)], some [],
      [(0, some 2), (1, some 1), (1, some 1), (0, some 0)]⟩ (some 2) (some 0) := by
  have hcl : ClosedN 2 (⟨[.slice (some 1), .basic 0], some [], []⟩ : State) := by
    constructor
    · simp
    · intro i hi tn htn
      interval_cases i
      · simp [typeAt] at htn
        subst htn
        decide
      · simp [typeAt] at htn
        subst htn
        decide
  have hemb : EmbedsBelow 2 (⟨[.slice (some 1), .basic 0], some [], []⟩ : State) := by
    intro i hi ms es ams vr htn
    interval_cases i <;> simp [typeAt] at htn
  have htw : TupleWF 2 (⟨[.slice (some 1), .basic 0], some [], []⟩ : State) := by
    intro i hi sc rc p q vd tp htn
    interval_cases i <;> simp [typeAt] at htn
  have hnp : NoPHopt (⟨[.slice (some 1), .basic 0], some [], []⟩ : State) none (some 0) := by
    intro t ht
    injection ht with ht
    subst ht
    intro r' hr hph
    obtain ⟨sym, u, octx, htn, hc⟩ := hph
    rcases r' with _ | _ | n <;> simp [typeAt] at htn
  have hrun : SubstituteTypes asgnEx none (some 0) none
      (⟨[.slice (some 1), .basic 0], some [], []⟩ : State) =
      .ok (some 2, ⟨[.slice (some 1), .basic 0, .slice (some 1)], some [],
        [(0, some 2), (1, some 1), (1, some 1), (0, some 0)]⟩) := by
    simp [SubstituteTypes, substituteTypes, seenRead, seenSet, mapRead, typeAt, argNode,
      alloc, asgnEx, List.find?]
  exact claim_C9_identity asgnEx none (some 0) none
    (⟨[.slice (some 1), .basic 0], some [], []⟩ : State) 2 (some 2)
    (⟨[.slice (some 1), .basic 0, .slice (some 1)], some [],
      [(0, some 2), (1, some 1), (1, some 1), (0, some 0)]⟩ : State)
    hcl hemb htw (by decide) hnp hrun 2

end GoTypes
